import Mathlib

/-!
# MoNav OSM importer: a shallow embedding of `osmimporter.cpp`

The importer reads an OpenStreetMap XML stream in a first pass (`readXML`, `readXMLWay`,
`readXMLNode`), sorts and deduplicates the routing node ids (`Preprocess`), and maps the ways to
dense node ids and travel times in a second pass (`preprocessData`), which also assigns the
routing nodes to places. The getters and setters (`SetIDMap`, `GetIDMap`, `GetRoutingEdges`)
read and write the files of the importer; `RoutingLogic` of the client (`routinglogic.cpp`) is
embedded at the end of the definitions.

Conventions of the embedding.
* `NodeID` (a C++ `unsigned`) is a `Nat`; `int` values are `Int`.
* A C++ `double` is a value of `Double` below: the IEEE-754 binary64 numbers with
  round-to-nearest-even arithmetic, written as sign, integer significand and binary exponent.
* A file is the list of the typed records written to it; where a file is read back field by
  field (`_edges`, `_mapped_edges`, `_id_map`) it is the list of its fields, read through a
  `DataStream`.
* The functions of `RoutingLogic` that call each other run on a stack of frames, one step at a
  time, so that a call that does not return has a meaning.
* The XML pull reader is replaced by the list of the elements it delivers, attribute values of
  `id`, `lat`, `lon` and `ref` already converted by `atoi` and `atof`.
-/

namespace MoNav

set_option maxRecDepth 100000
set_option maxHeartbeats 1000000

/-! ## IEEE-754 binary64 -/

/-- A C++ `double`. `fin neg m e` is the number `(-1)^neg * m * 2^e`; arithmetic results are
canonical (`2^52 ≤ m < 2^53` and `-1074 ≤ e ≤ 971`, or subnormal with `e = -1074`, or the
zero `fin neg 0 0`). The payload and the sign of a NaN are not represented. -/
inductive Double where
  | fin (neg : Bool) (m : Nat) (e : Int)
  | inf (neg : Bool)
  | nan
  deriving DecidableEq, Repr

/-- Number of binary digits of `n`, by halving; the first argument bounds the recursion. -/
def bitLengthAux : Nat → Nat → Nat
  | 0, _ => 0
  | fuel + 1, n => if n = 0 then 0 else bitLengthAux fuel (n / 2) + 1

/-- Number of binary digits of `n`: `2^(bitLength n - 1) ≤ n < 2^(bitLength n)` for `0 < n`. -/
def bitLength (n : Nat) : Nat := bitLengthAux n n

/-- The integer nearest to `n / d`, ties going to the even one (`0 < d`). -/
def divRoundEven (n d : Nat) : Nat :=
  let q := n / d
  let r := n % d
  if 2 * r < d then q
  else if d < 2 * r then q + 1
  else if q % 2 = 0 then q else q + 1

/-- The binary64 number nearest to the exact value `n / d` (`0 < d`), with sign `neg`:
round to nearest, ties to even, gradual underflow, overflow to infinity. -/
def Double.round (neg : Bool) (n d : Nat) : Double :=
  if n = 0 then .fin neg 0 0
  else
    let l0 : Int := (bitLength n : Int) - (bitLength d : Int)
    let l : Int := if d * 2 ^ l0.toNat ≤ n * 2 ^ (-l0).toNat then l0 else l0 - 1
    let e : Int := max (l - 52) (-1074)
    let m : Nat := divRoundEven (n * 2 ^ (-e).toNat) (d * 2 ^ e.toNat)
    let m1 : Nat := if m = 2 ^ 53 then 2 ^ 52 else m
    let e1 : Int := if m = 2 ^ 53 then e + 1 else e
    if 971 < e1 then .inf neg
    else if m1 = 0 then .fin neg 0 0
    else .fin neg m1 e1

/-- Conversion of an `int` to `double`. -/
def Double.ofInt (i : Int) : Double := Double.round (decide (i < 0)) i.natAbs 1

/-- The signed integer `± m * 2^k`. -/
def signedScaled (neg : Bool) (m k : Nat) : Int :=
  if neg then -((m * 2 ^ k : Nat) : Int) else ((m * 2 ^ k : Nat) : Int)

/-- The C++ `a * b` on doubles. -/
def Double.mul : Double → Double → Double
  | .nan, _ => .nan
  | _, .nan => .nan
  | .inf s, .inf t => .inf (xor s t)
  | .inf s, .fin t k _ => if k = 0 then .nan else .inf (xor s t)
  | .fin s m _, .inf t => if m = 0 then .nan else .inf (xor s t)
  | .fin s m e, .fin t k f =>
    Double.round (xor s t) (m * k * 2 ^ (e + f).toNat) (2 ^ (-(e + f)).toNat)

/-- The C++ `a / b` on doubles. -/
def Double.div : Double → Double → Double
  | .nan, _ => .nan
  | _, .nan => .nan
  | .inf _, .inf _ => .nan
  | .inf s, .fin t _ _ => .inf (xor s t)
  | .fin s _ _, .inf t => .fin (xor s t) 0 0
  | .fin s m e, .fin t k f =>
    if k = 0 then (if m = 0 then .nan else .inf (xor s t))
    else Double.round (xor s t) (m * 2 ^ (e - f).toNat) (k * 2 ^ (f - e).toNat)

/-- The C++ `a + b` on doubles. -/
def Double.add : Double → Double → Double
  | .nan, _ => .nan
  | _, .nan => .nan
  | .inf s, .inf t => if s = t then .inf s else .nan
  | .inf s, .fin _ _ _ => .inf s
  | .fin _ _ _, .inf t => .inf t
  | .fin s m e, .fin t k f =>
    let g : Int := min e f
    let c : Int := signedScaled s m (e - g).toNat + signedScaled t k (f - g).toNat
    if c = 0 then .fin (s && t) 0 0
    else Double.round (decide (c < 0)) (c.natAbs * 2 ^ g.toNat) (2 ^ (-g).toNat)

/-- The C++ `a < b` on doubles. -/
def Double.lt : Double → Double → Bool
  | .nan, _ => false
  | _, .nan => false
  | .inf s, .inf t => s && !t
  | .inf s, .fin _ _ _ => s
  | .fin _ _ _, .inf t => !t
  | .fin s m e, .fin t k f =>
    decide (signedScaled s m (e - min e f).toNat < signedScaled t k (f - min e f).toNat)

/-- The C++ `a == b` on doubles: equality of values, so `-0.0 == 0.0` and a NaN equals nothing. -/
def Double.eq : Double → Double → Bool
  | .nan, _ => false
  | _, .nan => false
  | .inf s, .inf t => s == t
  | .inf _, .fin _ _ _ => false
  | .fin _ _ _, .inf _ => false
  | .fin s m e, .fin t k f =>
    decide (signedScaled s m (e - min e f).toNat = signedScaled t k (f - min e f).toNat)

/-- The C++ `a <= b` on doubles (`a >= b` is `Double.le b a`): false when an operand is a NaN. -/
def Double.le : Double → Double → Bool
  | .nan, _ => false
  | _, .nan => false
  | .inf s, .inf t => s || !t
  | .inf s, .fin _ _ _ => s
  | .fin _ _ _, .inf t => !t
  | .fin s m e, .fin t k f =>
    decide (signedScaled s m (e - min e f).toNat ≤ signedScaled t k (f - min e f).toNat)

/-- Whether a double is a number: neither an infinity nor a NaN. -/
def Double.isFinite : Double → Bool
  | .fin _ _ _ => true
  | _ => false

/-- The exact rational value of a finite double (`0` for infinities and NaN). -/
def Double.toRat : Double → ℚ
  | .fin neg m e => (if neg then -1 else 1) * (m : ℚ) * (2 : ℚ) ^ e
  | _ => 0

/-! ## `atof` and `printf` -/

/-- The C `isspace` in the "C" locale. -/
def isSpace (c : Char) : Bool :=
  c.toNat = 32 || (9 ≤ c.toNat && c.toNat ≤ 13)

/-- Value of a decimal digit character. -/
def digitVal (c : Char) : Nat := c.toNat - 48

/-- Value of a hexadecimal digit character. -/
def hexVal (c : Char) : Nat :=
  if c.isDigit then c.toNat - 48
  else if 97 ≤ c.toNat then c.toNat - 87 else c.toNat - 55

/-- The C `isxdigit`. -/
def isHexDigit (c : Char) : Bool :=
  c.isDigit || (97 ≤ c.toNat && c.toNat ≤ 102) || (65 ≤ c.toNat && c.toNat ≤ 70)

/-- The number written by a list of digits in the given base. -/
def parseDigits (base : Nat) (val : Char → Nat) (cs : List Char) : Nat :=
  cs.foldl (fun a c => base * a + val c) 0

/-- The exponent part of a floating constant: after the marker `lo` or `up` an optional sign and
at least one decimal digit; `0` when there is no such part. -/
def parseExponent (lo up : Char) (cs : List Char) : Int :=
  match cs with
  | [] => 0
  | c :: r =>
    if c = lo ∨ c = up then
      match r with
      | [] => 0
      | s :: r1 =>
        if s = '-' then
          (if (r1.takeWhile Char.isDigit) = [] then 0
           else -((parseDigits 10 digitVal (r1.takeWhile Char.isDigit) : Nat) : Int))
        else if s = '+' then ((parseDigits 10 digitVal (r1.takeWhile Char.isDigit) : Nat) : Int)
        else ((parseDigits 10 digitVal (r.takeWhile Char.isDigit) : Nat) : Int)
    else 0

/-- The digits after a decimal point at the head of `cs`, if there is one. -/
def fractionDigits (isDig : Char → Bool) (cs : List Char) : List Char :=
  match cs with
  | '.' :: r => r.takeWhile isDig
  | _ => []

/-- What follows the fractional part at the head of `cs`. -/
def afterFraction (isDig : Char → Bool) (cs : List Char) : List Char :=
  match cs with
  | '.' :: r => r.dropWhile isDig
  | _ => cs

/-- The unsigned decimal or hexadecimal floating constant at the head of `cs`, as `strtod`
converts it; `+0` when there is none. -/
def parseMagnitude (neg : Bool) (cs : List Char) : Double :=
  let hexBody : List Char := cs.drop 2
  let hip := hexBody.takeWhile isHexDigit
  let hfp := fractionDigits isHexDigit (hexBody.dropWhile isHexDigit)
  if ((cs.take 2).map Char.toLower = ['0', 'x']) ∧ ¬ (hip = [] ∧ hfp = []) then
    let p : Int :=
      parseExponent 'p' 'P' (afterFraction isHexDigit (hexBody.dropWhile isHexDigit))
        - 4 * (hfp.length : Int)
    Double.round neg (parseDigits 16 hexVal (hip ++ hfp) * 2 ^ p.toNat) (2 ^ (-p).toNat)
  else
    let ip := cs.takeWhile Char.isDigit
    let fp := fractionDigits Char.isDigit (cs.dropWhile Char.isDigit)
    if ip = [] ∧ fp = [] then .fin false 0 0
    else
      let p : Int :=
        parseExponent 'e' 'E' (afterFraction Char.isDigit (cs.dropWhile Char.isDigit))
          - (fp.length : Int)
      Double.round neg (parseDigits 10 digitVal (ip ++ fp) * 10 ^ p.toNat) (10 ^ (-p).toNat)

/-- The C `atof` (`strtod` with the "C" locale): leading white space, an optional sign, then
`inf`, `nan`, or a hexadecimal or decimal floating constant; the value is the nearest double,
and `0` when no conversion can be made. -/
def atof (s : String) : Double :=
  let cs := s.data.dropWhile isSpace
  let neg : Bool := cs.head? = some '-'
  let body := if cs.head? = some '-' ∨ cs.head? = some '+' then cs.tail else cs
  if (body.take 3).map Char.toLower = ['i', 'n', 'f'] then .inf neg
  else if (body.take 3).map Char.toLower = ['n', 'a', 'n'] then .nan
  else parseMagnitude neg body

/-- Decimal digits of `n`, most significant first; the first argument bounds the recursion. -/
def decimalAux : Nat → Nat → List Char
  | 0, _ => []
  | fuel + 1, n =>
    if n < 10 then [Nat.digitChar n]
    else decimalAux fuel (n / 10) ++ [Nat.digitChar (n % 10)]

/-- Decimal digits of `n`, most significant first. -/
def decimal (n : Nat) : List Char := decimalAux (n + 1) n

/-- The output of the `printf` conversion `%.<prec>f`: the exact value rounded to `prec`
decimals (ties to even), at least one digit before the point, a point only when `0 < prec`.
A NaN is printed as `nan`; `Double` does not hold the sign of a NaN, so the output `-nan` of
the C library for the value of `atof( "-nan" )` is outside this embedding. -/
def formatFixed (prec : Nat) : Double → List Char
  | .nan => ['n', 'a', 'n']
  | .inf neg => (if neg then ['-'] else []) ++ ['i', 'n', 'f']
  | .fin neg m e =>
    let scaled := divRoundEven (m * 10 ^ prec * 2 ^ e.toNat) (2 ^ (-e).toNat)
    let fp := decimal (scaled % 10 ^ prec)
    (if neg then ['-'] else []) ++ decimal (scaled / 10 ^ prec) ++
      (if prec = 0 then [] else '.' :: (List.replicate (prec - fp.length) '0' ++ fp))

/-- The libxml2 `xmlStrPrintf( buf, len, msg, d )` for the formats of the importer: a leading
`%.lf` prints `d` with no decimals, a leading `%lf` with six, the rest of `msg` is copied, and
the output is cut to `len - 1` characters. -/
def xmlStrPrintf (len : Nat) (msg : String) (d : Double) : String :=
  let out : List Char :=
    match msg.data with
    | '%' :: '.' :: 'l' :: 'f' :: rest => formatFixed 0 d ++ rest
    | '%' :: 'l' :: 'f' :: rest => formatFixed 6 d ++ rest
    | other => other
  String.mk (out.take (len - 1))

/-- The C `atoi`, which is `( int ) strtol( s, NULL, 10 )`: leading white space, an optional
sign, then decimal digits; `0` when there is no digit. The value of `strtol` stays within the
64 bits of a `long`, and the conversion to `int` keeps its low 32 bits. -/
def atoi (s : String) : Int :=
  let cs := s.data.dropWhile isSpace
  let body := if cs.head? = some '-' ∨ cs.head? = some '+' then cs.tail else cs
  let n : Int := ((parseDigits 10 digitVal (body.takeWhile Char.isDigit) : Nat) : Int)
  let value : Int := if cs.head? = some '-' then -n else n
  let long : Int := max (-2 ^ 63) (min value (2 ^ 63 - 1))
  (long + 2 ^ 31) % 2 ^ 32 - 2 ^ 31

/-! ## Data model -/

/-- The C++ `NodeID`, an `unsigned`. -/
abbrev NodeID := Nat

/-- The `Place::Type` of a node or way. -/
inductive Place where
  | None | Suburb | Hamlet | Village | Town | City
  deriving DecidableEq, Repr

/-- The `direction` of a `Way`. -/
inductive Direction where
  | NotSure | Oneway | Bidirectional | Opposite
  deriving DecidableEq, Repr

/-- A pair of latitude and longitude in degrees. -/
structure GPSCoordinate where
  latitude : Double
  longitude : Double
  deriving DecidableEq, Repr

/-- The speed profile of the settings: parallel arrays indexed by highway class. -/
structure SpeedProfile where
  names : List String
  speed : List Double
  speedInCity : List Double
  averagePercentage : List Int
  deriving Repr

/-- The importer settings `m_settings`. -/
structure Settings where
  input : String
  speedProfile : SpeedProfile
  defaultCitySpeed : Bool
  ignoreOneway : Bool
  ignoreMaxspeed : Bool
  trafficLightPenalty : Double
  accessList : List String
  deriving Repr

/-- The counters `m_statistics`. -/
structure Statistics where
  numberOfNodes : Nat
  numberOfEdges : Int
  numberOfWays : Nat
  numberOfPlaces : Nat
  numberOfOutlines : Nat
  numberOfMaxspeed : Nat
  numberOfZeroSpeed : Nat
  numberOfDefaultCitySpeed : Nat
  numberOfCityEdges : Nat
  deriving DecidableEq, Repr

/-- The counters as `Preprocess` resets them. -/
def Statistics.zero : Statistics := ⟨0, 0, 0, 0, 0, 0, 0, 0, 0⟩

/-- The record `Way` that `readXMLWay` fills. -/
structure Way where
  path : List NodeID
  name : Option String
  placeName : Option String
  placeType : Place
  type : Int
  maximumSpeed : Double
  direction : Direction
  usefull : Bool
  access : Bool
  accessPriority : Int
  deriving DecidableEq, Repr

/-- The record `Node` that `readXMLNode` fills. -/
structure Node where
  id : NodeID
  latitude : Double
  longitude : Double
  name : Option String
  type : Place
  population : Int
  trafficSignal : Bool
  deriving DecidableEq, Repr

/-- A child element of a `way` element as the reader delivers it: a `tag` with both attributes
`k` and `v`, an `nd` with its `ref` (converted to a `NodeID`), or anything else, which
`readXMLWay` skips (other elements, a `tag` or `nd` without its attributes). -/
inductive WayChild where
  | tag (k v : String)
  | nd (ref : NodeID)
  | other
  deriving DecidableEq, Repr

/-- A child element of a `node` element: a `tag` with both attributes, or anything else. -/
inductive NodeChild where
  | tag (k v : String)
  | other
  deriving DecidableEq, Repr

/-- A top-level element of the OSM stream. A `node` carries its converted attributes `id`, `lat`
and `lon`; a `bound` carries the doubles of its comma separated `box` attribute, if present. -/
inductive Element where
  | node (id : NodeID) (lat lon : Double) (children : List NodeChild)
  | way (children : List WayChild)
  | bound (box : Option (List Double))
  | other
  deriving Repr

/-! ## Pass 1: tag interpretation -/

/-- The templates `m_kmhStrings` of the constructor. -/
def kmhStrings : List String :=
  ["%.lf", "%.lf kmh", "%.lf km/h", "%.lfkmh", "%.lfkm/h",
   "%lf", "%lf kmh", "%lf km/h", "%lfkmh", "%lfkm/h"]

/-- The templates `m_mphStrings` of the constructor. -/
def mphStrings : List String :=
  ["%.lf mph", "%.lfmph", "%lf mph", "%lfmph"]

/-- The `double` literal `1.609344`. -/
def kmPerMile : Double := Double.round false 1609344 1000000

/-- Whether some template, filled with `maxspeed`, is byte-equal to `value`: the loops over
`m_kmhStrings` and `m_mphStrings` leave at the first such template. -/
def matchesTemplate (templates : List String) (value : String) (maxspeed : Double) : Bool :=
  templates.any (fun t => decide (xmlStrPrintf 100 t maxspeed = value))

/-- The Qt `QStringList::indexOf`: the first index of `key`, or `-1`. -/
def qIndexOf (l : List String) (key : String) : Int :=
  if l.indexOf key < l.length then (l.indexOf key : Int) else -1

/-- The values that deny access. -/
def isDenyValue (value : String) : Bool :=
  value = "private" ∨ value = "no" ∨ value = "agricultural" ∨ value = "forestry"
    ∨ value = "delivery"

/-- The values that allow access. -/
def isAllowValue (value : String) : Bool :=
  value = "yes" ∨ value = "designated" ∨ value = "official" ∨ value = "permissive"

/-- The value of a `place` tag as a `Place::Type`, if it is one of the five recognized. -/
def placeOfValue (value : String) : Option Place :=
  if value = "city" then some .City
  else if value = "town" then some .Town
  else if value = "village" then some .Village
  else if value = "hamlet" then some .Hamlet
  else if value = "suburb" then some .Suburb
  else none

/-- The way as `readXMLWay` initializes it. -/
def Way.initial (settings : Settings) : Way where
  path := []
  name := none
  placeName := none
  placeType := .None
  type := -1
  maximumSpeed := Double.ofInt (-1)
  direction := .NotSure
  usefull := false
  access := true
  accessPriority := (settings.accessList.length : Int)

/-- The branch of `readXMLWay` for the key `oneway`. -/
def onewayTag (way : Way) (value : String) : Way :=
  if value = "no" ∨ value = "false" ∨ value = "0" then { way with direction := .Bidirectional }
  else if value = "yes" ∨ value = "true" ∨ value = "1" then { way with direction := .Oneway }
  else if value = "-1" then { way with direction := .Opposite }
  else way

/-- The branch of `readXMLWay` for the key `junction`. -/
def junctionTag (way : Way) (value : String) : Way :=
  if value = "roundabout" ∧ way.direction = .NotSure then { way with direction := .Oneway }
  else way

/-- The branch of `readXMLWay` for the key `highway`: the implied oneway of motorways, then the
first entry of the speed profile with the name `value`. -/
def highwayTag (settings : Settings) (way : Way) (value : String) : Way :=
  let way1 : Way :=
    if (value = "motorway" ∨ value = "motorway_link") ∧ way.direction = .NotSure then
      { way with direction := .Oneway }
    else way
  if settings.speedProfile.names.indexOf value < settings.speedProfile.names.length then
    { way1 with type := (settings.speedProfile.names.indexOf value : Int), usefull := true }
  else way1

/-- The branch of `readXMLWay` for the key `place`. -/
def placeTag (way : Way) (value : String) : Way :=
  match placeOfValue value with
  | some p => { way with placeType := p }
  | none => way

/-- The branch of `readXMLWay` for the key `maxspeed`: the loop over the km/h templates, then
the loop over the mph templates. -/
def maxspeedTag (acc : Way × Statistics) (value : String) : Way × Statistics :=
  let maxspeed := atof value
  let acc1 : Way × Statistics :=
    if matchesTemplate kmhStrings value maxspeed then
      ({ acc.1 with maximumSpeed := maxspeed },
        { acc.2 with numberOfMaxspeed := acc.2.numberOfMaxspeed + 1 })
    else acc
  if matchesTemplate mphStrings value maxspeed then
    ({ acc1.1 with maximumSpeed := Double.mul maxspeed kmPerMile },
      { acc1.2 with numberOfMaxspeed := acc1.2.numberOfMaxspeed + 1 })
  else acc1

/-- The last branch of `readXMLWay`, for a key that is not handled before: the access list. -/
def accessTag (settings : Settings) (way : Way) (k value : String) : Way :=
  if qIndexOf settings.accessList k ≠ -1 ∧ qIndexOf settings.accessList k < way.accessPriority then
    if isDenyValue value then
      { way with access := false, accessPriority := qIndexOf settings.accessList k }
    else if isAllowValue value then
      { way with access := true, accessPriority := qIndexOf settings.accessList k }
    else way
  else way

/-- The effect of one `tag` child with key `k` and value `value` in `readXMLWay`. -/
def readXMLWayTag (settings : Settings) (acc : Way × Statistics) (k value : String) :
    Way × Statistics :=
  if k = "oneway" then (onewayTag acc.1 value, acc.2)
  else if k = "junction" then (junctionTag acc.1 value, acc.2)
  else if k = "highway" then (highwayTag settings acc.1 value, acc.2)
  else if k = "name" then ({ acc.1 with name := some value }, acc.2)
  else if k = "place_name" then ({ acc.1 with placeName := some value }, acc.2)
  else if k = "place" then (placeTag acc.1 value, acc.2)
  else if k = "maxspeed" then maxspeedTag acc value
  else (accessTag settings acc.1 k value, acc.2)

/-- The effect of one child element in the loop of `readXMLWay`. -/
def readXMLWayChild (settings : Settings) (acc : Way × Statistics) (c : WayChild) :
    Way × Statistics :=
  match c with
  | .tag k v => readXMLWayTag settings acc k v
  | .nd ref => ({ acc.1 with path := acc.1.path ++ [ref] }, acc.2)
  | .other => acc

/-- The function `OSMImporter::readXMLWay` on the children of a `way` element (none for an empty
element); it returns the way and the updated counters. -/
def readXMLWay (settings : Settings) (stats : Statistics) (children : List WayChild) :
    Way × Statistics :=
  children.foldl (readXMLWayChild settings) (Way.initial settings, stats)

/-- The effect of one `tag` child in `readXMLNode`. -/
def readXMLNodeTag (node : Node) (k value : String) : Node :=
  if k = "place" then
    match placeOfValue value with
    | some p => { node with type := p }
    | none => node
  else if k = "name" then { node with name := some value }
  else if k = "population" then { node with population := atoi value }
  else if k = "highway" then
    (if value = "traffic_signals" then { node with trafficSignal := true } else node)
  else node

/-- The function `OSMImporter::readXMLNode` on a `node` element. -/
def readXMLNode (id : NodeID) (lat lon : Double) (children : List NodeChild) : Node :=
  children.foldl
    (fun node c =>
      match c with
      | .tag k v => readXMLNodeTag node k v
      | .other => node)
    { id := id, latitude := lat, longitude := lon, name := none, type := .None,
      population := -1, trafficSignal := false }

/-! ## Pass 1: `readXML` -/

/-- A record of the file `_all_nodes`. -/
structure NodeRecord where
  id : NodeID
  latitude : Double
  longitude : Double
  deriving DecidableEq, Repr

/-- A record of the file `_edges`: name, type, maxspeed, bidirectional flag and the node ids; the
count written in front of the node ids is the length of `nodeIds`. -/
structure EdgeRecord where
  name : String
  type : Int
  maxspeed : Double
  bidirectional : Int
  nodeIds : List NodeID
  deriving DecidableEq, Repr

/-- A record of the file `_places`. -/
structure PlaceRecord where
  latitude : Double
  longitude : Double
  type : Place
  population : Nat
  name : String
  deriving DecidableEq, Repr

/-- A record of the file `_city_outlines`; the count written is the length of `nodeIds`. -/
structure OutlineRecord where
  type : Place
  name : String
  nodeIds : List NodeID
  deriving DecidableEq, Repr

/-- The members and output files that `readXML` changes. -/
structure ImporterState where
  usedNodes : List NodeID
  outlineNodes : List NodeID
  signalNodes : List NodeID
  statistics : Statistics
  edgesData : List EdgeRecord
  placesData : List PlaceRecord
  boundingBoxData : List Double
  allNodesData : List NodeRecord
  cityOutlineData : List OutlineRecord
  deriving DecidableEq, Repr

/-- The state in which `Preprocess` calls `readXML`. -/
def ImporterState.initial : ImporterState where
  usedNodes := []
  outlineNodes := []
  signalNodes := []
  statistics := Statistics.zero
  edgesData := []
  placesData := []
  boundingBoxData := []
  allNodesData := []
  cityOutlineData := []

/-- The way as `readXML` writes it to `_edges`, after `ignoreOneway` and `ignoreMaxspeed` are
applied. -/
def wayForEdges (settings : Settings) (way : Way) : Way :=
  let way1 : Way := if settings.ignoreOneway then { way with direction := .Bidirectional } else way
  if settings.ignoreMaxspeed then { way1 with maximumSpeed := Double.ofInt (-1) } else way1

/-- The record that `readXML` writes to `_edges` for a usable way. -/
def edgeRecord (way : Way) : EdgeRecord where
  name := way.name.getD ""
  type := way.type
  maxspeed := way.maximumSpeed
  bidirectional := if way.direction = .Oneway ∨ way.direction = .Opposite then 0 else 1
  nodeIds := if way.direction = .Opposite then way.path.reverse else way.path

/-- The test `way.usefull && way.access && way.path.size() > 0` of `readXML`: a usable way. -/
def Way.usable (way : Way) : Bool :=
  way.usefull && way.access && decide (0 < way.path.length)

/-- The way that `readXMLWay` returns for the children of a `way` element; it does not depend
on the counters. -/
def parsedWay (settings : Settings) (children : List WayChild) : Way :=
  (readXMLWay settings Statistics.zero children).1

/-- The `way` branch of the loop of `readXML`. -/
def readXMLWayElement (settings : Settings) (st : ImporterState) (children : List WayChild) :
    ImporterState :=
  let parsed := readXMLWay settings { st.statistics with
    numberOfWays := st.statistics.numberOfWays + 1 } children
  let way := parsed.1
  let st1 : ImporterState := { st with statistics := parsed.2 }
  let way1 : Way := if way.usable then wayForEdges settings way else way
  let way2 : Way :=
    if way.usable ∧ way1.direction = .Opposite then { way1 with path := way1.path.reverse }
    else way1
  let st2 : ImporterState :=
    if way.usable then
      { st1 with
        usedNodes := st1.usedNodes ++ way.path
        edgesData := st1.edgesData ++ [edgeRecord way1]
        statistics := { st1.statistics with
          numberOfEdges := st1.statistics.numberOfEdges + ((way.path.length : Int) - 1) } }
    else st1
  if way2.placeType ≠ .None ∧ 1 < way2.path.length ∧ way2.path.head? = way2.path.getLast?
      ∧ way2.placeName ≠ none then
    { st2 with
      outlineNodes := st2.outlineNodes ++ way2.path.tail
      cityOutlineData := st2.cityOutlineData ++
        [{ type := way2.placeType, name := way2.placeName.getD "", nodeIds := way2.path.tail }]
      statistics := { st2.statistics with
        numberOfOutlines := st2.statistics.numberOfOutlines + 1 } }
  else st2

/-- The `node` branch of the loop of `readXML`. -/
def readXMLNodeElement (st : ImporterState) (id : NodeID) (lat lon : Double)
    (children : List NodeChild) : ImporterState :=
  let node := readXMLNode id lat lon children
  let st1 : ImporterState := { st with
    statistics := { st.statistics with numberOfNodes := st.statistics.numberOfNodes + 1 }
    signalNodes := if node.trafficSignal then st.signalNodes ++ [node.id] else st.signalNodes
    allNodesData := st.allNodesData ++ [⟨node.id, node.latitude, node.longitude⟩] }
  match node.name with
  | some name =>
    if node.type ≠ .None then
      { st1 with
        placesData := st1.placesData ++
          [⟨node.latitude, node.longitude, node.type, (node.population % 4294967296).toNat, name⟩]
        statistics := { st1.statistics with
          numberOfPlaces := st1.statistics.numberOfPlaces + 1 } }
    else st1
  | none => st1

/-- One round of the loop of `readXML`; `none` is the `return false` for a `box` attribute
that has not four parts. -/
def readXMLElement (settings : Settings) (st : ImporterState) : Element → Option ImporterState
  | .node id lat lon children => some (readXMLNodeElement st id lat lon children)
  | .way children => some (readXMLWayElement settings st children)
  | .bound (some box) =>
    if box.length ≠ 4 then none
    else some { st with boundingBoxData := st.boundingBoxData ++ box }
  | .bound none => some st
  | .other => some st

/-- The function `OSMImporter::readXML` on the element stream (the files are open, the reader
is there); `none` is the result `false`. -/
def readXML (settings : Settings) : ImporterState → List Element → Option ImporterState
  | st, [] => some st
  | st, el :: rest =>
    match readXMLElement settings st el with
    | none => none
    | some st1 => readXML settings st1 rest

/-! ## `Preprocess`: sorting and deduplication -/

/-- The C++ `std::unique` followed by the `resize`: of every run of equal neighbours the first
element is kept. -/
def unique : List NodeID → List NodeID
  | [] => []
  | [a] => [a]
  | a :: b :: l => if a = b then unique (b :: l) else a :: unique (b :: l)

/-- The lines `std::sort` and `std::unique` of `Preprocess` on one vector. -/
def sortUnique (l : List NodeID) : List NodeID := unique (l.insertionSort (· ≤ ·))

/-- The loop of `std::lower_bound`: `first` and `len` delimit the range still searched; the
first argument bounds the number of rounds. -/
def lowerBoundAux (xs : List NodeID) (val : NodeID) : Nat → Nat → Nat → Nat
  | 0, first, _ => first
  | fuel + 1, first, len =>
    if len = 0 then first
    else if xs.getD (first + len / 2) 0 < val then
      lowerBoundAux xs val fuel (first + len / 2 + 1) (len - len / 2 - 1)
    else lowerBoundAux xs val fuel first (len / 2)

/-- The C++ `std::lower_bound( xs.begin(), xs.end(), val ) - xs.begin()` by bisection. -/
def lower_bound (xs : List NodeID) (val : NodeID) : Nat :=
  lowerBoundAux xs val xs.length 0 xs.length

/-- The state of the members after the sorting lines of `Preprocess`. -/
def sortMembers (st : ImporterState) : ImporterState :=
  { st with
    usedNodes := sortUnique st.usedNodes
    outlineNodes := sortUnique st.outlineNodes
    signalNodes := st.signalNodes.insertionSort (· ≤ ·) }

/-! ## Pass 2: `preprocessData` -/

/-- The coordinate `GPSCoordinate( -1, -1 )` of a node without a record in `_all_nodes`. -/
def missingCoordinate : GPSCoordinate := ⟨Double.ofInt (-1), Double.ofInt (-1)⟩

/-- The test `latitude == -1 && longitude == -1`. -/
def GPSCoordinate.isMissing (c : GPSCoordinate) : Bool :=
  Double.eq c.latitude (Double.ofInt (-1)) && Double.eq c.longitude (Double.ofInt (-1))

/-- One lookup of the first loop of `preprocessData`: the coordinate is stored in the slot of
`node` if `node` is in the sorted vector `ids`. -/
def storeCoordinate (ids : List NodeID) (coords : List GPSCoordinate) (node : NodeID)
    (gps : GPSCoordinate) : List GPSCoordinate :=
  if lower_bound ids node < ids.length ∧ ids.getD (lower_bound ids node) 0 = node then
    coords.set (lower_bound ids node) gps
  else coords

/-- The first loop of `preprocessData` for one sorted vector of ids: the coordinates of the
ids, read from `_all_nodes`. -/
def filterCoordinates (ids : List NodeID) (allNodes : List NodeRecord) : List GPSCoordinate :=
  allNodes.foldl (fun coords r => storeCoordinate ids coords r.id ⟨r.latitude, r.longitude⟩)
    (List.replicate ids.length missingCoordinate)

/-- The entry `NodeLocation` of a routing node. -/
structure NodeLocation where
  isInPlace : Bool
  place : Nat
  distance : Double
  deriving DecidableEq, Repr

/-- A record of the file `_mapped_edges`: name, bidirectional flag, the dense node ids (their
count is written in front of them) and the seconds values that follow. -/
structure MappedRecord where
  name : String
  bidirectional : Int
  nodeIds : List NodeID
  seconds : List Double
  deriving DecidableEq, Repr

/-- What the edge loop of `preprocessData` reads besides the `_edges` file. `Distance` stands
for `GPSCoordinate::Distance` of `utils/coordinates.h`. -/
structure EdgeContext where
  settings : Settings
  usedNodes : List NodeID
  signalNodes : List NodeID
  nodeCoordinates : List GPSCoordinate
  nodeLocation : List NodeLocation
  Distance : GPSCoordinate → GPSCoordinate → Double

/-- The loop that reads the node ids of one way and maps them. `valid` and `way` are the
variables of the source; `none` is an index into `nodeCoordinates` that is out of range. -/
def mapNodes (ctx : EdgeContext) : List NodeID → Bool → List NodeID → Option (Bool × List NodeID)
  | [], valid, way => some (valid, way)
  | node :: rest, valid, way =>
    if !valid then mapNodes ctx rest valid way
    else
      match ctx.nodeCoordinates[lower_bound ctx.usedNodes node]? with
      | none => none
      | some c =>
        mapNodes ctx rest (!c.isMissing) (way ++ [lower_bound ctx.usedNodes node])

/-- Whether `id` is found in the sorted vector `m_signalNodes` by `std::lower_bound`. -/
def isSignal (signalNodes : List NodeID) (id : NodeID) : Bool :=
  decide (lower_bound signalNodes id < signalNodes.length)
    && decide (signalNodes.getD (lower_bound signalNodes id) 0 = id)

/-- The test `nodeLocation[a].isInPlace || nodeLocation[b].isInPlace`, the second entry read
only when the first is not in a place; `none` is an index out of range. -/
def eitherInPlace (nodeLocation : List NodeLocation) (a b : NodeID) : Option Bool :=
  match nodeLocation[a]? with
  | none => none
  | some la => if la.isInPlace then some true else (nodeLocation[b]?).map (fun lb => lb.isInPlace)

/-- The speed `tempSpeed` of the segment between the dense ids `a` and `b`, before the average
percentage is applied, and the updated counters; `none` is a failed assertion or an index out
of range. -/
def segmentBaseSpeed (ctx : EdgeContext) (stats : Statistics) (speed : Double) (type : Int)
    (a b : NodeID) : Option (Double × Statistics) :=
  if Double.lt speed (Double.ofInt 0) then
    if type < (ctx.settings.speedProfile.names.length : Int) then
      if ctx.settings.defaultCitySpeed then
        match eitherInPlace ctx.nodeLocation a b with
        | none => none
        | some true =>
          (ctx.settings.speedProfile.speedInCity[type.toNat]?).map (fun v =>
            (v, { stats with numberOfDefaultCitySpeed := stats.numberOfDefaultCitySpeed + 1 }))
        | some false => (ctx.settings.speedProfile.speed[type.toNat]?).map (fun v => (v, stats))
      else (ctx.settings.speedProfile.speed[type.toNat]?).map (fun v => (v, stats))
    else none
  else some (speed, stats)

/-- The speed of the segment after the average percentage of its class is applied, and the
updated counters. -/
def segmentSpeed (ctx : EdgeContext) (stats : Statistics) (speed : Double) (type : Int)
    (a b : NodeID) : Option (Double × Statistics) :=
  match segmentBaseSpeed ctx stats speed type a b with
  | none => none
  | some (tempSpeed, stats1) =>
    if type < (ctx.settings.speedProfile.names.length : Int) then
      match eitherInPlace ctx.nodeLocation a b,
        ctx.settings.speedProfile.averagePercentage[type.toNat]? with
      | some inPlace, some pct =>
        some (Double.mul tempSpeed (Double.div (Double.ofInt pct) (Double.ofInt 100)),
          if inPlace then { stats1 with numberOfCityEdges := stats1.numberOfCityEdges + 1 }
          else stats1)
      | _, _ => none
    else some (tempSpeed, stats1)

/-- The penalty lines of the segment loop: half of `trafficLightPenalty` is added for each of
the ids `a` and `b` that `std::lower_bound` finds in `m_signalNodes`. -/
def addSignalPenalty (ctx : EdgeContext) (seconds : Double) (a b : NodeID) : Double :=
  let half := Double.div ctx.settings.trafficLightPenalty (Double.ofInt 2)
  let seconds1 := if isSignal ctx.signalNodes a then Double.add seconds half else seconds
  if isSignal ctx.signalNodes b then Double.add seconds1 half else seconds1

/-- The body of the segment loop of `preprocessData` for the segment between the dense ids `a`
and `b`: the seconds value written and the updated counters. -/
def segmentSeconds (ctx : EdgeContext) (stats : Statistics) (speed : Double) (type : Int)
    (a b : NodeID) : Option (Double × Statistics) :=
  match ctx.nodeCoordinates[a]?, ctx.nodeCoordinates[b]? with
  | some fromCoordinate, some toCoordinate =>
    match segmentSpeed ctx stats speed type a b with
    | none => none
    | some (tempSpeed, stats1) =>
      some (addSignalPenalty ctx
        (Double.div (Double.mul (ctx.Distance fromCoordinate toCoordinate) (Double.ofInt 36))
          tempSpeed) a b, stats1)
  | _, _ => none

/-- The segment loop of `preprocessData` over the mapped path `way`. -/
def segmentLoop (ctx : EdgeContext) (speed : Double) (type : Int) :
    List NodeID → Statistics → List Double → Option (List Double × Statistics)
  | a :: b :: rest, stats, out =>
    match segmentSeconds ctx stats speed type a b with
    | none => none
    | some (seconds, stats1) => segmentLoop ctx speed type (b :: rest) stats1 (out ++ [seconds])
  | _, stats, out => some (out, stats)

/-- One round of the edge loop of `preprocessData` for the record `r` of `_edges`: the record
appended to `_mapped_edges`, if any, and the updated counters; `none` is undefined behaviour
of the source (an index out of range or a failed assertion). -/
def mapWay (ctx : EdgeContext) (stats : Statistics) (r : EdgeRecord) :
    Option (Option MappedRecord × Statistics) :=
  match mapNodes ctx r.nodeIds (!Double.eq r.maxspeed (Double.ofInt 0)) [] with
  | none => none
  | some (valid, way) =>
    if !valid then some (none, stats)
    else if Double.eq r.maxspeed (Double.ofInt 0)
        || (Double.lt r.maxspeed (Double.ofInt 0) && decide (r.type < 0)) then
      some (some ⟨r.name, r.bidirectional, way, []⟩,
        { stats with numberOfZeroSpeed := stats.numberOfZeroSpeed + 1 })
    else
      let type : Int :=
        if r.type < 0 then (ctx.settings.speedProfile.names.length : Int) else r.type
      match segmentLoop ctx r.maxspeed type way stats [] with
      | none => none
      | some (seconds, stats1) => some (some ⟨r.name, r.bidirectional, way, seconds⟩, stats1)

/-- The edge loop of `preprocessData`: the records written to `_mapped_edges` and the
counters, for the records of `_edges` in order. -/
def mapWays (ctx : EdgeContext) :
    List EdgeRecord → Statistics → List MappedRecord → Option (List MappedRecord × Statistics)
  | [], stats, out => some (out, stats)
  | r :: rest, stats, out =>
    match mapWay ctx stats r with
    | none => none
    | some (none, stats1) => mapWays ctx rest stats1 out
    | some (some m, stats1) => mapWays ctx rest stats1 (out ++ [m])

/-- The context of the edge loop after pass 1 ended in the state `st`: the members sorted by
`Preprocess`, the coordinates of the routing nodes filtered from `_all_nodes`, and the
`nodeLocation` vector computed from the places. -/
def edgeContext (settings : Settings) (st : ImporterState) (nodeLocation : List NodeLocation)
    (Distance : GPSCoordinate → GPSCoordinate → Double) : EdgeContext where
  settings := settings
  usedNodes := (sortMembers st).usedNodes
  signalNodes := (sortMembers st).signalNodes
  nodeCoordinates := filterCoordinates (sortMembers st).usedNodes st.allNodesData
  nodeLocation := nodeLocation
  Distance := Distance

/-- The file `_mapped_edges` that `Preprocess` produces from the element stream, given the
`nodeLocation` vector of the place assignment: pass 1, the sorting lines, the coordinate filter
and the edge loop. `none` is an empty speed profile, a `false` result of pass 1, no routing
node, or undefined behaviour in the edge loop. -/
def mappedEdges (settings : Settings) (Distance : GPSCoordinate → GPSCoordinate → Double)
    (nodeLocation : List NodeLocation) (elements : List Element) : Option (List MappedRecord) :=
  if settings.speedProfile.names.length = 0 then none
  else
    match readXML settings ImporterState.initial elements with
    | none => none
    | some st =>
      if st.usedNodes.length = 0 then none
      else
        (mapWays (edgeContext settings st nodeLocation Distance) st.edgesData
          st.statistics []).map Prod.fst

/-! ## What pass 1 appends for one element -/

/-- The node ids that `readXML` appends to `m_usedNodes` for one element. -/
def elementUsedNodes (settings : Settings) : Element → List NodeID
  | .way children =>
    if (parsedWay settings children).usable then (parsedWay settings children).path else []
  | _ => []

/-- The records that `readXML` appends to `_edges` for one element. -/
def elementEdges (settings : Settings) : Element → List EdgeRecord
  | .way children =>
    if (parsedWay settings children).usable then
      [edgeRecord (wayForEdges settings (parsedWay settings children))]
    else []
  | _ => []

/-- The node ids that `readXML` appends to `m_signalNodes` for one element. -/
def elementSignalNodes : Element → List NodeID
  | .node id lat lon children => if (readXMLNode id lat lon children).trafficSignal then [id] else []
  | _ => []

/-- The records that `readXML` appends to `_all_nodes` for one element. -/
def elementAllNodes : Element → List NodeRecord
  | .node id lat lon children =>
    [⟨id, (readXMLNode id lat lon children).latitude, (readXMLNode id lat lon children).longitude⟩]
  | _ => []

/-! ## Scenarios of the specification -/

/-- The settings of scenario S1: the class `residential` at 30 km/h with an average percentage
of 100, no access list, no penalty. -/
def scenarioSettings : Settings where
  input := "map.osm"
  speedProfile :=
    { names := ["residential"], speed := [Double.ofInt 30], speedInCity := [Double.ofInt 30],
      averagePercentage := [100] }
  defaultCitySpeed := false
  ignoreOneway := false
  ignoreMaxspeed := false
  trafficLightPenalty := Double.ofInt 0
  accessList := []

/-- The stream of scenario S1: node 1 at (0.0, 0.0), node 2 at (0.0, 0.001), and a residential
way over the nodes 1 and 2. -/
def scenarioS1 : List Element :=
  [.node 1 (atof "0.0") (atof "0.0") [],
   .node 2 (atof "0.0") (atof "0.001") [],
   .way [.nd 1, .nd 2, .tag "highway" "residential"]]

/-- A stream with two usable ways over the nodes 7, 3, 7 and 3, 5 and a way without a highway
class over the node 9. -/
def scenarioTwoWays : List Element :=
  [.way [.nd 7, .nd 3, .nd 7, .tag "highway" "residential"],
   .way [.nd 9, .tag "name" "Quay"],
   .way [.tag "highway" "residential", .nd 3, .nd 5]]

/-- A stand-in for `GPSCoordinate::Distance` in the concrete scenarios: 111.32 between any two
coordinates, the length that scenario S1 gives for its segment. -/
def scenarioDistance : GPSCoordinate → GPSCoordinate → Double :=
  fun _ _ => atof "111.32"

/-! ## The tag table of the specification -/

/-- The direction that a recognized value of a `oneway` tag stands for in the tag table of the
specification: `yes|true|1` is Oneway, `no|false|0` is Bidirectional, `-1` is Opposite. -/
def onewayMapping (value : String) : Option Direction :=
  if value = "yes" ∨ value = "true" ∨ value = "1" then some .Oneway
  else if value = "no" ∨ value = "false" ∨ value = "0" then some .Bidirectional
  else if value = "-1" then some .Opposite
  else none

/-- The direction of a child that is a `oneway` tag with a recognized value. -/
def explicitOneway : WayChild → Option Direction
  | .tag k v => if k = "oneway" then onewayMapping v else none
  | _ => none

/-- Whether a child is one of the tags that imply a oneway: `junction=roundabout`,
`highway=motorway` or `highway=motorway_link`. -/
def impliesOneway : WayChild → Bool
  | .tag k v =>
    decide ((k = "junction" ∧ v = "roundabout")
      ∨ (k = "highway" ∧ (v = "motorway" ∨ v = "motorway_link")))
  | _ => false

/-- The final direction as the specification describes it: the mapping of the last `oneway`
tag with a recognized value if there is one, otherwise Oneway if some tag implies it,
otherwise NotSure. -/
def specDirection (children : List WayChild) : Direction :=
  match (children.filterMap explicitOneway).getLast? with
  | some d => d
  | none => if children.any impliesOneway then .Oneway else .NotSure

/-- The direction after one more child, given the direction before it. -/
def directionStep (d : Direction) (c : WayChild) : Direction :=
  match explicitOneway c with
  | some e => e
  | none => if impliesOneway c = true ∧ d = .NotSure then .Oneway else d

/-- The keys that `readXMLWay` handles before it consults the access list. -/
def isHandledKey (k : String) : Bool :=
  k = "oneway" ∨ k = "junction" ∨ k = "highway" ∨ k = "name" ∨ k = "place_name" ∨ k = "place"
    ∨ k = "maxspeed"

/-- The index in the access list of the key of a child that can decide the access: a tag whose
key is not handled before, is in the access list, and whose value is one of the recognized
allow or deny values. -/
def accessIndex (accessList : List String) : WayChild → Option Nat
  | .tag k v =>
    if isHandledKey k = false ∧ accessList.indexOf k < accessList.length
        ∧ (isDenyValue v = true ∨ isAllowValue v = true) then
      some (accessList.indexOf k)
    else none
  | _ => none

/-- The key of a tag child. -/
def childKey : WayChild → Option String
  | .tag k _ => some k
  | _ => none

/-- The fields `accessPriority` and `access` after one more child, given them before it. -/
def accessStep (accessList : List String) (pa : Int × Bool) (c : WayChild) : Int × Bool :=
  match c with
  | .tag _ v =>
    match accessIndex accessList c with
    | some i => if (i : Int) < pa.1 then ((i : Int), !isDenyValue v) else pa
    | none => pa
  | _ => pa

/-- The settings of scenario S1 with the access list motorcar, vehicle, access, the most
specific key first. -/
def scenarioAccessSettings : Settings :=
  { scenarioSettings with accessList := ["motorcar", "vehicle", "access"] }

/-- The stream of scenario S2: the nodes 10, 20 and 30 and a residential way over them in this
order with `oneway=-1`. -/
def scenarioS2 : List Element :=
  [.node 10 (atof "0.0") (atof "0.0") [],
   .node 20 (atof "0.0") (atof "0.001") [],
   .node 30 (atof "0.0") (atof "0.002") [],
   .way [.nd 10, .nd 20, .nd 30, .tag "highway" "residential", .tag "oneway" "-1"]]

/-- The settings of scenario S1 with `ignoreOneway` set. -/
def scenarioIgnoreOneway : Settings :=
  { scenarioSettings with ignoreOneway := true }

/-- The `nodeLocation` vector of `n` routing nodes when no place claims a node; the distance is
the C++ `std::numeric_limits< double >::max()`. -/
def noPlaces (n : Nat) : List NodeLocation :=
  List.replicate n ⟨false, 0, Double.fin false (2 ^ 53 - 1) 971⟩

/-- The settings of scenario S3: those of S1 with a traffic light penalty of 6. -/
def scenarioS3Settings : Settings :=
  { scenarioSettings with trafficLightPenalty := Double.ofInt 6 }

/-- The stream of scenario S3: that of S1 with `highway=traffic_signals` on node 2. -/
def scenarioS3 : List Element :=
  [.node 1 (atof "0.0") (atof "0.0") [],
   .node 2 (atof "0.0") (atof "0.001") [.tag "highway" "traffic_signals"],
   .way [.nd 1, .nd 2, .tag "highway" "residential"]]

/-- A stream with a traffic signal on node 1, which is on no way, and a residential way over
the nodes 5 and 7, which carry no tag. -/
def scenarioSignalOffWay : List Element :=
  [.node 1 (atof "0.0") (atof "0.002") [.tag "highway" "traffic_signals"],
   .node 5 (atof "0.0") (atof "0.0") [],
   .node 7 (atof "0.0") (atof "0.001") [],
   .way [.nd 5, .nd 7, .tag "highway" "residential"]]

/-- The state of the importer after pass 1 of scenario S3. -/
def scenarioS3State : ImporterState :=
  (readXML scenarioS3Settings ImporterState.initial scenarioS3).getD ImporterState.initial

/-- The state of the importer after pass 1 of the stream `scenarioSignalOffWay`. -/
def scenarioSignalOffWayState : ImporterState :=
  (readXML scenarioS3Settings ImporterState.initial scenarioSignalOffWay).getD
    ImporterState.initial

/-! ## Scenario S4 -/

/-- The settings of scenario S4: `defaultCitySpeed` set, the class `residential` at 50 km/h,
at 30 km/h in a city, with an average percentage of 100. -/
def scenarioS4Settings : Settings :=
  { scenarioSettings with
    defaultCitySpeed := true
    speedProfile :=
      { names := ["residential"], speed := [Double.ofInt 50], speedInCity := [Double.ofInt 30],
        averagePercentage := [100] } }

/-- The edge loop of scenario S4: the two routing nodes of S1, both marked as in place 0. -/
def scenarioS4Context : EdgeContext where
  settings := scenarioS4Settings
  usedNodes := [1, 2]
  signalNodes := []
  nodeCoordinates := [⟨atof "0.0", atof "0.0"⟩, ⟨atof "0.0", atof "0.001"⟩]
  nodeLocation := [⟨true, 0, Double.ofInt 0⟩, ⟨true, 0, Double.ofInt 0⟩]
  Distance := scenarioDistance

/-! ## Serialized files -/

/-- Modelled from the spec: the serialization layer (`FileStream` of `utils/qthelpers.h`, a
`QDataStream` on a file) is declared outside `osmimporter.cpp`; the specification assumes "a
binary stream with typed read/write of integers, doubles, and length-prefixed strings". A file
is the sequence of the fields written to it: a 32-bit word (`quint32` and `qint32` share the
four bytes), a double, or a string. -/
inductive Field where
  | word (bits : Nat)
  | real (value : Double)
  | text (value : String)
  deriving DecidableEq, Repr

/-- Modelled from the spec: a stream that reads a file, with the fields not yet read and
whether `status()` is `QDataStream::ReadPastEnd`. -/
structure DataStream where
  fields : List Field
  pastEnd : Bool
  deriving DecidableEq, Repr

/-- The field written by `<< quint32( v )`. -/
def wordOfNat (v : Nat) : Field := .word (v % 2 ^ 32)

/-- The field written by `<< qint32( i )`. -/
def wordOfInt (i : Int) : Field := .word (i % 2 ^ 32).toNat

/-- The `int` that a 32-bit word stands for. -/
def toInt32 (v : Nat) : Int :=
  if v % 2 ^ 32 < 2 ^ 31 then ((v % 2 ^ 32 : Nat) : Int) else ((v % 2 ^ 32 : Nat) : Int) - 2 ^ 32

/-- Modelled from the spec: `>>` into a `quint32`. At the end of the data the value is 0 and
the status becomes `ReadPastEnd`, which stays; `none` is a read that meets a field of another
type, whose bytes this model does not interpret. -/
def readWord (s : DataStream) : Option (Nat × DataStream) :=
  match s.fields with
  | [] => some (0, { s with pastEnd := true })
  | .word v :: rest => some (v, { s with fields := rest })
  | _ :: _ => none

/-- Modelled from the spec: `>>` into a `qint32`. -/
def readInt (s : DataStream) : Option (Int × DataStream) :=
  (readWord s).map (fun p => (toInt32 p.1, p.2))

/-- Modelled from the spec: `>>` into a `double`; 0 at the end of the data. -/
def readReal (s : DataStream) : Option (Double × DataStream) :=
  match s.fields with
  | [] => some (Double.ofInt 0, { s with pastEnd := true })
  | .real v :: rest => some (v, { s with fields := rest })
  | _ :: _ => none

/-- Modelled from the spec: `>>` into a `QString`; the empty string at the end of the data. -/
def readText (s : DataStream) : Option (String × DataStream) :=
  match s.fields with
  | [] => some ("", { s with pastEnd := true })
  | .text v :: rest => some (v, { s with fields := rest })
  | _ :: _ => none

/-- A loop that reads `n` words into the back of a vector, as the id loops of `GetIDMap` and
`GetRoutingEdges` do. -/
def readWords : Nat → DataStream → List NodeID → Option (List NodeID × DataStream)
  | 0, s, ids => some (ids, s)
  | n + 1, s, ids =>
    match readWord s with
    | none => none
    | some (v, s1) => readWords n s1 (ids ++ [v])

/-! ## Pass 2 on the file `_edges` -/

/-- The fields that `readXML` writes to `_edges` for a record. -/
def encodeEdge (r : EdgeRecord) : List Field :=
  [.text r.name, wordOfInt r.type, .real r.maxspeed, wordOfInt r.bidirectional,
    wordOfInt (r.nodeIds.length : Int)] ++ r.nodeIds.map wordOfNat

/-- The first line of a round of the edge loop:
`edgesData >> name >> type >> speed >> bidirectional >> numberOfPathNodes`. -/
def readEdgeHeader (s : DataStream) :
    Option (String × Int × Double × Int × Int × DataStream) :=
  match readText s with
  | none => none
  | some (name, s1) =>
    match readInt s1 with
    | none => none
    | some (type, s2) =>
      match readReal s2 with
      | none => none
      | some (speed, s3) =>
        match readInt s3 with
        | none => none
        | some (bidirectional, s4) =>
          match readInt s4 with
          | none => none
          | some (numberOfPathNodes, s5) =>
            some (name, type, speed, bidirectional, numberOfPathNodes, s5)

/-- The loop of the edge loop over the node ids of a way, reading them from the stream: every
id is read, also after `valid` became false. `none` is an index into `nodeCoordinates` that is
out of range, or a field that is no word. -/
def readWayNodes (ctx : EdgeContext) :
    Nat → DataStream → Bool → List NodeID → Option (Bool × List NodeID × DataStream)
  | 0, s, valid, way => some (valid, way, s)
  | n + 1, s, valid, way =>
    match readWord s with
    | none => none
    | some (node, s1) =>
      if !valid then readWayNodes ctx n s1 valid way
      else
        match ctx.nodeCoordinates[lower_bound ctx.usedNodes node]? with
        | none => none
        | some c =>
          readWayNodes ctx n s1 (!c.isMissing) (way ++ [lower_bound ctx.usedNodes node])

/-- The lines of a round of the edge loop after `if ( !valid ) continue;`: the fields
written to `_mapped_edges` and the counters. -/
def writeWay (ctx : EdgeContext) (stats : Statistics) (name : String) (type : Int)
    (speed : Double) (bidirectional numberOfPathNodes : Int) (way : List NodeID) :
    Option (List Field × Statistics) :=
  let header : List Field :=
    [.text name, wordOfInt bidirectional, wordOfInt numberOfPathNodes] ++ way.map wordOfNat
  if Double.eq speed (Double.ofInt 0)
      || (Double.lt speed (Double.ofInt 0) && decide (type < 0)) then
    some (header, { stats with numberOfZeroSpeed := stats.numberOfZeroSpeed + 1 })
  else
    let type1 : Int :=
      if type < 0 then (ctx.settings.speedProfile.names.length : Int) else type
    match segmentLoop ctx speed type1 way stats [] with
    | none => none
    | some (seconds, stats1) => some (header ++ seconds.map .real, stats1)

/-- One round of the edge loop of `preprocessData` on the stream `_edges`: `some none` is the
`break` at the end of the data, otherwise the stream after the round, the fields written to
`_mapped_edges` and the counters. `none` is undefined behaviour of the source or a field of
another type than the one read. -/
def edgeRound (ctx : EdgeContext) (s : DataStream) (stats : Statistics) :
    Option (Option (DataStream × List Field × Statistics)) :=
  match readEdgeHeader s with
  | none => none
  | some (name, type, speed, bidirectional, numberOfPathNodes, s1) =>
    if s1.pastEnd then some none
    else
      match readWayNodes ctx numberOfPathNodes.toNat s1 (!Double.eq speed (Double.ofInt 0)) []
      with
      | none => none
      | some (valid, way, s2) =>
        if !valid then some (some (s2, [], stats))
        else
          match writeWay ctx stats name type speed bidirectional numberOfPathNodes way with
          | none => none
          | some (written, stats1) => some (some (s2, written, stats1))

/-- The edge loop of `preprocessData` on the stream `_edges`; every round that does not end
the loop takes at least five fields from the stream, so `fuel` rounds suffice for a file of
fewer than `5 * fuel` fields. -/
def edgeLoop (ctx : EdgeContext) :
    Nat → DataStream → Statistics → List Field → Option (List Field × Statistics)
  | 0, _, _, _ => none
  | fuel + 1, s, stats, out =>
    match edgeRound ctx s stats with
    | none => none
    | some none => some (out, stats)
    | some (some (s1, written, stats1)) => edgeLoop ctx fuel s1 stats1 (out ++ written)

/-- The file `_mapped_edges` that the edge loop writes for the file `_edges`. -/
def mappedEdgesFile (ctx : EdgeContext) (edges : List Field) (stats : Statistics) :
    Option (List Field × Statistics) :=
  edgeLoop ctx (edges.length + 1) ⟨edges, false⟩ stats []

/-- The edge loop of scenario S4 with a third routing node, 5, that has no record in
`_all_nodes`, so its coordinate is (-1, -1). -/
def scenarioMissingContext : EdgeContext :=
  { scenarioS4Context with
    usedNodes := [1, 2, 5]
    nodeCoordinates := [⟨atof "0.0", atof "0.0"⟩, ⟨atof "0.0", atof "0.001"⟩, missingCoordinate]
    nodeLocation := noPlaces 3 }


/-! ## The getters and setters of the importer -/

/-- The function `SetIDMap` on a file that opens: the result and the fields of `_id_map`. The
count and the loop bound are the size of the vector as a 32-bit `NodeID`. -/
def SetIDMap (idMap : List NodeID) : Bool × List Field :=
  (true, wordOfNat idMap.length :: (idMap.take (idMap.length % 2 ^ 32)).map wordOfNat)

/-- The function `GetIDMap` on a file that opens: the result and the vector `idMap`. -/
def GetIDMap (file : List Field) : Option (Bool × List NodeID) :=
  match readWord ⟨file, false⟩ with
  | none => none
  | some (numNodes, s1) =>
    match readWords numNodes s1 [] with
    | none => none
    | some (idMap, s2) => some (!s2.pastEnd, idMap)

/-- An edge of the routing graph (`IImporter::RoutingEdge`): `distance` holds the seconds. -/
structure RoutingEdge where
  source : NodeID
  target : NodeID
  bidirectional : Bool
  distance : Double
  deriving DecidableEq, Repr

/-- The loop of `GetRoutingEdges` over the segments of a way: one seconds value is read for
every pair of neighbours. -/
def readSegments (bidirectional : Nat) :
    List NodeID → DataStream → List RoutingEdge → Option (List RoutingEdge × DataStream)
  | a :: b :: rest, s, data =>
    match readReal s with
    | none => none
    | some (seconds, s1) =>
      readSegments bidirectional (b :: rest) s1 (data ++ [⟨a, b, bidirectional == 1, seconds⟩])
  | _, s, data => some (data, s)

/-- The loop `while ( true )` of `GetRoutingEdges`; a round that does not end the loop takes
at least three fields from the stream. `none` is a field of another type than the one read,
or no round left. -/
def routingEdgesLoop : Nat → DataStream → List RoutingEdge → Option (List RoutingEdge)
  | 0, _, _ => none
  | fuel + 1, s, data =>
    match readText s with
    | none => none
    | some (_, s1) =>
      match readWord s1 with
      | none => none
      | some (bidirectional, s2) =>
        match readWord s2 with
        | none => none
        | some (numberOfPathNodes, s3) =>
          if s3.pastEnd then some data
          else
            match readWords (toInt32 numberOfPathNodes).toNat s3 [] with
            | none => none
            | some (way, s4) =>
              match readSegments bidirectional way s4 data with
              | none => none
              | some (data1, s5) => routingEdgesLoop fuel s5 data1

/-- The function `GetRoutingEdges` on a file that opens: the result and the vector `data`.
The only `return` behind the loop is `return true`. -/
def GetRoutingEdges (file : List Field) : Option (Bool × List RoutingEdge) :=
  (routingEdgesLoop (file.length + 1) ⟨file, false⟩ []).map (fun data => (true, data))


/-! ## The client: `RoutingLogic` -/

/-- A coordinate of the client (`UnsignedCoordinate` of `utils/coordinates.h`). -/
structure UnsignedCoordinate where
  x : Nat
  y : Nat
  deriving DecidableEq, Repr

/-- The signals that `RoutingLogic` emits. -/
inductive Signal where
  | gpsInfoChanged
  | sourceChanged
  | waypointsChanged
  | gpsLinkChanged (linked : Bool)
  | routeChanged
  | instructionsChanged
  | distanceChanged (distance : Double)
  | travelTimeChanged (travelTime : Double)
  deriving DecidableEq, Repr

/-- The members of `RoutingLogic::PrivateImplementation` that the functions below use, and the
signals emitted so far. Nodes and edges of a path are numbers here. -/
structure RoutingLogic where
  position : UnsignedCoordinate
  heading : Double
  source : UnsignedCoordinate
  waypoints : List UnsignedCoordinate
  pathNodes : List Nat
  pathEdges : List Nat
  distance : Double
  travelTime : Double
  labels : List String
  icons : List String
  linked : Bool
  emitted : List Signal
  deriving DecidableEq, Repr

/-- What `RoutingLogic` calls outside `routinglogic.cpp`: `UnsignedCoordinate::IsValid`, the
plugins of `MapData::instance()` (`none` is a NULL pointer) with `GetNearestEdge` and
`GetRoute`, and `ApproximateDistance` of the first and the last waypoint. -/
structure Collaborators where
  IsValid : UnsignedCoordinate → Bool
  gpsLookup : Option (UnsignedCoordinate → Option Nat)
  router : Option (Nat → Nat → Option (Double × List Nat × List Nat))
  ApproximateDistance : UnsignedCoordinate → UnsignedCoordinate → Double

/-- The state that the constructor of `RoutingLogic` leaves, for a default-constructed
coordinate `c`. -/
def RoutingLogic.initial (c : UnsignedCoordinate) : RoutingLogic where
  position := c
  heading := Double.ofInt 0
  source := c
  waypoints := []
  pathNodes := []
  pathEdges := []
  distance := Double.ofInt (-1)
  travelTime := Double.ofInt (-1)
  labels := []
  icons := []
  linked := false
  emitted := []

/-- The function `RoutingLogic::clearRoute`. -/
def clearRoute (st : RoutingLogic) : RoutingLogic :=
  { st with
    distance := Double.ofInt (-1)
    travelTime := Double.ofInt (-1)
    pathEdges := []
    pathNodes := []
    icons := []
    labels := []
    emitted := st.emitted ++ [.routeChanged, .instructionsChanged,
      .distanceChanged (Double.ofInt (-1)), .travelTimeChanged (Double.ofInt (-1))] }

/-- The loop of `computeRoute` over `GetNearestEdge`: `none` when a waypoint is not found. -/
def lookupWaypoints (lookup : UnsignedCoordinate → Option Nat) :
    List UnsignedCoordinate → Option (List Nat)
  | [] => some []
  | w :: ws =>
    match lookup w with
    | none => none
    | some r => (lookupWaypoints lookup ws).map (fun rs => r :: rs)

/-- The loop of `computeRoute` over `GetRoute` for the neighbours of the list `gps`; `first`
is the test `i == 1`. -/
def routeLoop (getRoute : Nat → Nat → Option (Double × List Nat × List Nat)) :
    List Nat → Bool → RoutingLogic → RoutingLogic
  | a :: b :: rest, first, st =>
    match getRoute a b with
    | some (travelTime, nodes, edges) =>
      routeLoop getRoute (b :: rest) false
        { st with
          pathNodes := if first then nodes else st.pathNodes ++ nodes.tail
          pathEdges := if first then edges else st.pathEdges ++ edges.tail
          travelTime := Double.add st.travelTime travelTime }
    | none => { st with travelTime := Double.ofInt (-1) }
  | _, _, st => st

/-- The function `RoutingLogic::computeRoute`. -/
def computeRoute (env : Collaborators) (st : RoutingLogic) : RoutingLogic :=
  match env.gpsLookup, env.router with
  | some lookup, some getRoute =>
    if !env.IsValid st.source then clearRoute st
    else
      let waypoints := st.source :: st.waypoints.filter env.IsValid
      if waypoints.length < 2 then clearRoute st
      else
        match lookupWaypoints lookup waypoints with
        | none => clearRoute st
        | some gps =>
          let st1 := routeLoop getRoute gps true { st with pathNodes := [], pathEdges := [] }
          let st2 := { st1 with
            distance := env.ApproximateDistance st.source (waypoints.getLast?.getD st.source) }
          { st2 with
            emitted := st2.emitted ++ [.routeChanged, .instructionsChanged,
              .distanceChanged st2.distance, .travelTimeChanged st2.travelTime] }
  | _, _ => st

/-- What is left to run of a call: the call of a function, or the lines of a function behind
a call it made. -/
inductive Frame where
  | positionUpdated (position : UnsignedCoordinate) (heading : Option Double)
  | positionUpdatedRest
  | setSource (coordinate : UnsignedCoordinate)
  | setSourceRest (coordinate : UnsignedCoordinate)
  | setGPSLink (linked : Bool)
  | setGPSLinkRest
  deriving DecidableEq, Repr

/-- One step of `RoutingLogic` on the state and the stack of frames: the top frame runs up to
its next call or to its end. The functions `positionUpdated`, `setSource` and `setGPSLink` are
split at the calls they make. -/
def step (env : Collaborators) : RoutingLogic × List Frame → RoutingLogic × List Frame
  | (st, []) => (st, [])
  | (st, .positionUpdated position heading :: k) =>
    let st1 := { st with position := position, heading := heading.getD st.heading }
    if st1.linked then (st1, .setSource st1.position :: .positionUpdatedRest :: k)
    else (st1, .positionUpdatedRest :: k)
  | (st, .positionUpdatedRest :: k) =>
    ({ st with emitted := st.emitted ++ [.gpsInfoChanged] }, k)
  | (st, .setSource coordinate :: k) =>
    (st, .setGPSLink false :: .setSourceRest coordinate :: k)
  | (st, .setSourceRest coordinate :: k) =>
    let st1 := computeRoute env { st with source := coordinate }
    ({ st1 with emitted := st1.emitted ++ [.sourceChanged] }, k)
  | (st, .setGPSLink linked :: k) =>
    if linked = st.linked then (st, k)
    else
      let st1 := { st with linked := true }
      if env.IsValid st1.position then (st1, .setSource st1.position :: .setGPSLinkRest :: k)
      else (st1, .setGPSLinkRest :: k)
  | (st, .setGPSLinkRest :: k) =>
    ({ st with emitted := st.emitted ++ [.gpsLinkChanged st.linked] }, k)

/-- The state and the stack after `n` steps. -/
def run (env : Collaborators) : Nat → RoutingLogic × List Frame → RoutingLogic × List Frame
  | 0, c => c
  | n + 1, c => run env n (step env c)

/-- Collaborators without map data, for which a coordinate is valid unless its `x` is 0. -/
def scenarioCollaborators : Collaborators where
  IsValid := fun c => decide (c.x ≠ 0)
  gpsLookup := none
  router := none
  ApproximateDistance := fun _ _ => Double.ofInt 0


/-! ## Pass 2: places and nodes -/

/-- A point of an outline (`DoublePoint`). -/
structure DoublePoint where
  x : Double
  y : Double
  deriving DecidableEq, Repr

/-- A city outline of pass 2: the name and the projected points of the path. -/
structure Outline where
  name : String
  way : List DoublePoint
  deriving DecidableEq, Repr

/-- A place of pass 2 (`Location`), as read from the file `_places`. -/
structure Location where
  name : String
  coordinate : GPSCoordinate
  type : Place
  deriving DecidableEq, Repr

/-- What the place loop of `preprocessData` calls outside `osmimporter.cpp`. `NearNeighbors`
stands for the query of the k-d tree built from `nodeCoordinates`, whose point `i` carries the
data `i`: it returns the data of the points found for a centre and a radius.
`ApproximateDistance` is the function of `GPSCoordinate`, `pointInPolygon` takes the points of
a polygon and a point, `toPoint` is the conversion `UnsignedCoordinate( gps )` read as a
`DoublePoint`, and `toGPS` is `UnsignedCoordinate::ToGPSCoordinate` of such a point. -/
structure Geometry where
  NearNeighbors : List GPSCoordinate → GPSCoordinate → Double → List Nat
  ApproximateDistance : GPSCoordinate → GPSCoordinate → Double
  pointInPolygon : List DoublePoint → DoublePoint → Bool
  toPoint : GPSCoordinate → DoublePoint
  toGPS : DoublePoint → GPSCoordinate

/-- The value `std::numeric_limits< double >::max()`. -/
def maxDouble : Double := .fin false (2 ^ 53 - 1) 971

/-- Modelled from the spec: the outlines between `std::lower_bound` and `std::upper_bound` for
the name of the place in the sorted vector `cityOutlines`, whose order `Outline::operator<` is
declared outside `osmimporter.cpp`; the specification has the search "by name equality". The
first outline of them that contains the place is taken. -/
def findOutline (geo : Geometry) (cityOutlines : List Outline) (place : Location) :
    Option Outline :=
  (cityOutlines.filter (fun outline => outline.name == place.name)).find?
    (fun outline => geo.pointInPolygon outline.way (geo.toPoint place.coordinate))

/-- The radius of a place with an outline: the largest distance of a point of the outline to
the place, by `std::max` from 0. -/
def outlineRadius (geo : Geometry) (outline : Outline) (place : Location) : Double :=
  outline.way.foldl
    (fun radius point =>
      if Double.lt radius (geo.ApproximateDistance (geo.toGPS point) place.coordinate) then
        geo.ApproximateDistance (geo.toGPS point) place.coordinate
      else radius)
    (Double.ofInt 0)

/-- The radius of the `switch` over the type of a place without an outline; `none` is the
`continue` of the types `None` and `Suburb`. -/
def placeRadius : Place → Option Double
  | .None => none
  | .Suburb => none
  | .Hamlet => some (Double.ofInt 300)
  | .Village => some (Double.ofInt 1000)
  | .Town => some (Double.ofInt 5000)
  | .City => some (Double.ofInt 10000)

/-- The body of the loop over the points found for a place with an outline; `none` is a point
whose data is no index of the vectors. -/
def containStep (geo : Geometry) (nodeCoordinates : List GPSCoordinate) (outline : Outline)
    (index : Nat) (nodeLocation : List NodeLocation) (i : Nat) : Option (List NodeLocation) :=
  match nodeCoordinates[i]? with
  | none => none
  | some gps =>
    if !geo.pointInPolygon outline.way (geo.toPoint gps) then some nodeLocation
    else if i < nodeLocation.length then
      some (nodeLocation.set i ⟨true, index, Double.ofInt 0⟩)
    else none

/-- The body of the loop over the points found for a place without an outline: the test
`distance >= nodeLocation[i->data].distance` skips the point. -/
def radiusStep (geo : Geometry) (nodeCoordinates : List GPSCoordinate) (place : Location)
    (index : Nat) (nodeLocation : List NodeLocation) (i : Nat) : Option (List NodeLocation) :=
  match nodeCoordinates[i]?, nodeLocation[i]? with
  | some gps, some location =>
    if Double.le location.distance (geo.ApproximateDistance gps place.coordinate) then
      some nodeLocation
    else
      some (nodeLocation.set i ⟨true, index, geo.ApproximateDistance gps place.coordinate⟩)
  | _, _ => none

/-- A loop over the points found by a query. -/
def foldHits (body : List NodeLocation → Nat → Option (List NodeLocation)) :
    List Nat → List NodeLocation → Option (List NodeLocation)
  | [], nodeLocation => some nodeLocation
  | i :: rest, nodeLocation =>
    match body nodeLocation i with
    | none => none
    | some nodeLocation1 => foldHits body rest nodeLocation1

/-- One round of the place loop of `preprocessData`, for the place with the index `index`. -/
def assignPlace (geo : Geometry) (nodeCoordinates : List GPSCoordinate)
    (cityOutlines : List Outline) (nodeLocation : List NodeLocation) (index : Nat)
    (place : Location) : Option (List NodeLocation) :=
  match findOutline geo cityOutlines place with
  | some outline =>
    foldHits (containStep geo nodeCoordinates outline index)
      (geo.NearNeighbors nodeCoordinates place.coordinate (outlineRadius geo outline place))
      nodeLocation
  | none =>
    match placeRadius place.type with
    | none => some nodeLocation
    | some radius =>
      foldHits (radiusStep geo nodeCoordinates place index)
        (geo.NearNeighbors nodeCoordinates place.coordinate radius) nodeLocation

/-- The place loop of `preprocessData` from the place with the index `index` on. -/
def assignPlaces (geo : Geometry) (nodeCoordinates : List GPSCoordinate)
    (cityOutlines : List Outline) :
    List Location → Nat → List NodeLocation → Option (List NodeLocation)
  | [], _, nodeLocation => some nodeLocation
  | place :: rest, index, nodeLocation =>
    match assignPlace geo nodeCoordinates cityOutlines nodeLocation index place with
    | none => none
    | some nodeLocation1 =>
      assignPlaces geo nodeCoordinates cityOutlines rest (index + 1) nodeLocation1

/-- The vector `nodeLocation` after the place loop of `preprocessData`: every entry starts as
not in a place with the largest double as distance. -/
def placeAssignment (geo : Geometry) (nodeCoordinates : List GPSCoordinate)
    (cityOutlines : List Outline) (places : List Location) : Option (List NodeLocation) :=
  assignPlaces geo nodeCoordinates cityOutlines places 0 (noPlaces nodeCoordinates.length)

/-- Whether the place claims the routing node `n` by its radius: its type has a radius and
the query with that radius returns `n`. -/
def claimsNode (geo : Geometry) (nodeCoordinates : List GPSCoordinate) (place : Location)
    (n : Nat) : Bool :=
  match placeRadius place.type with
  | none => false
  | some radius => decide (n ∈ geo.NearNeighbors nodeCoordinates place.coordinate radius)

/-- The approximate distance of the routing node `n` to a place, as the place loop computes
it from the coordinate of the node. -/
def nodeDistance (geo : Geometry) (nodeCoordinates : List GPSCoordinate) (place : Location)
    (n : Nat) : Double :=
  geo.ApproximateDistance (nodeCoordinates.getD n missingCoordinate) place.coordinate

/-- A geometry for the scenarios: a query with a radius of at least 50 finds every routing
node and a smaller one finds none, any two coordinates are 55 apart, a polygon contains the
points with the latitude 0, and the conversions keep latitude and longitude. -/
def scenarioGeometry : Geometry where
  NearNeighbors := fun nodeCoordinates _ radius =>
    if Double.le (Double.ofInt 50) radius then List.range nodeCoordinates.length else []
  ApproximateDistance := fun _ _ => Double.ofInt 55
  pointInPolygon := fun _ point => Double.eq point.x (Double.ofInt 0)
  toPoint := fun gps => ⟨gps.latitude, gps.longitude⟩
  toGPS := fun point => ⟨point.x, point.y⟩

/-- The places of scenario S4 and two more: the city "X", a suburb "S", which has no radius,
and a second city "Y". -/
def scenarioS4Places : List Location :=
  [⟨"X", ⟨atof "0.0", atof "0.0005"⟩, .City⟩, ⟨"S", ⟨atof "0.0", atof "0.0005"⟩, .Suburb⟩,
   ⟨"Y", ⟨atof "0.0", atof "0.0007"⟩, .City⟩]

/-- The routing nodes of scenario S5: node 0 inside the outline of the town, node 1 outside. -/
def scenarioS5Coordinates : List GPSCoordinate :=
  [⟨atof "0.0", atof "0.001"⟩, ⟨atof "0.03", atof "0.0"⟩]

/-- The outline of the town "T" of scenario S5. -/
def scenarioS5Outline : Outline :=
  ⟨"T", [⟨atof "0.0", atof "-0.01"⟩, ⟨atof "0.0", atof "0.01"⟩, ⟨atof "0.02", atof "0.01"⟩,
    ⟨atof "0.02", atof "-0.01"⟩]⟩

/-- The places of scenario S5 and one more: the town "T" inside its outline, then a city "C"
without an outline. -/
def scenarioS5Places : List Location :=
  [⟨"T", ⟨atof "0.0", atof "0.0"⟩, .Town⟩, ⟨"C", ⟨atof "0.0", atof "0.002"⟩, .City⟩]


/-- The fields of a record of `_mapped_edges`: the name, the flag, the count, the dense ids
and the seconds values. -/
def encodeMapped (m : MappedRecord) : List Field :=
  [.text m.name, wordOfInt m.bidirectional, wordOfInt (m.nodeIds.length : Int)]
    ++ m.nodeIds.map wordOfNat ++ m.seconds.map .real

/-- A record of `_edges` whose fields fit the 32 bits they are written with. -/
def EdgeRecord.fits (r : EdgeRecord) : Prop :=
  (-2 ^ 31 ≤ r.type ∧ r.type < 2 ^ 31)
    ∧ (-2 ^ 31 ≤ r.bidirectional ∧ r.bidirectional < 2 ^ 31)
    ∧ r.nodeIds.length < 2 ^ 31 ∧ ∀ id ∈ r.nodeIds, id < 2 ^ 32

instance (r : EdgeRecord) : Decidable r.fits := by
  unfold EdgeRecord.fits
  infer_instance


/-! ## `_mapped_edges` read back -/

/-- Whether the node loop of the edge loop leaves the record `r` with `valid` set, so that the
`continue` behind it is not taken and the way is written to `_mapped_edges`. -/
def keepsWay (ctx : EdgeContext) (r : EdgeRecord) : Bool :=
  match mapNodes ctx r.nodeIds (!Double.eq r.maxspeed (Double.ofInt 0)) [] with
  | some (true, _) => true
  | _ => false

/-- The edges that the specification gives for a record of `_mapped_edges` with the path
`way` of `nPath` nodes: for `i = 1..nPath-1` the edge from `way[i-1]` to `way[i]`,
bidirectional when the flag is 1, with the seconds written for segment `i` as distance. -/
def expectedEdges (m : MappedRecord) : List RoutingEdge :=
  (List.range (m.nodeIds.length - 1)).map (fun j =>
    ⟨m.nodeIds.getD j 0, m.nodeIds.getD (j + 1) 0, decide (m.bidirectional = 1),
      m.seconds.getD j (Double.ofInt 0)⟩)


/-! ## `RoutingLogic` after a GPS update -/

/-- The state of `RoutingLogic` after the constructor and one GPS update with the position
(5, 5), which is valid for `scenarioCollaborators`; the link is not set. -/
def scenarioFixState : RoutingLogic :=
  (run scenarioCollaborators 2
    (RoutingLogic.initial ⟨0, 0⟩, [.positionUpdated ⟨5, 5⟩ none])).1


/-! ## The radius query of the specification -/

/-- The radius query as the specification has it: a place of type Hamlet, Village, Town or
City gets the routing nodes that the query of the k-d tree returns for its coordinate and the
radius 300, 1000, 5000 or 10000; a place of type None or Suburb gets no node. -/
def specClaims (geo : Geometry) (nodeCoordinates : List GPSCoordinate) (place : Location)
    (n : Nat) : Prop :=
  (place.type = Place.Hamlet
      ∧ n ∈ geo.NearNeighbors nodeCoordinates place.coordinate (Double.ofInt 300))
    ∨ (place.type = Place.Village
      ∧ n ∈ geo.NearNeighbors nodeCoordinates place.coordinate (Double.ofInt 1000))
    ∨ (place.type = Place.Town
      ∧ n ∈ geo.NearNeighbors nodeCoordinates place.coordinate (Double.ofInt 5000))
    ∨ (place.type = Place.City
      ∧ n ∈ geo.NearNeighbors nodeCoordinates place.coordinate (Double.ofInt 10000))

/-- A stand-in for `ApproximateDistance` in a scenario whose places share one spot: the
latitude of a routing node is its distance to that spot when it is 200, 700, 3000 or 7000,
and the distance is 20000 otherwise. -/
def scenarioRadiusDistance : GPSCoordinate → GPSCoordinate → Double :=
  fun node _ =>
    if node.latitude ∈ [Double.ofInt 200, Double.ofInt 700, Double.ofInt 3000, Double.ofInt 7000]
    then node.latitude
    else Double.ofInt 20000

/-- A geometry that tells the radii apart: the query returns the routing nodes whose distance
to the centre is at most the radius; polygons and conversions as in `scenarioGeometry`. -/
def scenarioRadiusGeometry : Geometry where
  NearNeighbors := fun nodeCoordinates centre radius =>
    (List.range nodeCoordinates.length).filter (fun i =>
      Double.le (scenarioRadiusDistance (nodeCoordinates.getD i missingCoordinate) centre) radius)
  ApproximateDistance := scenarioRadiusDistance
  pointInPolygon := fun _ point => Double.eq point.x (Double.ofInt 0)
  toPoint := fun gps => ⟨gps.latitude, gps.longitude⟩
  toGPS := fun point => ⟨point.x, point.y⟩

/-- Five routing nodes at the distances 200, 700, 3000, 7000 and 20000 from the places. -/
def scenarioRadiusCoordinates : List GPSCoordinate :=
  [⟨Double.ofInt 200, Double.ofInt 0⟩, ⟨Double.ofInt 700, Double.ofInt 0⟩,
   ⟨Double.ofInt 3000, Double.ofInt 0⟩, ⟨Double.ofInt 7000, Double.ofInt 0⟩,
   ⟨Double.ofInt 20000, Double.ofInt 0⟩]

/-- A suburb, a hamlet, a village, a town and a city at one spot, and a place without type. -/
def scenarioRadiusPlaces : List Location :=
  [⟨"S", ⟨Double.ofInt 0, Double.ofInt 0⟩, .Suburb⟩,
   ⟨"H", ⟨Double.ofInt 0, Double.ofInt 0⟩, .Hamlet⟩,
   ⟨"V", ⟨Double.ofInt 0, Double.ofInt 0⟩, .Village⟩,
   ⟨"T", ⟨Double.ofInt 0, Double.ofInt 0⟩, .Town⟩,
   ⟨"C", ⟨Double.ofInt 0, Double.ofInt 0⟩, .City⟩,
   ⟨"N", ⟨Double.ofInt 0, Double.ofInt 0⟩, .None⟩]


/-! ## Sorting, deduplication and bisection -/

theorem mem_unique (x : NodeID) : ∀ l : List NodeID, x ∈ unique l ↔ x ∈ l := by
  intro l
  induction l using unique.induct with
  | case1 => simp [unique]
  | case2 a => simp [unique]
  | case3 b l ih =>
    rw [unique, if_pos rfl, ih]
    simp
  | case4 a b l hab ih =>
    rw [unique, if_neg hab, List.mem_cons, ih]
    simp

theorem pairwise_lt_unique :
    ∀ l : List NodeID, l.Pairwise (· ≤ ·) → (unique l).Pairwise (· < ·) := by
  intro l
  induction l using unique.induct with
  | case1 => intro _; simp [unique]
  | case2 a => intro _; simp [unique]
  | case3 b l ih =>
    intro h
    rw [unique, if_pos rfl]
    exact ih (List.Pairwise.of_cons h)
  | case4 a b l hab ih =>
    intro h
    rw [unique, if_neg hab]
    refine List.Pairwise.cons ?_ (ih (List.Pairwise.of_cons h))
    intro y hy
    rw [mem_unique] at hy
    have hab1 : a ≤ b := List.rel_of_pairwise_cons h (List.mem_cons_self b l)
    have hby : b ≤ y := by
      rcases List.mem_cons.mp hy with rfl | hyl
      · exact le_refl _
      · exact List.rel_of_pairwise_cons (List.Pairwise.of_cons h) hyl
    exact lt_of_lt_of_le (lt_of_le_of_ne hab1 hab) hby

theorem mem_sortUnique (x : NodeID) (l : List NodeID) : x ∈ sortUnique l ↔ x ∈ l := by
  unfold sortUnique
  rw [mem_unique]
  exact (List.perm_insertionSort (· ≤ ·) l).mem_iff

theorem pairwise_sortUnique (l : List NodeID) : (sortUnique l).Pairwise (· < ·) :=
  pairwise_lt_unique _ (List.sorted_insertionSort (· ≤ ·) l)

/-- The bisection returns the boundary `k` between the elements below `val` and the others,
whenever the searched range contains it. -/
theorem lowerBoundAux_eq (xs : List NodeID) (val k : Nat)
    (hlt : ∀ i, i < k → xs.getD i 0 < val)
    (hge : ∀ i, k ≤ i → i < xs.length → ¬ xs.getD i 0 < val) :
    ∀ fuel first len, len ≤ fuel → first ≤ k → k ≤ first + len → first + len ≤ xs.length →
      lowerBoundAux xs val fuel first len = k := by
  intro fuel
  induction fuel with
  | zero =>
    intro first len h1 h2 h3 _
    simp only [lowerBoundAux]
    omega
  | succ fuel ih =>
    intro first len h1 h2 h3 h4
    simp only [lowerBoundAux]
    by_cases hlen : len = 0
    · rw [if_pos hlen]; omega
    · rw [if_neg hlen]
      have hhalf : len / 2 < len := Nat.div_lt_self (Nat.pos_of_ne_zero hlen) (by decide)
      by_cases hmid : xs.getD (first + len / 2) 0 < val
      · rw [if_pos hmid]
        have hk1 : first + len / 2 < k := by
          by_contra hcon
          exact hge _ (not_lt.mp hcon) (by omega) hmid
        exact ih _ _ (by omega) (by omega) (by omega) (by omega)
      · rw [if_neg hmid]
        have hk1 : k ≤ first + len / 2 := by
          by_contra hcon
          exact hmid (hlt _ (not_le.mp hcon))
        exact ih _ _ (by omega) h2 hk1 (by omega)

/-- In a strictly increasing vector the bisection finds every element at its own index. -/
theorem lower_bound_getElem (xs : List NodeID) (hs : xs.Pairwise (· < ·)) (j : Nat)
    (hj : j < xs.length) : lower_bound xs (xs.getD j 0) = j := by
  have hget : ∀ i, i < xs.length → xs.getD i 0 = xs[i]?.getD 0 := by
    intro i _; simp [List.getD_eq_getElem?_getD]
  have hmono : ∀ a b, a < b → b < xs.length → xs.getD a 0 < xs.getD b 0 := by
    intro a b hab hb
    have ha : a < xs.length := lt_trans hab hb
    rw [List.getD_eq_getElem _ _ ha, List.getD_eq_getElem _ _ hb]
    exact List.pairwise_iff_getElem.mp hs a b ha hb hab
  unfold lower_bound
  apply lowerBoundAux_eq xs _ j
  · intro i hi
    exact hmono i j hi hj
  · intro i hji hi hlt
    rcases Nat.eq_or_lt_of_le hji with rfl | hlt2
    · exact lt_irrefl _ hlt
    · exact lt_asymm hlt (hmono j i hlt2 hi)
  · exact le_refl _
  · exact Nat.zero_le _
  · omega
  · omega

/-- In a strictly increasing vector the bisection hits every member: the index is in range and
the element there is the member. -/
theorem lower_bound_of_mem (xs : List NodeID) (hs : xs.Pairwise (· < ·)) (r : NodeID)
    (hr : r ∈ xs) : lower_bound xs r < xs.length ∧ xs[lower_bound xs r]? = some r := by
  obtain ⟨j, hj, rfl⟩ := List.getElem_of_mem hr
  have h := lower_bound_getElem xs hs j hj
  rw [List.getD_eq_getElem _ _ hj] at h
  rw [h]
  exact ⟨hj, List.getElem?_eq_getElem hj⟩

/-- The index found by bisection is strictly monotone on the members of a strictly increasing
vector. -/
theorem lower_bound_strictMono (xs : List NodeID) (hs : xs.Pairwise (· < ·)) (r1 r2 : NodeID)
    (h1 : r1 ∈ xs) (h2 : r2 ∈ xs) (h : r1 < r2) : lower_bound xs r1 < lower_bound xs r2 := by
  obtain ⟨j1, hj1, rfl⟩ := List.getElem_of_mem h1
  obtain ⟨j2, hj2, rfl⟩ := List.getElem_of_mem h2
  have e1 := lower_bound_getElem xs hs j1 hj1
  have e2 := lower_bound_getElem xs hs j2 hj2
  rw [List.getD_eq_getElem _ _ hj1] at e1
  rw [List.getD_eq_getElem _ _ hj2] at e2
  rw [e1, e2]
  by_contra hcon
  rcases Nat.eq_or_lt_of_le (not_lt.mp hcon) with heq | hlt
  · subst heq; exact lt_irrefl _ h
  · exact lt_asymm h (List.pairwise_iff_getElem.mp hs j2 j1 hj2 hj1 hlt)

/-! ## Pass 1 -/

theorem maxspeedTag_fst (a b : Way × Statistics) (h : a.1 = b.1) (value : String) :
    (maxspeedTag a value).1 = (maxspeedTag b value).1 := by
  simp only [maxspeedTag]
  split_ifs <;> simp [h]

theorem readXMLWayChild_fst (settings : Settings) (a b : Way × Statistics) (h : a.1 = b.1)
    (c : WayChild) : (readXMLWayChild settings a c).1 = (readXMLWayChild settings b c).1 := by
  cases c with
  | tag k v =>
    simp only [readXMLWayChild, readXMLWayTag]
    split_ifs <;> first | exact maxspeedTag_fst a b h v | simp only [h]
  | nd ref => simp [readXMLWayChild, h]
  | other => simpa [readXMLWayChild] using h

theorem readXMLWay_fst (settings : Settings) (stats : Statistics) (children : List WayChild) :
    (readXMLWay settings stats children).1 = parsedWay settings children := by
  unfold parsedWay readXMLWay
  have key : ∀ (cs : List WayChild) (a b : Way × Statistics), a.1 = b.1 →
      (cs.foldl (readXMLWayChild settings) a).1 = (cs.foldl (readXMLWayChild settings) b).1 := by
    intro cs
    induction cs with
    | nil => intro a b h; simpa using h
    | cons c cs ih =>
      intro a b h
      simp only [List.foldl_cons]
      exact ih _ _ (readXMLWayChild_fst settings a b h c)
  exact key children _ _ rfl

theorem readXMLNode_id (id : NodeID) (lat lon : Double) (children : List NodeChild) :
    (readXMLNode id lat lon children).id = id := by
  unfold readXMLNode
  have key : ∀ (cs : List NodeChild) (n : Node),
      (cs.foldl (fun node c =>
        match c with
        | .tag k v => readXMLNodeTag node k v
        | .other => node) n).id = n.id := by
    intro cs
    induction cs with
    | nil => intro n; rfl
    | cons c cs ih =>
      intro n
      simp only [List.foldl_cons]
      rw [ih]
      cases c with
      | tag k v =>
        simp only [readXMLNodeTag]
        split_ifs <;> first | rfl | (cases placeOfValue v <;> rfl)
      | other => rfl
  exact key children _

theorem readXMLWayElement_fields (settings : Settings) (st : ImporterState)
    (children : List WayChild) :
    (readXMLWayElement settings st children).usedNodes
        = st.usedNodes ++ elementUsedNodes settings (.way children)
      ∧ (readXMLWayElement settings st children).edgesData
        = st.edgesData ++ elementEdges settings (.way children)
      ∧ (readXMLWayElement settings st children).signalNodes = st.signalNodes
      ∧ (readXMLWayElement settings st children).allNodesData = st.allNodesData := by
  simp only [readXMLWayElement, readXMLWay_fst, elementUsedNodes, elementEdges]
  by_cases hu : (parsedWay settings children).usable = true
  · simp only [hu, if_true]
    split_ifs <;> simp
  · simp only [hu]
    split_ifs <;> simp

theorem readXMLNodeElement_fields (st : ImporterState) (id : NodeID) (lat lon : Double)
    (children : List NodeChild) :
    (readXMLNodeElement st id lat lon children).usedNodes = st.usedNodes
      ∧ (readXMLNodeElement st id lat lon children).edgesData = st.edgesData
      ∧ (readXMLNodeElement st id lat lon children).signalNodes
        = st.signalNodes ++ elementSignalNodes (.node id lat lon children)
      ∧ (readXMLNodeElement st id lat lon children).allNodesData
        = st.allNodesData ++ elementAllNodes (.node id lat lon children) := by
  simp only [readXMLNodeElement, elementSignalNodes, elementAllNodes, readXMLNode_id]
  cases (readXMLNode id lat lon children).name <;> split_ifs <;> simp

/-- The members and files after pass 1: what each element appends, in the order of the
stream. -/
theorem readXML_fields (settings : Settings) :
    ∀ (elements : List Element) (st st1 : ImporterState),
      readXML settings st elements = some st1 →
      st1.usedNodes = st.usedNodes ++ elements.flatMap (elementUsedNodes settings)
        ∧ st1.edgesData = st.edgesData ++ elements.flatMap (elementEdges settings)
        ∧ st1.signalNodes = st.signalNodes ++ elements.flatMap elementSignalNodes
        ∧ st1.allNodesData = st.allNodesData ++ elements.flatMap elementAllNodes := by
  intro elements
  induction elements with
  | nil =>
    intro st st1 h
    simp only [readXML, Option.some.injEq] at h
    subst h
    simp
  | cons el rest ih =>
    intro st st1 h
    simp only [readXML] at h
    cases hstep : readXMLElement settings st el with
    | none => rw [hstep] at h; exact absurd h (by simp)
    | some st2 =>
      rw [hstep] at h
      have hrest := ih st2 st1 h
      have hel : st2.usedNodes = st.usedNodes ++ elementUsedNodes settings el
          ∧ st2.edgesData = st.edgesData ++ elementEdges settings el
          ∧ st2.signalNodes = st.signalNodes ++ elementSignalNodes el
          ∧ st2.allNodesData = st.allNodesData ++ elementAllNodes el := by
        cases el with
        | node id lat lon children =>
          simp only [readXMLElement, Option.some.injEq] at hstep
          subst hstep
          have := readXMLNodeElement_fields st id lat lon children
          simpa [elementUsedNodes, elementEdges] using this
        | way children =>
          simp only [readXMLElement, Option.some.injEq] at hstep
          subst hstep
          have := readXMLWayElement_fields settings st children
          simpa [elementSignalNodes, elementAllNodes] using this
        | bound box =>
          cases box with
          | none =>
            simp only [readXMLElement, Option.some.injEq] at hstep
            subst hstep
            simp [elementUsedNodes, elementEdges, elementSignalNodes, elementAllNodes]
          | some b =>
            simp only [readXMLElement] at hstep
            split_ifs at hstep
            simp only [Option.some.injEq] at hstep
            subst hstep
            simp [elementUsedNodes, elementEdges, elementSignalNodes, elementAllNodes]
        | other =>
          simp only [readXMLElement, Option.some.injEq] at hstep
          subst hstep
          simp [elementUsedNodes, elementEdges, elementSignalNodes, elementAllNodes]
      obtain ⟨h1, h2, h3, h4⟩ := hrest
      obtain ⟨e1, e2, e3, e4⟩ := hel
      simp only [List.flatMap_cons]
      refine ⟨?_, ?_, ?_, ?_⟩
      · rw [h1, e1, List.append_assoc]
      · rw [h2, e2, List.append_assoc]
      · rw [h3, e3, List.append_assoc]
      · rw [h4, e4, List.append_assoc]

/-! ## C1: routing nodes -/

/-- C1: after pass 1 and the sort/unique lines of `Preprocess`, `m_usedNodes` is strictly
increasing, its members are exactly the node ids in the path of some way element whose parsed
way has `usefull`, `access` and a non-empty path, every member is found by `std::lower_bound`
at its own index (its dense id), and the dense id is strictly monotone in the raw id. -/
theorem C1_usedNodes_sorted_exact_monotone (settings : Settings) (elements : List Element)
    (st : ImporterState) (h : readXML settings ImporterState.initial elements = some st) :
    (sortMembers st).usedNodes.Pairwise (· < ·)
      ∧ (∀ r : NodeID, r ∈ (sortMembers st).usedNodes ↔
          ∃ children, Element.way children ∈ elements
            ∧ (readXMLWay settings Statistics.zero children).1.usefull = true
            ∧ (readXMLWay settings Statistics.zero children).1.access = true
            ∧ 0 < (readXMLWay settings Statistics.zero children).1.path.length
            ∧ r ∈ (readXMLWay settings Statistics.zero children).1.path)
      ∧ (∀ r : NodeID, r ∈ (sortMembers st).usedNodes →
          lower_bound (sortMembers st).usedNodes r < (sortMembers st).usedNodes.length
            ∧ (sortMembers st).usedNodes[lower_bound (sortMembers st).usedNodes r]? = some r)
      ∧ (∀ r1 r2 : NodeID, r1 ∈ (sortMembers st).usedNodes → r2 ∈ (sortMembers st).usedNodes →
          r1 < r2 →
          lower_bound (sortMembers st).usedNodes r1 < lower_bound (sortMembers st).usedNodes r2) := by
  have hs : (sortMembers st).usedNodes.Pairwise (· < ·) := pairwise_sortUnique _
  refine ⟨hs, ?_, ?_, ?_⟩
  · intro r
    have hf := (readXML_fields settings elements _ st h).1
    show r ∈ sortUnique st.usedNodes ↔ _
    rw [mem_sortUnique, hf]
    simp only [ImporterState.initial, List.nil_append, List.mem_flatMap]
    constructor
    · rintro ⟨el, hel, hr⟩
      cases el with
      | way children =>
        refine ⟨children, hel, ?_⟩
        simp only [elementUsedNodes] at hr
        split_ifs at hr with hu
        · simp only [Way.usable, Bool.and_eq_true, decide_eq_true_eq] at hu
          exact ⟨hu.1.1, hu.1.2, hu.2, hr⟩
        · simp at hr
      | node id lat lon children => simp [elementUsedNodes] at hr
      | bound box => simp [elementUsedNodes] at hr
      | other => simp [elementUsedNodes] at hr
    · rintro ⟨children, hel, h1, h2, h3, hr⟩
      refine ⟨_, hel, ?_⟩
      have hu : (parsedWay settings children).usable = true := by
        simp only [Way.usable, Bool.and_eq_true, decide_eq_true_eq]
        exact ⟨⟨h1, h2⟩, h3⟩
      simp only [elementUsedNodes, hu, if_true]
      exact hr
  · intro r hr
    exact lower_bound_of_mem _ hs r hr
  · intro r1 r2 h1 h2 hlt
    exact lower_bound_strictMono _ hs r1 r2 h1 h2 hlt

/-- C1 at a concrete stream: two usable ways over 7, 3, 7 and 3, 5 give the routing nodes
3, 5, 7. -/
theorem C1_usedNodes_witness :
    ∃ st, readXML scenarioSettings ImporterState.initial scenarioTwoWays = some st
      ∧ (sortMembers st).usedNodes = [3, 5, 7]
      ∧ (sortMembers st).usedNodes.Pairwise (· < ·)
      ∧ (∀ r1 r2 : NodeID, r1 ∈ (sortMembers st).usedNodes → r2 ∈ (sortMembers st).usedNodes →
          r1 < r2 →
          lower_bound (sortMembers st).usedNodes r1 < lower_bound (sortMembers st).usedNodes r2) :=
  ⟨_, rfl, by decide,
    (C1_usedNodes_sorted_exact_monotone scenarioSettings scenarioTwoWays _ rfl).1,
    (C1_usedNodes_sorted_exact_monotone scenarioSettings scenarioTwoWays _ rfl).2.2.2⟩

/-! ## Pass 2: the node ids of a way -/

theorem length_storeCoordinate (ids : List NodeID) (coords : List GPSCoordinate) (node : NodeID)
    (gps : GPSCoordinate) : (storeCoordinate ids coords node gps).length = coords.length := by
  unfold storeCoordinate
  split_ifs <;> simp

theorem length_filterCoordinates (ids : List NodeID) (allNodes : List NodeRecord) :
    (filterCoordinates ids allNodes).length = ids.length := by
  unfold filterCoordinates
  have key : ∀ (rs : List NodeRecord) (c : List GPSCoordinate),
      (rs.foldl (fun coords r => storeCoordinate ids coords r.id ⟨r.latitude, r.longitude⟩)
        c).length = c.length := by
    intro rs
    induction rs with
    | nil => intro c; rfl
    | cons r rs ih =>
      intro c
      simp only [List.foldl_cons]
      rw [ih, length_storeCoordinate]
  rw [key]
  simp

/-- When the loop over the node ids of a way ends with `valid`, the vector `way` holds the
index found by `std::lower_bound` for every node id, in the order read. -/
theorem mapNodes_valid (ctx : EdgeContext) :
    ∀ (nodes : List NodeID) (valid : Bool) (way : List NodeID) (w : List NodeID),
      mapNodes ctx nodes valid way = some (true, w) →
      valid = true ∧ w = way ++ nodes.map (lower_bound ctx.usedNodes) := by
  intro nodes
  induction nodes with
  | nil =>
    intro valid way w h
    simp only [mapNodes, Option.some.injEq, Prod.mk.injEq] at h
    simp [h.1, h.2]
  | cons node rest ih =>
    intro valid way w h
    cases valid with
    | false =>
      simp only [mapNodes, Bool.not_false, if_true] at h
      exact absurd (ih false way w h).1 (by simp)
    | true =>
      simp only [mapNodes, Bool.not_true, Bool.false_eq_true, if_false] at h
      cases hc : ctx.nodeCoordinates[lower_bound ctx.usedNodes node]? with
      | none => rw [hc] at h; exact absurd h (by simp)
      | some c =>
        rw [hc] at h
        have := (ih _ _ w h).2
        simp [this]

/-- The loop over the node ids of a way reads no coordinate out of range when every index
found is below the size of `nodeCoordinates`. -/
theorem mapNodes_total (ctx : EdgeContext) :
    ∀ (nodes : List NodeID) (valid : Bool) (way : List NodeID),
      (∀ n ∈ nodes, lower_bound ctx.usedNodes n < ctx.nodeCoordinates.length) →
      ∃ v w, mapNodes ctx nodes valid way = some (v, w) := by
  intro nodes
  induction nodes with
  | nil => intro valid way _; exact ⟨valid, way, rfl⟩
  | cons node rest ih =>
    intro valid way hr
    have hrest : ∀ n ∈ rest, lower_bound ctx.usedNodes n < ctx.nodeCoordinates.length :=
      fun n hn => hr n (List.mem_cons_of_mem _ hn)
    cases valid with
    | false =>
      simp only [mapNodes, Bool.not_false, if_true]
      exact ih false way hrest
    | true =>
      simp only [mapNodes, Bool.not_true, Bool.false_eq_true, if_false]
      have hlt := hr node (List.mem_cons_self _ _)
      rw [List.getElem?_eq_getElem hlt]
      exact ih _ _ hrest

/-- A record that the edge loop writes holds the name and flag of the `_edges` record and the
mapped node ids. -/
theorem mapWay_written (ctx : EdgeContext) (stats stats1 : Statistics) (r : EdgeRecord)
    (m : MappedRecord) (h : mapWay ctx stats r = some (some m, stats1)) :
    m.name = r.name ∧ m.bidirectional = r.bidirectional
      ∧ m.nodeIds = r.nodeIds.map (lower_bound ctx.usedNodes) := by
  unfold mapWay at h
  cases hm : mapNodes ctx r.nodeIds (!Double.eq r.maxspeed (Double.ofInt 0)) [] with
  | none => rw [hm] at h; exact absurd h (by simp)
  | some p =>
    obtain ⟨valid, way⟩ := p
    rw [hm] at h
    cases valid with
    | false => simp at h
    | true =>
      have hw := (mapNodes_valid ctx _ _ _ _ hm).2
      simp only [List.nil_append] at hw
      simp only [Bool.not_true, Bool.false_eq_true, if_false] at h
      by_cases hz : (Double.eq r.maxspeed (Double.ofInt 0)
          || (Double.lt r.maxspeed (Double.ofInt 0) && decide (r.type < 0))) = true
      · rw [if_pos hz] at h
        simp only [Option.some.injEq, Prod.mk.injEq] at h
        rw [← h.1]
        exact ⟨rfl, rfl, hw⟩
      · rw [if_neg hz] at h
        split at h
        · exact absurd h (by simp)
        · simp only [Option.some.injEq, Prod.mk.injEq] at h
          rw [← h.1]
          exact ⟨rfl, rfl, hw⟩

/-- The node ids of every record of `_edges` are routing nodes. -/
theorem edges_nodeIds_used (settings : Settings) (elements : List Element) (st : ImporterState)
    (h : readXML settings ImporterState.initial elements = some st) (r : EdgeRecord)
    (hr : r ∈ st.edgesData) (raw : NodeID) (hraw : raw ∈ r.nodeIds) : raw ∈ st.usedNodes := by
  obtain ⟨h1, h2, -, -⟩ := readXML_fields settings elements _ st h
  rw [h1]
  rw [h2] at hr
  simp only [ImporterState.initial, List.nil_append, List.mem_flatMap] at hr ⊢
  obtain ⟨el, hel, hrel⟩ := hr
  refine ⟨el, hel, ?_⟩
  cases el with
  | way children =>
    simp only [elementEdges] at hrel
    simp only [elementUsedNodes]
    split_ifs at hrel ⊢ with hu
    · simp only [List.mem_singleton] at hrel
      subst hrel
      have hpath : (wayForEdges settings (parsedWay settings children)).path
          = (parsedWay settings children).path := by
        simp only [wayForEdges]
        split_ifs <;> rfl
      simp only [edgeRecord, hpath] at hraw
      split_ifs at hraw
      · exact List.mem_reverse.mp hraw
      · exact hraw
    · simp at hrel
  | node id lat lon children => simp [elementEdges] at hrel
  | bound box => simp [elementEdges] at hrel
  | other => simp [elementEdges] at hrel

/-! ## C2: mapped node ids -/

/-- C2: for every record `r` that pass 1 wrote to `_edges`, every raw node id of `r` is found
by `std::lower_bound` in the sorted `m_usedNodes` at an index `d` below the size of
`m_usedNodes` and of `nodeCoordinates` with `m_usedNodes[d]` equal to the raw id, the loop that
maps the node ids never reads `nodeCoordinates` out of range, and every record that pass 2
writes for `r` holds exactly these indices, in the order of `r`. -/
theorem C2_mapped_ids_dense (settings : Settings) (elements : List Element) (st : ImporterState)
    (h : readXML settings ImporterState.initial elements = some st)
    (nodeLocation : List NodeLocation) (Distance : GPSCoordinate → GPSCoordinate → Double)
    (stats : Statistics) (r : EdgeRecord) (hr : r ∈ st.edgesData) :
    (∀ raw ∈ r.nodeIds,
        lower_bound (sortMembers st).usedNodes raw < (sortMembers st).usedNodes.length
          ∧ lower_bound (sortMembers st).usedNodes raw
              < (edgeContext settings st nodeLocation Distance).nodeCoordinates.length
          ∧ (sortMembers st).usedNodes[lower_bound (sortMembers st).usedNodes raw]? = some raw)
      ∧ (∃ valid way, mapNodes (edgeContext settings st nodeLocation Distance) r.nodeIds
          (!Double.eq r.maxspeed (Double.ofInt 0)) [] = some (valid, way))
      ∧ (∀ m stats1,
          mapWay (edgeContext settings st nodeLocation Distance) stats r = some (some m, stats1) →
          m.nodeIds = r.nodeIds.map (lower_bound (sortMembers st).usedNodes)
            ∧ List.Forall₂
                (fun d raw => d < (sortMembers st).usedNodes.length
                  ∧ (sortMembers st).usedNodes[d]? = some raw)
                m.nodeIds r.nodeIds) := by
  have hs : (sortMembers st).usedNodes.Pairwise (· < ·) := pairwise_sortUnique _
  have hmem : ∀ raw ∈ r.nodeIds, raw ∈ (sortMembers st).usedNodes := by
    intro raw hraw
    show raw ∈ sortUnique st.usedNodes
    rw [mem_sortUnique]
    exact edges_nodeIds_used settings elements st h r hr raw hraw
  have hlen : (edgeContext settings st nodeLocation Distance).nodeCoordinates.length
      = (sortMembers st).usedNodes.length := by
    simp only [edgeContext]
    exact length_filterCoordinates _ _
  have hall : ∀ raw ∈ r.nodeIds,
      lower_bound (sortMembers st).usedNodes raw < (sortMembers st).usedNodes.length
        ∧ lower_bound (sortMembers st).usedNodes raw
            < (edgeContext settings st nodeLocation Distance).nodeCoordinates.length
        ∧ (sortMembers st).usedNodes[lower_bound (sortMembers st).usedNodes raw]? = some raw := by
    intro raw hraw
    have := lower_bound_of_mem _ hs raw (hmem raw hraw)
    exact ⟨this.1, by rw [hlen]; exact this.1, this.2⟩
  refine ⟨hall, ?_, ?_⟩
  · exact mapNodes_total _ _ _ _ (fun n hn => (hall n hn).2.1)
  · intro m stats1 hm
    have hw := (mapWay_written _ _ _ _ _ hm).2.2
    have hw1 : m.nodeIds = r.nodeIds.map (lower_bound (sortMembers st).usedNodes) := hw
    refine ⟨hw1, ?_⟩
    rw [hw1, List.forall₂_map_left_iff]
    exact List.forall₂_same.mpr (fun raw hraw => ⟨(hall raw hraw).1, (hall raw hraw).2.2⟩)

/-- C2 at scenario S1: the way over the raw ids 1 and 2 is written with the dense ids 0
and 1. -/
theorem C2_mapped_ids_witness :
    ∃ st, readXML scenarioSettings ImporterState.initial scenarioS1 = some st
      ∧ (⟨"", 0, Double.ofInt (-1), 1, [1, 2]⟩ : EdgeRecord) ∈ st.edgesData
      ∧ (sortMembers st).usedNodes = [1, 2]
      ∧ mapWay (edgeContext scenarioSettings st
            [⟨false, 0, Double.ofInt 0⟩, ⟨false, 0, Double.ofInt 0⟩] scenarioDistance)
          Statistics.zero ⟨"", 0, Double.ofInt (-1), 1, [1, 2]⟩
          = some (some ⟨"", 1, [0, 1], [Double.fin false 4700069161114533 (-45)]⟩,
              Statistics.zero)
      ∧ List.Forall₂
          (fun d raw => d < (sortMembers st).usedNodes.length
            ∧ (sortMembers st).usedNodes[d]? = some raw)
          [0, 1] [1, 2] :=
  ⟨_, rfl, by decide, by decide, by decide,
    ((C2_mapped_ids_dense scenarioSettings scenarioS1 _ rfl
      [⟨false, 0, Double.ofInt 0⟩, ⟨false, 0, Double.ofInt 0⟩] scenarioDistance Statistics.zero
      ⟨"", 0, Double.ofInt (-1), 1, [1, 2]⟩ (by decide)).2.2
        ⟨"", 1, [0, 1], [Double.fin false 4700069161114533 (-45)]⟩ Statistics.zero
        (by decide)).2⟩

/-! ## C4: direction -/

theorem maxspeedTag_direction (acc : Way × Statistics) (value : String) :
    (maxspeedTag acc value).1.direction = acc.1.direction := by
  simp only [maxspeedTag]
  split_ifs <;> rfl

theorem readXMLWayChild_direction (settings : Settings) (acc : Way × Statistics) (c : WayChild) :
    (readXMLWayChild settings acc c).1.direction = directionStep acc.1.direction c := by
  cases c with
  | nd ref => simp [readXMLWayChild, directionStep, explicitOneway, impliesOneway]
  | other => simp [readXMLWayChild, directionStep, explicitOneway, impliesOneway]
  | tag k v =>
    simp only [readXMLWayChild, readXMLWayTag]
    by_cases h1 : k = "oneway"
    · subst h1
      simp only [if_true, directionStep, explicitOneway, onewayMapping, onewayTag, impliesOneway]
      by_cases ha : v = "no" ∨ v = "false" ∨ v = "0"
      · have hb : ¬ (v = "yes" ∨ v = "true" ∨ v = "1") := by
          rcases ha with rfl | rfl | rfl <;> decide
        simp [ha, hb]
      · by_cases hb : v = "yes" ∨ v = "true" ∨ v = "1"
        · simp [ha, hb]
        · by_cases hc : v = "-1"
          · simp [ha, hb, hc]
          · simp [ha, hb, hc]
    · rw [if_neg h1]
      by_cases h2 : k = "junction"
      · subst h2
        simp only [if_true, junctionTag, directionStep, explicitOneway, impliesOneway]
        by_cases hv : v = "roundabout" <;> by_cases hd : acc.1.direction = .NotSure <;>
          simp [hv, hd]
      · rw [if_neg h2]
        by_cases h3 : k = "highway"
        · subst h3
          simp only [if_true, highwayTag, directionStep, explicitOneway, impliesOneway]
          by_cases hv : v = "motorway" ∨ v = "motorway_link" <;>
            by_cases hd : acc.1.direction = .NotSure <;>
            split_ifs <;> simp_all
        · rw [if_neg h3]
          have hstep : directionStep acc.1.direction (.tag k v) = acc.1.direction := by
            simp [directionStep, explicitOneway, impliesOneway, h1, h2, h3]
          rw [hstep]
          split_ifs
          · rfl
          · rfl
          · simp only [placeTag]; cases placeOfValue v <;> rfl
          · exact maxspeedTag_direction acc v
          · simp only [accessTag]; split_ifs <;> rfl

theorem explicitOneway_ne_notSure (c : WayChild) (d : Direction)
    (h : explicitOneway c = some d) : d ≠ .NotSure := by
  cases c with
  | nd ref => simp [explicitOneway] at h
  | other => simp [explicitOneway] at h
  | tag k v =>
    simp only [explicitOneway, onewayMapping] at h
    split_ifs at h <;> (simp only [Option.some.injEq] at h; subst h; decide)

theorem specDirection_append (cs : List WayChild) (c : WayChild) :
    specDirection (cs ++ [c]) = directionStep (specDirection cs) c := by
  unfold specDirection directionStep
  rw [List.filterMap_append]
  cases hc : explicitOneway c with
  | some e =>
    simp [List.filterMap, hc]
  | none =>
    simp only [List.filterMap, hc, List.append_nil, List.any_append, List.any_cons, List.any_nil,
      Bool.or_false]
    cases hl : (cs.filterMap explicitOneway).getLast? with
    | some d =>
      have hmem : d ∈ cs.filterMap explicitOneway := List.mem_of_getLast?_eq_some hl
      obtain ⟨x, -, hx⟩ := List.mem_filterMap.mp hmem
      have hne := explicitOneway_ne_notSure x d hx
      simp [hne]
    | none =>
      cases cs.any impliesOneway <;> cases impliesOneway c <;> simp

/-- C4: for every sequence of children of a way element, the direction that `readXMLWay`
returns is the mapping of the last `oneway` tag with a recognized value (`yes|true|1` Oneway,
`no|false|0` Bidirectional, `-1` Opposite) if there is one, wherever the implying tags stand;
otherwise Oneway if the sequence holds `junction=roundabout`, `highway=motorway` or
`highway=motorway_link`; otherwise NotSure. -/
theorem C4_direction_last_explicit_wins (settings : Settings) (stats : Statistics)
    (children : List WayChild) :
    (readXMLWay settings stats children).1.direction = specDirection children := by
  induction children using List.reverseRecOn with
  | nil => rfl
  | append_singleton cs c ih =>
    rw [specDirection_append, ← ih]
    unfold readXMLWay
    rw [List.foldl_append]
    exact readXMLWayChild_direction settings _ c

/-! ## C3: access -/

theorem maxspeedTag_access (acc : Way × Statistics) (value : String) :
    (maxspeedTag acc value).1.accessPriority = acc.1.accessPriority
      ∧ (maxspeedTag acc value).1.access = acc.1.access := by
  simp only [maxspeedTag]
  split_ifs <;> exact ⟨rfl, rfl⟩

theorem qIndexOf_eq (l : List String) (k : String) :
    (qIndexOf l k ≠ -1 ↔ l.indexOf k < l.length)
      ∧ (l.indexOf k < l.length → qIndexOf l k = (l.indexOf k : Int)) := by
  unfold qIndexOf
  constructor
  · constructor
    · intro h
      by_contra hcon
      rw [if_neg hcon] at h
      exact h rfl
    · intro h
      rw [if_pos h]
      omega
  · intro h
    rw [if_pos h]

theorem allow_not_deny (v : String) (h : isAllowValue v = true) : isDenyValue v = false := by
  simp only [isAllowValue, decide_eq_true_eq] at h
  rcases h with rfl | rfl | rfl | rfl <;> decide

theorem accessTag_step (settings : Settings) (way : Way) (k v : String)
    (hk : isHandledKey k = false) :
    ((accessTag settings way k v).accessPriority, (accessTag settings way k v).access)
      = accessStep settings.accessList (way.accessPriority, way.access) (.tag k v) := by
  obtain ⟨hq1, hq2⟩ := qIndexOf_eq settings.accessList k
  by_cases hin : settings.accessList.indexOf k < settings.accessList.length
  · have hq := hq2 hin
    have hne1 : ¬ ((settings.accessList.indexOf k : Nat) : Int) = -1 := by omega
    by_cases hlt : ((settings.accessList.indexOf k : Nat) : Int) < way.accessPriority
    · by_cases hd : isDenyValue v = true
      · simp [accessTag, accessStep, accessIndex, hk, hq, hin, hne1, hlt, hd]
      · by_cases ha : isAllowValue v = true
        · simp [accessTag, accessStep, accessIndex, hk, hq, hin, hne1, hlt, hd, ha]
        · simp [accessTag, accessStep, accessIndex, hk, hq, hin, hne1, hlt, hd, ha]
    · by_cases hd : isDenyValue v = true
      · simp [accessTag, accessStep, accessIndex, hk, hq, hin, hne1, hlt, hd]
      · by_cases ha : isAllowValue v = true
        · simp [accessTag, accessStep, accessIndex, hk, hq, hin, hne1, hlt, hd, ha]
        · simp [accessTag, accessStep, accessIndex, hk, hq, hin, hne1, hlt, hd, ha]
  · have hne : qIndexOf settings.accessList k = -1 := by
      by_contra hcon
      exact hin (hq1.mp hcon)
    simp [accessTag, accessStep, accessIndex, hne, hin]

theorem readXMLWayChild_access (settings : Settings) (acc : Way × Statistics) (c : WayChild) :
    ((readXMLWayChild settings acc c).1.accessPriority, (readXMLWayChild settings acc c).1.access)
      = accessStep settings.accessList (acc.1.accessPriority, acc.1.access) c := by
  cases c with
  | nd ref => simp [readXMLWayChild, accessStep]
  | other => simp [readXMLWayChild, accessStep]
  | tag k v =>
    by_cases hk : isHandledKey k = true
    · have hstep : accessStep settings.accessList (acc.1.accessPriority, acc.1.access) (.tag k v)
          = (acc.1.accessPriority, acc.1.access) := by
        simp [accessStep, accessIndex, hk]
      rw [hstep]
      simp only [readXMLWayChild, readXMLWayTag]
      simp only [isHandledKey, decide_eq_true_eq] at hk
      split_ifs
      · simp only [onewayTag]; split_ifs <;> rfl
      · simp only [junctionTag]; split_ifs <;> rfl
      · simp only [highwayTag]; split_ifs <;> rfl
      · rfl
      · rfl
      · simp only [placeTag]; cases placeOfValue v <;> rfl
      · rw [(maxspeedTag_access acc v).1, (maxspeedTag_access acc v).2]
      · exfalso; tauto
    · have hk1 : isHandledKey k = false := by simpa using hk
      have hk2 := hk1
      simp only [isHandledKey, decide_eq_false_iff_not, not_or] at hk2
      obtain ⟨n1, n2, n3, n4, n5, n6, n7⟩ := hk2
      simp only [readXMLWayChild, readXMLWayTag, n1, n2, n3, n4, n5, n6, n7, if_false]
      exact accessTag_step settings acc.1 k v hk1

theorem readXMLWay_access_fold (settings : Settings) :
    ∀ (cs : List WayChild) (acc : Way × Statistics),
      ((cs.foldl (readXMLWayChild settings) acc).1.accessPriority,
        (cs.foldl (readXMLWayChild settings) acc).1.access)
        = cs.foldl (accessStep settings.accessList) (acc.1.accessPriority, acc.1.access) := by
  intro cs
  induction cs with
  | nil => intro acc; rfl
  | cons c cs ih =>
    intro acc
    simp only [List.foldl_cons]
    rw [ih, readXMLWayChild_access]

theorem accessStep_of_none (al : List String) (pa : Int × Bool) (c : WayChild)
    (h : accessIndex al c = none) : accessStep al pa c = pa := by
  cases c with
  | nd ref => rfl
  | other => rfl
  | tag k v => simp only [accessStep, h]

theorem accessStep_of_some (al : List String) (pa : Int × Bool) (k v : String) (i : Nat)
    (h : accessIndex al (.tag k v) = some i) :
    accessStep al pa (.tag k v) = if (i : Int) < pa.1 then ((i : Int), !isDenyValue v) else pa := by
  simp only [accessStep, h]

/-- Children whose candidates all have an index not below the current priority change
nothing. -/
theorem accessFold_stay (al : List String) :
    ∀ (cs : List WayChild) (pa : Int × Bool),
      (∀ x ∈ cs, ∀ i, accessIndex al x = some i → pa.1 ≤ (i : Int)) →
      cs.foldl (accessStep al) pa = pa := by
  intro cs
  induction cs with
  | nil => intro pa _; rfl
  | cons c cs ih =>
    intro pa h
    simp only [List.foldl_cons]
    have hc : accessStep al pa c = pa := by
      cases hi : accessIndex al c with
      | none => exact accessStep_of_none al pa c hi
      | some i =>
        cases c with
        | nd ref => rfl
        | other => rfl
        | tag k v =>
          rw [accessStep_of_some al pa k v i hi]
          have := h _ (List.mem_cons_self _ _) i hi
          rw [if_neg (by omega)]
    rw [hc]
    exact ih pa (fun x hx i hi => h x (List.mem_cons_of_mem _ hx) i hi)

/-- Children whose candidates all have an index above `idx` leave the priority above `idx`. -/
theorem accessFold_above (al : List String) (idx : Nat) :
    ∀ (cs : List WayChild) (pa : Int × Bool), (idx : Int) < pa.1 →
      (∀ x ∈ cs, ∀ i, accessIndex al x = some i → idx < i) →
      (idx : Int) < (cs.foldl (accessStep al) pa).1 := by
  intro cs
  induction cs with
  | nil => intro pa h _; exact h
  | cons c cs ih =>
    intro pa hpa h
    simp only [List.foldl_cons]
    apply ih
    · cases hi : accessIndex al c with
      | none => rw [accessStep_of_none al pa c hi]; exact hpa
      | some i =>
        cases c with
        | nd ref => exact hpa
        | other => exact hpa
        | tag k v =>
          rw [accessStep_of_some al pa k v i hi]
          have := h _ (List.mem_cons_self _ _) i hi
          split_ifs
          · show (idx : Int) < (i : Int)
            omega
          · exact hpa
    · exact fun x hx i hi => h x (List.mem_cons_of_mem _ hx) i hi

theorem accessIndex_lt (al : List String) (c : WayChild) (i : Nat)
    (h : accessIndex al c = some i) : i < al.length := by
  cases c with
  | nd ref => simp [accessIndex] at h
  | other => simp [accessIndex] at h
  | tag k v =>
    simp only [accessIndex] at h
    split_ifs at h with hc
    simp only [Option.some.injEq] at h
    rw [← h]
    exact hc.2.1

theorem accessIndex_value (al : List String) (k v : String) (i : Nat)
    (h : accessIndex al (.tag k v) = some i) :
    (isDenyValue v = true ∨ isAllowValue v = true) ∧ al.indexOf k = i
      ∧ al.indexOf k < al.length := by
  simp only [accessIndex] at h
  split_ifs at h with hc
  simp only [Option.some.injEq] at h
  exact ⟨hc.2.2, h, hc.2.1⟩

/-- The access flag when the child `tag k v` is the first candidate of smallest index. -/
theorem access_decided (settings : Settings) (stats : Statistics) (pre post : List WayChild)
    (k v : String) (idx : Nat)
    (hc : accessIndex settings.accessList (.tag k v) = some idx)
    (hpre : ∀ x ∈ pre, ∀ i, accessIndex settings.accessList x = some i → idx < i)
    (hpost : ∀ x ∈ post, ∀ i, accessIndex settings.accessList x = some i → idx ≤ i) :
    (readXMLWay settings stats (pre ++ .tag k v :: post)).1.access = !isDenyValue v := by
  have hfold := readXMLWay_access_fold settings (pre ++ .tag k v :: post)
    (Way.initial settings, stats)
  have hlen : idx < settings.accessList.length := accessIndex_lt _ _ _ hc
  have h1 : (idx : Int) <
      (pre.foldl (accessStep settings.accessList)
        ((settings.accessList.length : Int), true)).1 :=
    accessFold_above _ idx pre _ (by show (idx : Int) < (settings.accessList.length : Int); omega)
      hpre
  have h2 : (pre ++ .tag k v :: post).foldl (accessStep settings.accessList)
      ((settings.accessList.length : Int), true) = ((idx : Int), !isDenyValue v) := by
    rw [List.foldl_append, List.foldl_cons, accessStep_of_some _ _ k v idx hc, if_pos h1]
    exact accessFold_stay _ post _
      (fun x hx i hi => by
        have := hpost x hx i hi
        show (idx : Int) ≤ (i : Int)
        omega)
  have h3 : (Way.initial settings).accessPriority = (settings.accessList.length : Int) := rfl
  have h4 : (Way.initial settings).access = true := rfl
  simp only [h3, h4] at hfold
  rw [h2] at hfold
  exact (Prod.mk.injEq _ _ _ _ ▸ hfold).2

theorem access_default (settings : Settings) (stats : Statistics) (children : List WayChild)
    (h : ∀ x ∈ children, accessIndex settings.accessList x = none) :
    (readXMLWay settings stats children).1.access = true := by
  have hfold := readXMLWay_access_fold settings children (Way.initial settings, stats)
  rw [accessFold_stay _ children _ (fun x hx i hi => by rw [h x hx] at hi; exact absurd hi (by simp))]
    at hfold
  exact (Prod.mk.injEq _ _ _ _ ▸ hfold).2

theorem exists_min_candidate (al : List String) :
    ∀ l : List WayChild, (∃ x ∈ l, ∃ i, accessIndex al x = some i) →
      ∃ x ∈ l, ∃ i, accessIndex al x = some i
        ∧ ∀ y ∈ l, ∀ j, accessIndex al y = some j → i ≤ j := by
  intro l
  induction l with
  | nil => rintro ⟨x, hx, -⟩; exact absurd hx (List.not_mem_nil _)
  | cons c l ih =>
    intro hex
    by_cases hl : ∃ x ∈ l, ∃ i, accessIndex al x = some i
    · obtain ⟨y, hy, j, hj, hmin⟩ := ih hl
      cases hc : accessIndex al c with
      | none =>
        refine ⟨y, List.mem_cons_of_mem _ hy, j, hj, ?_⟩
        intro z hz n hn
        rcases List.mem_cons.mp hz with rfl | hzl
        · rw [hc] at hn; exact absurd hn (by simp)
        · exact hmin z hzl n hn
      | some i =>
        by_cases hij : i ≤ j
        · refine ⟨c, List.mem_cons_self _ _, i, hc, ?_⟩
          intro z hz n hn
          rcases List.mem_cons.mp hz with rfl | hzl
          · rw [hc] at hn; simp only [Option.some.injEq] at hn; omega
          · exact le_trans hij (hmin z hzl n hn)
        · refine ⟨y, List.mem_cons_of_mem _ hy, j, hj, ?_⟩
          intro z hz n hn
          rcases List.mem_cons.mp hz with rfl | hzl
          · rw [hc] at hn; simp only [Option.some.injEq] at hn; omega
          · exact hmin z hzl n hn
    · obtain ⟨x, hx, i, hi⟩ := hex
      rcases List.mem_cons.mp hx with rfl | hxl
      · refine ⟨x, List.mem_cons_self _ _, i, hi, ?_⟩
        intro z hz n hn
        rcases List.mem_cons.mp hz with rfl | hzl
        · rw [hi] at hn; simp only [Option.some.injEq] at hn; omega
        · exact absurd ⟨z, hzl, n, hn⟩ hl
      · exact absurd ⟨x, hxl, i, hi⟩ hl

theorem access_of_min_candidate (settings : Settings) (stats : Statistics)
    (children : List WayChild) (k v : String) (idx : Nat)
    (hmem : WayChild.tag k v ∈ children)
    (hc : accessIndex settings.accessList (.tag k v) = some idx)
    (hmin : ∀ y ∈ children, ∀ j, accessIndex settings.accessList y = some j → idx ≤ j)
    (hnd : (children.filterMap childKey).Nodup) :
    (readXMLWay settings stats children).1.access = !isDenyValue v := by
  obtain ⟨pre, post, rfl⟩ := List.append_of_mem hmem
  apply access_decided settings stats pre post k v idx hc
  · intro y hy j hj
    have hle := hmin y (List.mem_append_left _ hy) j hj
    rcases Nat.eq_or_lt_of_le hle with heq | hlt
    · exfalso
      subst heq
      cases y with
      | nd ref => simp [accessIndex] at hj
      | other => simp [accessIndex] at hj
      | tag k1 v1 =>
        obtain ⟨-, e1, l1⟩ := accessIndex_value _ _ _ _ hc
        obtain ⟨-, e2, l2⟩ := accessIndex_value _ _ _ _ hj
        have hk : k1 = k := by
          have a1 := List.getElem_indexOf l1
          have a2 := List.getElem_indexOf l2
          rw [← a1, ← a2]
          simp only [e1, e2]
        subst hk
        rw [List.filterMap_append, List.filterMap_cons] at hnd
        simp only [childKey] at hnd
        have hdis := (List.nodup_append.mp hnd).2.2
        have hin : k1 ∈ pre.filterMap childKey :=
          List.mem_filterMap.mpr ⟨_, hy, rfl⟩
        exact hdis hin (List.mem_cons_self _ _)
    · exact hlt
  · intro y hy j hj
    exact hmin y (List.mem_append_right _ (List.mem_cons_of_mem _ hy)) j hj

/-- C3: the access flag that `readXMLWay` returns is decided by the tag that reaches the access
list branch with a key of the list and a recognized allow or deny value and whose key has the
smallest index in the list, the first such tag when the index repeats: the flag is false for
a deny value and true for an allow value; it is true when there is no such tag; and permuting
children whose tags have distinct keys does not change it. -/
theorem C3_access_most_specific_wins (settings : Settings) (stats : Statistics) :
    (∀ (pre post : List WayChild) (k v : String) (idx : Nat),
        accessIndex settings.accessList (.tag k v) = some idx →
        (∀ x ∈ pre, ∀ i, accessIndex settings.accessList x = some i → idx < i) →
        (∀ x ∈ post, ∀ i, accessIndex settings.accessList x = some i → idx ≤ i) →
        (isDenyValue v = true →
            (readXMLWay settings stats (pre ++ .tag k v :: post)).1.access = false)
          ∧ (isAllowValue v = true →
            (readXMLWay settings stats (pre ++ .tag k v :: post)).1.access = true))
      ∧ (∀ children : List WayChild,
          (∀ x ∈ children, accessIndex settings.accessList x = none) →
          (readXMLWay settings stats children).1.access = true)
      ∧ (∀ children permuted : List WayChild, children.Perm permuted →
          (children.filterMap childKey).Nodup →
          (readXMLWay settings stats permuted).1.access
            = (readXMLWay settings stats children).1.access) := by
  refine ⟨?_, ?_, ?_⟩
  · intro pre post k v idx hc hpre hpost
    have h := access_decided settings stats pre post k v idx hc hpre hpost
    constructor
    · intro hd; rw [h, hd]; rfl
    · intro ha; rw [h, allow_not_deny v ha]; rfl
  · exact access_default settings stats
  · intro children permuted hperm hnd
    by_cases hex : ∃ x ∈ children, ∃ i, accessIndex settings.accessList x = some i
    · obtain ⟨x, hx, idx, hi, hmin⟩ := exists_min_candidate _ children hex
      cases x with
      | nd ref => simp [accessIndex] at hi
      | other => simp [accessIndex] at hi
      | tag k v =>
        rw [access_of_min_candidate settings stats children k v idx hx hi hmin hnd]
        exact access_of_min_candidate settings stats permuted k v idx (hperm.mem_iff.mp hx) hi
          (fun y hy j hj => hmin y (hperm.mem_iff.mpr hy) j hj)
          ((hperm.filterMap childKey).nodup_iff.mp hnd)
    · have hnone : ∀ x ∈ children, accessIndex settings.accessList x = none := by
        intro x hx
        cases hxi : accessIndex settings.accessList x with
        | none => rfl
        | some i => exact absurd ⟨x, hx, i, hxi⟩ hex
      rw [access_default settings stats children hnone]
      exact access_default settings stats permuted
        (fun x hx => hnone x (hperm.mem_iff.mpr hx))

/-- C3 at a concrete way: with the access list motorcar, vehicle, access, the tags
`access=no` and `motorcar=yes` give access in either order, decided by `motorcar`, and
`access=no` alone denies it. -/
theorem C3_access_witness :
    (readXMLWay scenarioAccessSettings Statistics.zero
        [.tag "access" "no", .tag "motorcar" "yes"]).1.access = true
      ∧ (readXMLWay scenarioAccessSettings Statistics.zero
        [.tag "motorcar" "yes", .tag "access" "no"]).1.access = true
      ∧ (readXMLWay scenarioAccessSettings Statistics.zero
        [.tag "highway" "residential", .tag "access" "no"]).1.access = false :=
  ⟨((C3_access_most_specific_wins scenarioAccessSettings Statistics.zero).1
      [.tag "access" "no"] [] "motorcar" "yes" 0 (by decide) (by decide) (by decide)).2
      (by decide),
    ((C3_access_most_specific_wins scenarioAccessSettings Statistics.zero).2.2
      [.tag "access" "no", .tag "motorcar" "yes"] [.tag "motorcar" "yes", .tag "access" "no"]
      (List.Perm.swap _ _ _) (by decide)).trans
      (((C3_access_most_specific_wins scenarioAccessSettings Statistics.zero).1
        [.tag "access" "no"] [] "motorcar" "yes" 0 (by decide) (by decide) (by decide)).2
        (by decide)),
    ((C3_access_most_specific_wins scenarioAccessSettings Statistics.zero).1
      [.tag "highway" "residential"] [] "access" "no" 2 (by decide) (by decide) (by decide)).1
      (by decide)⟩

/-! ## C7 and C8: the order of the path -/

theorem wayForEdges_fields (settings : Settings) (way : Way) :
    (wayForEdges settings way).path = way.path
      ∧ (wayForEdges settings way).direction
        = (if settings.ignoreOneway then Direction.Bidirectional else way.direction) := by
  simp only [wayForEdges]
  split_ifs <;> exact ⟨rfl, rfl⟩

/-- C7: when `ignoreOneway` is not set, pass 1 writes for a usable way exactly one record to
`_edges`; its node ids are the parsed path reversed when the direction is Opposite, with the
bidirectional flag 0, and the parsed path unchanged for every other direction; every record
that pass 2 writes for it to `_mapped_edges` holds the dense ids of these node ids in the same
order and the same flag. -/
theorem C7_opposite_path_reversed (settings : Settings) (hign : settings.ignoreOneway = false)
    (st : ImporterState) (children : List WayChild)
    (hu : (parsedWay settings children).usable = true) :
    ∃ r : EdgeRecord,
      (readXMLWayElement settings st children).edgesData = st.edgesData ++ [r]
        ∧ ((parsedWay settings children).direction = .Opposite →
            r.nodeIds = (parsedWay settings children).path.reverse ∧ r.bidirectional = 0)
        ∧ ((parsedWay settings children).direction ≠ .Opposite →
            r.nodeIds = (parsedWay settings children).path)
        ∧ ∀ (ctx : EdgeContext) (stats stats1 : Statistics) (m : MappedRecord),
            mapWay ctx stats r = some (some m, stats1) →
            m.nodeIds = r.nodeIds.map (lower_bound ctx.usedNodes)
              ∧ m.bidirectional = r.bidirectional := by
  refine ⟨edgeRecord (wayForEdges settings (parsedWay settings children)), ?_, ?_, ?_, ?_⟩
  · rw [(readXMLWayElement_fields settings st children).2.1]
    simp only [elementEdges, hu, if_true]
  · intro hd
    obtain ⟨hp, hdir⟩ := wayForEdges_fields settings (parsedWay settings children)
    simp only [hign, Bool.false_eq_true, if_false] at hdir
    simp [edgeRecord, hp, hdir, hd]
  · intro hd
    obtain ⟨hp, hdir⟩ := wayForEdges_fields settings (parsedWay settings children)
    simp only [hign, Bool.false_eq_true, if_false] at hdir
    simp [edgeRecord, hp, hdir, hd]
  · intro ctx stats stats1 m hm
    obtain ⟨-, h2, h3⟩ := mapWay_written ctx stats stats1 _ m hm
    exact ⟨h3, h2⟩

/-- C7 at scenario S2: the way over the nodes 10, 20, 30 with `oneway=-1` is written to
`_edges` over 30, 20, 10 with flag 0 and to `_mapped_edges` with the dense ids 2, 1, 0. -/
theorem C7_opposite_witness :
    (parsedWay scenarioSettings
        [.nd 10, .nd 20, .nd 30, .tag "highway" "residential", .tag "oneway" "-1"]).direction
        = .Opposite
      ∧ (∃ r : EdgeRecord,
          (readXMLWayElement scenarioSettings ImporterState.initial
            [.nd 10, .nd 20, .nd 30, .tag "highway" "residential", .tag "oneway" "-1"]).edgesData
            = ImporterState.initial.edgesData ++ [r]
          ∧ r.nodeIds = [30, 20, 10] ∧ r.bidirectional = 0)
      ∧ (mappedEdges scenarioSettings scenarioDistance (noPlaces 3) scenarioS2).map
          (fun ms => ms.map (fun m => (m.bidirectional, m.nodeIds))) = some [(0, [2, 1, 0])] := by
  refine ⟨by decide, ?_, by decide⟩
  obtain ⟨r, h1, h2, -, -⟩ := C7_opposite_path_reversed scenarioSettings rfl
    ImporterState.initial
    [.nd 10, .nd 20, .nd 30, .tag "highway" "residential", .tag "oneway" "-1"] (by decide)
  exact ⟨r, h1, (h2 (by decide)).1, (h2 (by decide)).2⟩

/-- C8: when `ignoreOneway` is set, pass 1 writes for every usable way, whatever its tags,
exactly one record to `_edges`, with the parsed path in its parsed order and the bidirectional
flag 1. -/
theorem C8_ignoreOneway_never_reverses (settings : Settings)
    (hign : settings.ignoreOneway = true) (st : ImporterState) (children : List WayChild)
    (hu : (parsedWay settings children).usable = true) :
    ∃ r : EdgeRecord,
      (readXMLWayElement settings st children).edgesData = st.edgesData ++ [r]
        ∧ r.nodeIds = (parsedWay settings children).path
        ∧ r.bidirectional = 1 := by
  refine ⟨edgeRecord (wayForEdges settings (parsedWay settings children)), ?_, ?_, ?_⟩
  · rw [(readXMLWayElement_fields settings st children).2.1]
    simp only [elementEdges, hu, if_true]
  · obtain ⟨hp, hdir⟩ := wayForEdges_fields settings (parsedWay settings children)
    simp only [hign, if_true] at hdir
    simp [edgeRecord, hp, hdir]
  · obtain ⟨hp, hdir⟩ := wayForEdges_fields settings (parsedWay settings children)
    simp only [hign, if_true] at hdir
    simp [edgeRecord, hdir]

/-- C8 at scenario S2 with `ignoreOneway` set: the way with `oneway=-1` over 10, 20, 30 is
written over 10, 20, 30 with flag 1, and mapped to the dense ids 0, 1, 2. -/
theorem C8_ignoreOneway_witness :
    (parsedWay scenarioIgnoreOneway
        [.nd 10, .nd 20, .nd 30, .tag "highway" "residential", .tag "oneway" "-1"]).direction
        = .Opposite
      ∧ (∃ r : EdgeRecord,
          (readXMLWayElement scenarioIgnoreOneway ImporterState.initial
            [.nd 10, .nd 20, .nd 30, .tag "highway" "residential", .tag "oneway" "-1"]).edgesData
            = ImporterState.initial.edgesData ++ [r]
          ∧ r.nodeIds = [10, 20, 30] ∧ r.bidirectional = 1)
      ∧ (mappedEdges scenarioIgnoreOneway scenarioDistance (noPlaces 3) scenarioS2).map
          (fun ms => ms.map (fun m => (m.bidirectional, m.nodeIds))) = some [(1, [0, 1, 2])] := by
  refine ⟨by decide, ?_, by decide⟩
  obtain ⟨r, h1, h2, h3⟩ := C8_ignoreOneway_never_reverses scenarioIgnoreOneway rfl
    ImporterState.initial
    [.nd 10, .nd 20, .nd 30, .tag "highway" "residential", .tag "oneway" "-1"] (by decide)
  exact ⟨r, h1, h2, h3⟩

/-! ## Binary64 rounding of small integers -/

theorem bitLengthAux_bounds :
    ∀ (fuel n : Nat), n ≤ fuel → 0 < n →
      2 ^ (bitLengthAux fuel n - 1) ≤ n ∧ n < 2 ^ bitLengthAux fuel n
        ∧ 0 < bitLengthAux fuel n := by
  intro fuel
  induction fuel with
  | zero => intro n h1 h2; omega
  | succ fuel ih =>
    intro n hle hpos
    have hne : n ≠ 0 := by omega
    simp only [bitLengthAux, if_neg hne]
    by_cases hhalf : n / 2 = 0
    · have hn1 : n = 1 := by omega
      subst hn1
      have hz : bitLengthAux fuel (1 / 2) = 0 := by
        cases fuel with
        | zero => rfl
        | succ f => simp [bitLengthAux]
      rw [hz]
      decide
    · have hpos2 : 0 < n / 2 := Nat.pos_of_ne_zero hhalf
      obtain ⟨h1, h2, h3⟩ := ih (n / 2) (by omega) hpos2
      refine ⟨?_, ?_, by omega⟩
      · have e : bitLengthAux fuel (n / 2) + 1 - 1 = (bitLengthAux fuel (n / 2) - 1) + 1 := by
          omega
        rw [e, pow_succ]
        omega
      · rw [pow_succ]
        omega

theorem bitLength_bounds (n : Nat) (hpos : 0 < n) :
    2 ^ (bitLength n - 1) ≤ n ∧ n < 2 ^ bitLength n ∧ 0 < bitLength n :=
  bitLengthAux_bounds n n (le_refl n) hpos

theorem bitLength_le (n k : Nat) (hpos : 0 < n) (h : n < 2 ^ k) : bitLength n ≤ k := by
  obtain ⟨h1, -, h3⟩ := bitLength_bounds n hpos
  by_contra hcon
  have hk : k ≤ bitLength n - 1 := by omega
  have := Nat.pow_le_pow_right (show 0 < 2 by decide) hk
  omega

theorem divRoundEven_one (n : Nat) : divRoundEven n 1 = n := by
  simp [divRoundEven, Nat.mod_one]

theorem divRoundEven_mul (n d : Nat) (hd : 0 < d) : divRoundEven (n * d) d = n := by
  simp [divRoundEven, Nat.mul_mod_left, Nat.mul_div_cancel _ hd, hd]

/-- A positive integer below `2^53` is a binary64 number: rounding does not change it. -/
theorem round_small_nat (n : Nat) (hpos : 0 < n) (hn : n < 2 ^ 53) :
    Double.round false n 1
      = .fin false (n * 2 ^ (53 - bitLength n)) (-((53 - bitLength n : Nat) : Int)) := by
  obtain ⟨h1, h2, h3⟩ := bitLength_bounds n hpos
  have hb : bitLength n ≤ 53 := bitLength_le n 53 hpos hn
  have hb1 : bitLength 1 = 1 := by decide
  have hne : n ≠ 0 := by omega
  have hl0 : ((bitLength n : Int) - (bitLength 1 : Int)).toNat = bitLength n - 1 := by
    rw [hb1]; omega
  have hl0n : (-((bitLength n : Int) - (bitLength 1 : Int))).toNat = 0 := by
    rw [hb1]; omega
  have hcond : 1 * 2 ^ ((bitLength n : Int) - (bitLength 1 : Int)).toNat
      ≤ n * 2 ^ (-((bitLength n : Int) - (bitLength 1 : Int))).toNat := by
    rw [hl0, hl0n]; simpa using h1
  have he : max ((bitLength n : Int) - (bitLength 1 : Int) - 52) (-1074)
      = -((53 - bitLength n : Nat) : Int) := by
    rw [hb1]; omega
  have hk1 : (- -((53 - bitLength n : Nat) : Int)).toNat = 53 - bitLength n := by omega
  have hk2 : (-((53 - bitLength n : Nat) : Int)).toNat = 0 := by omega
  have hm : n * 2 ^ (53 - bitLength n) < 2 ^ 53 := by
    calc n * 2 ^ (53 - bitLength n) < 2 ^ bitLength n * 2 ^ (53 - bitLength n) :=
          Nat.mul_lt_mul_of_pos_right h2 (Nat.pow_pos (by decide))
      _ = 2 ^ 53 := by rw [← pow_add]; congr 1; omega
  have hm0 : n * 2 ^ (53 - bitLength n) ≠ 0 :=
    Nat.mul_ne_zero hne (Nat.pos_iff_ne_zero.mp (Nat.pow_pos (by decide)))
  simp only [Double.round, if_neg hne, if_pos hcond, he, hk1, hk2, pow_zero, mul_one,
    divRoundEven_one, if_neg (Nat.ne_of_lt hm), if_neg hm0]
  rw [if_neg (by omega)]

/-! ## Decimal digits -/

theorem digitChar_small : ∀ m : Nat, m < 10 →
    (Nat.digitChar m).isDigit = true ∧ digitVal (Nat.digitChar m) = m := by
  decide

theorem parseDigits_append_singleton (base : Nat) (val : Char → Nat) (l : List Char) (c : Char) :
    parseDigits base val (l ++ [c]) = base * parseDigits base val l + val c := by
  simp [parseDigits, List.foldl_append]

theorem decimalAux_spec :
    ∀ (fuel n : Nat), n < fuel →
      parseDigits 10 digitVal (decimalAux fuel n) = n
        ∧ (∀ c ∈ decimalAux fuel n, c.isDigit = true)
        ∧ decimalAux fuel n ≠ [] := by
  intro fuel
  induction fuel with
  | zero => intro n h; omega
  | succ fuel ih =>
    intro n hn
    by_cases h10 : n < 10
    · simp only [decimalAux, if_pos h10]
      obtain ⟨h1, h2⟩ := digitChar_small n h10
      refine ⟨?_, ?_, by simp⟩
      · simp [parseDigits, h2]
      · intro c hc
        rw [List.mem_singleton.mp hc]
        exact h1
    · simp only [decimalAux, if_neg h10]
      obtain ⟨i1, i2, -⟩ := ih (n / 10) (by omega)
      obtain ⟨h1, h2⟩ := digitChar_small (n % 10) (Nat.mod_lt _ (by decide))
      refine ⟨?_, ?_, by simp⟩
      · rw [parseDigits_append_singleton, i1, h2]
        omega
      · intro c hc
        rcases List.mem_append.mp hc with hc1 | hc2
        · exact i2 c hc1
        · rw [List.mem_singleton.mp hc2]
          exact h1

theorem decimalAux_length :
    ∀ (fuel n k : Nat), n < 10 ^ k → 0 < k → (decimalAux fuel n).length ≤ k := by
  intro fuel
  induction fuel with
  | zero => intro n k _ _; simp [decimalAux]
  | succ fuel ih =>
    intro n k hn hk
    by_cases h10 : n < 10
    · simp only [decimalAux, if_pos h10, List.length_singleton]
      omega
    · simp only [decimalAux, if_neg h10, List.length_append, List.length_singleton]
      have hk2 : 2 ≤ k := by
        by_contra hcon
        have hk1 : k = 1 := by omega
        subst hk1
        omega
      have hdiv : n / 10 < 10 ^ (k - 1) := by
        apply Nat.div_lt_of_lt_mul
        have e : 10 * 10 ^ (k - 1) = 10 ^ k := by
          rw [← pow_succ']
          congr 1
          omega
        omega
      have := ih (n / 10) (k - 1) hdiv (by omega)
      omega

theorem decimal_spec (n : Nat) :
    parseDigits 10 digitVal (decimal n) = n ∧ (∀ c ∈ decimal n, c.isDigit = true)
      ∧ decimal n ≠ [] :=
  decimalAux_spec (n + 1) n (Nat.lt_succ_self n)

theorem decimal_length_le (n : Nat) (hn : n < 2 ^ 53) : (decimal n).length ≤ 16 :=
  decimalAux_length (n + 1) n 16 (lt_trans hn (by decide)) (by decide)

/-! ## `printf` of an integer below `2^53` -/

theorem round_zero : Double.round false 0 1 = .fin false 0 0 := by decide

theorem formatFixed_small_nat (prec n : Nat) (hn : n < 2 ^ 53) :
    formatFixed prec (Double.round false n 1)
      = decimal n ++ (if prec = 0 then []
          else '.' :: (List.replicate (prec - 1) '0' ++ ['0'])) := by
  have hscaled : ∀ k : Nat, divRoundEven (n * 2 ^ k * 10 ^ prec * 2 ^ (0 : Nat)) (2 ^ k)
      = n * 10 ^ prec := by
    intro k
    have e : n * 2 ^ k * 10 ^ prec * 2 ^ (0 : Nat) = (n * 10 ^ prec) * 2 ^ k := by ring
    rw [e]
    exact divRoundEven_mul _ _ (Nat.pow_pos (by decide))
  have hp : 0 < 10 ^ prec := Nat.pow_pos (by decide)
  have hdec0 : decimal 0 = ['0'] := by decide
  rcases Nat.eq_zero_or_pos n with h0 | hpos
  · subst h0
    rw [round_zero]
    simp [formatFixed, divRoundEven, hdec0]
  · rw [round_small_nat n hpos hn]
    have hk1 : (-((53 - bitLength n : Nat) : Int)).toNat = 0 := by omega
    have hk2 : (- -((53 - bitLength n : Nat) : Int)).toNat = 53 - bitLength n := by omega
    simp only [formatFixed, hk1, hk2, hscaled, Nat.mul_div_cancel _ hp, Nat.mul_mod_left, hdec0,
      Bool.false_eq_true, if_false, List.nil_append, List.length_singleton]

/-! ## `atof` of a decimal integer followed by a unit -/

theorem isDigit_cases (c : Char) (h : c.isDigit = true) :
    c ∈ ['0', '1', '2', '3', '4', '5', '6', '7', '8', '9'] := by
  simp only [Char.isDigit, Bool.and_eq_true, decide_eq_true_eq] at h
  obtain ⟨h1, h2⟩ := h
  have h1n : 48 ≤ c.toNat := h1
  have h2n : c.toNat ≤ 57 := h2
  have hc : Char.ofNat c.toNat = c := Char.ofNat_toNat c
  rw [← hc]
  generalize c.toNat = m at h1n h2n
  interval_cases m <;> decide

theorem digit_facts (c : Char) (h : c.isDigit = true) :
    isSpace c = false ∧ c ≠ '-' ∧ c ≠ '+' ∧ c.toLower ≠ 'i' ∧ c.toLower ≠ 'n'
      ∧ c.toLower ≠ 'x' := by
  have hc := isDigit_cases c h
  simp only [List.mem_cons, List.mem_singleton, List.not_mem_nil, or_false] at hc
  rcases hc with rfl | rfl | rfl | rfl | rfl | rfl | rfl | rfl | rfl | rfl <;> decide

theorem takeWhile_dropWhile_append (p : Char → Bool) (c : Char) (r : List Char) (hc : p c = false) :
    ∀ l : List Char, (∀ x ∈ l, p x = true) →
      (l ++ c :: r).takeWhile p = l ∧ (l ++ c :: r).dropWhile p = c :: r := by
  intro l
  induction l with
  | nil => intro _; simp [List.takeWhile, List.dropWhile, hc]
  | cons a l ih =>
    intro h
    have ha : p a = true := h a (List.mem_cons_self _ _)
    obtain ⟨i1, i2⟩ := ih (fun x hx => h x (List.mem_cons_of_mem _ hx))
    simp [List.takeWhile, List.dropWhile, ha, i1, i2]

/-- In front of a character that is no digit, point, exponent marker or hexadecimal marker,
`atof` reads the decimal digits of `n` as the binary64 number nearest to `n`. -/
theorem atof_decimal (n : Nat) (c : Char) (rest : List Char)
    (hc : c.isDigit = false ∧ c ≠ '.' ∧ c ≠ 'e' ∧ c ≠ 'E' ∧ c.toLower ≠ 'x') :
    atof (String.mk (decimal n ++ c :: rest)) = Double.round false n 1 := by
  obtain ⟨hparse, hdig, hne⟩ := decimal_spec n
  obtain ⟨hc1, hc2, hc3, hc4, hc5⟩ := hc
  obtain ⟨htake, hdrop⟩ := takeWhile_dropWhile_append Char.isDigit c rest hc1 (decimal n) hdig
  cases hdn : decimal n with
  | nil => exact absurd hdn hne
  | cons d ds =>
    have hd : d.isDigit = true := hdig d (by rw [hdn]; exact List.mem_cons_self _ _)
    obtain ⟨f1, f2, f3, f4, f5, f6⟩ := digit_facts d hd
    rw [hdn] at htake hdrop hparse
    have hsecond : ∃ t tl, ds ++ c :: rest = t :: tl ∧ t.toLower ≠ 'x' := by
      cases ds with
      | nil => exact ⟨c, rest, rfl, hc5⟩
      | cons t tl =>
        refine ⟨t, tl ++ c :: rest, rfl, ?_⟩
        have ht : t.isDigit = true := hdig t (by rw [hdn]; simp)
        exact (digit_facts t ht).2.2.2.2.2
    obtain ⟨t, tl, htl, htx⟩ := hsecond
    have hfrac : fractionDigits Char.isDigit (c :: rest) = [] := by
      unfold fractionDigits
      split
      · rename_i r heq
        simp only [List.cons.injEq] at heq
        exact absurd heq.1 hc2
      · rfl
    have hafter : afterFraction Char.isDigit (c :: rest) = c :: rest := by
      unfold afterFraction
      split
      · rename_i r heq
        simp only [List.cons.injEq] at heq
        exact absurd heq.1 hc2
      · rfl
    have hexp : parseExponent 'e' 'E' (c :: rest) = 0 := by
      simp [parseExponent, hc3, hc4]
    have hmag : parseMagnitude false (d :: ds ++ c :: rest) = Double.round false n 1 := by
      have hhex : ¬ (((d :: ds ++ c :: rest).take 2).map Char.toLower = ['0', 'x']) := by
        rw [List.cons_append, htl]
        simp [htx]
      simp only [parseMagnitude, hhex, false_and, if_false, htake, hdrop, hfrac, hafter, hexp,
        List.append_nil, hparse, List.length_nil]
      simp
    simp only [atof, List.cons_append, List.dropWhile_cons_of_neg (by simpa using f1),
      List.head?_cons, Option.some.injEq, f2, f3, or_self, if_false, List.take_succ_cons,
      List.map_cons]
    have hinf : ¬ (d.toLower :: List.map Char.toLower (List.take 2 (ds ++ c :: rest))
        = ['i', 'n', 'f']) := by
      intro h; exact f4 (List.cons.inj h).1
    have hnan : ¬ (d.toLower :: List.map Char.toLower (List.take 2 (ds ++ c :: rest))
        = ['n', 'a', 'n']) := by
      intro h; exact f5 (List.cons.inj h).1
    simp only [hinf, hnan, if_false, decide_False]
    exact hmag

/-! ## C5 and C6: maxspeed templates -/

theorem xmlStrPrintf_plain (n : Nat) (hn : n < 2 ^ 53) (msg : String) (rest : List Char)
    (hmsg : msg.data = '%' :: '.' :: 'l' :: 'f' :: rest) (hrest : rest.length ≤ 20) :
    xmlStrPrintf 100 msg (Double.round false n 1) = String.mk (decimal n ++ rest) := by
  have hlen := decimal_length_le n hn
  simp only [xmlStrPrintf, hmsg, formatFixed_small_nat 0 n hn, if_true, List.append_nil]
  rw [List.take_of_length_le (by simp only [List.length_append]; omega)]

theorem xmlStrPrintf_six (n : Nat) (hn : n < 2 ^ 53) (msg : String) (rest : List Char)
    (hmsg : msg.data = '%' :: 'l' :: 'f' :: rest) (hrest : rest.length ≤ 20) :
    xmlStrPrintf 100 msg (Double.round false n 1)
      = String.mk (decimal n ++ ('.' :: '0' :: '0' :: '0' :: '0' :: '0' :: '0' :: rest)) := by
  have hlen := decimal_length_le n hn
  have hf := formatFixed_small_nat 6 n hn
  simp only [show (6 : Nat) ≠ 0 by decide, if_false] at hf
  simp only [xmlStrPrintf, hmsg, hf]
  rw [List.take_of_length_le (by
    simp only [List.length_append, List.length_cons, List.length_replicate, List.length_nil]
    omega)]
  simp [List.replicate]

theorem mk_append_eq_iff (l a b : List Char) :
    (String.mk (l ++ a) = String.mk (l ++ b)) ↔ a = b := by
  constructor
  · intro h
    exact (List.append_right_inj l).mp (congrArg String.data h)
  · intro h
    rw [h]

/-- The km/h templates do not match a decimal integer followed by a unit of miles per hour. -/
theorem kmh_no_match (n : Nat) (hn : n < 2 ^ 53) (sfx : List Char)
    (hs : sfx = [' ', 'm', 'p', 'h'] ∨ sfx = ['m', 'p', 'h']) :
    matchesTemplate kmhStrings (String.mk (decimal n ++ sfx)) (Double.round false n 1)
      = false := by
  simp only [matchesTemplate, kmhStrings, List.any_cons, List.any_nil, Bool.or_false,
    xmlStrPrintf_plain n hn "%.lf" [] rfl (by decide),
    xmlStrPrintf_plain n hn "%.lf kmh" [' ', 'k', 'm', 'h'] rfl (by decide),
    xmlStrPrintf_plain n hn "%.lf km/h" [' ', 'k', 'm', '/', 'h'] rfl (by decide),
    xmlStrPrintf_plain n hn "%.lfkmh" ['k', 'm', 'h'] rfl (by decide),
    xmlStrPrintf_plain n hn "%.lfkm/h" ['k', 'm', '/', 'h'] rfl (by decide),
    xmlStrPrintf_six n hn "%lf" [] rfl (by decide),
    xmlStrPrintf_six n hn "%lf kmh" [' ', 'k', 'm', 'h'] rfl (by decide),
    xmlStrPrintf_six n hn "%lf km/h" [' ', 'k', 'm', '/', 'h'] rfl (by decide),
    xmlStrPrintf_six n hn "%lfkmh" ['k', 'm', 'h'] rfl (by decide),
    xmlStrPrintf_six n hn "%lfkm/h" ['k', 'm', '/', 'h'] rfl (by decide),
    mk_append_eq_iff]
  rcases hs with rfl | rfl <;> decide

/-- The mph templates match a decimal integer followed by ` mph` or `mph`. -/
theorem mph_match (n : Nat) (hn : n < 2 ^ 53) (sfx : List Char)
    (hs : sfx = [' ', 'm', 'p', 'h'] ∨ sfx = ['m', 'p', 'h']) :
    matchesTemplate mphStrings (String.mk (decimal n ++ sfx)) (Double.round false n 1)
      = true := by
  simp only [matchesTemplate, mphStrings, List.any_cons, List.any_nil, Bool.or_false,
    xmlStrPrintf_plain n hn "%.lf mph" [' ', 'm', 'p', 'h'] rfl (by decide),
    xmlStrPrintf_plain n hn "%.lfmph" ['m', 'p', 'h'] rfl (by decide),
    xmlStrPrintf_six n hn "%lf mph" [' ', 'm', 'p', 'h'] rfl (by decide),
    xmlStrPrintf_six n hn "%lfmph" ['m', 'p', 'h'] rfl (by decide),
    mk_append_eq_iff]
  rcases hs with rfl | rfl <;> decide

/-- The maximum speed that `readXMLWay` returns for a way whose only child is a `maxspeed`
tag. -/
theorem readXMLWay_maxspeed (settings : Settings) (stats : Statistics) (value : String) :
    (readXMLWay settings stats [.tag "maxspeed" value]).1.maximumSpeed
      = if matchesTemplate mphStrings value (atof value) = true then
          Double.mul (atof value) kmPerMile
        else if matchesTemplate kmhStrings value (atof value) = true then atof value
        else Double.ofInt (-1) := by
  have hk : readXMLWay settings stats [.tag "maxspeed" value]
      = maxspeedTag (Way.initial settings, stats) value := by
    simp [readXMLWay, readXMLWayChild, readXMLWayTag]
  rw [hk]
  simp only [maxspeedTag]
  split_ifs <;> rfl

theorem ofInt_natCast (n : Nat) : Double.ofInt (n : Int) = Double.round false n 1 := by
  have h : ¬ ((n : Int) < 0) := by omega
  simp [Double.ofInt, h]

/-- A child other than a `maxspeed` tag leaves the maximum speed of the way as it is. -/
theorem readXMLWayChild_maximumSpeed (settings : Settings) (acc : Way × Statistics)
    (c : WayChild) (hc : ∀ v : String, c ≠ WayChild.tag "maxspeed" v) :
    (readXMLWayChild settings acc c).1.maximumSpeed = acc.1.maximumSpeed := by
  cases c with
  | nd ref => rfl
  | other => rfl
  | tag k v =>
    have hk : k ≠ "maxspeed" := by
      intro h
      exact hc v (by rw [h])
    simp only [readXMLWayChild, readXMLWayTag]
    split_ifs
    · simp only [onewayTag]; split_ifs <;> rfl
    · simp only [junctionTag]; split_ifs <;> rfl
    · simp only [highwayTag]; split_ifs <;> rfl
    · rfl
    · rfl
    · simp only [placeTag]; cases placeOfValue v <;> rfl
    · simp only [accessTag]; split_ifs <;> rfl

/-- Children without a `maxspeed` tag leave the maximum speed of the way as it is. -/
theorem foldl_maximumSpeed (settings : Settings) :
    ∀ (cs : List WayChild) (acc : Way × Statistics),
      (∀ v : String, WayChild.tag "maxspeed" v ∉ cs) →
      (cs.foldl (readXMLWayChild settings) acc).1.maximumSpeed = acc.1.maximumSpeed
  | [], _, _ => rfl
  | c :: cs, acc, h => by
    have hc : ∀ v : String, c ≠ WayChild.tag "maxspeed" v := by
      intro v hv
      exact h v (by rw [hv]; exact List.mem_cons_self _ _)
    rw [List.foldl_cons, foldl_maximumSpeed settings cs _
      (fun v hv => h v (List.mem_cons_of_mem _ hv)),
      readXMLWayChild_maximumSpeed settings acc c hc]

/-- The maximum speed that `readXMLWay` returns is the one that the branch of the last
`maxspeed` tag among the children leaves. -/
theorem readXMLWay_last_maxspeed (settings : Settings) (stats : Statistics)
    (before after : List WayChild) (value : String)
    (hafter : ∀ v : String, WayChild.tag "maxspeed" v ∉ after) :
    (readXMLWay settings stats (before ++ WayChild.tag "maxspeed" value :: after)).1.maximumSpeed
      = (maxspeedTag (readXMLWay settings stats before) value).1.maximumSpeed := by
  unfold readXMLWay
  rw [List.foldl_append, List.foldl_cons, foldl_maximumSpeed settings after _ hafter]
  simp [readXMLWayChild, readXMLWayTag]

/-- A way without a `maxspeed` tag keeps the maximum speed -1. -/
theorem readXMLWay_no_maxspeed (settings : Settings) (stats : Statistics)
    (children : List WayChild) (h : ∀ v : String, WayChild.tag "maxspeed" v ∉ children) :
    (readXMLWay settings stats children).1.maximumSpeed = Double.ofInt (-1) := by
  unfold readXMLWay
  rw [foldl_maximumSpeed settings children _ h]
  rfl

/-- A value that a template of miles per hour reproduces sets the maximum speed to the product
with 1.609344, whatever the way held before. -/
theorem maxspeedTag_mph (acc : Way × Statistics) (value : String)
    (h : matchesTemplate mphStrings value (atof value) = true) :
    (maxspeedTag acc value).1.maximumSpeed = Double.mul (atof value) kmPerMile := by
  simp only [maxspeedTag, h, if_true]

/-- A value that no template reproduces changes nothing. -/
theorem maxspeedTag_ignored (acc : Way × Statistics) (value : String)
    (h1 : matchesTemplate kmhStrings value (atof value) = false)
    (h2 : matchesTemplate mphStrings value (atof value) = false) :
    maxspeedTag acc value = acc := by
  simp only [maxspeedTag, h1, h2, Bool.false_eq_true, if_false]

/-- C5 (amended): for every way, whatever its other children, whose last `maxspeed` tag has as
value an `n` below `2^53` written in decimal without sign and leading zeros and followed by
` mph` or `mph`, `readXMLWay` stores as maximum speed the double product of `n` and
`1.609344`. When the value of the last `maxspeed` tag is `030 mph` or `9007199254740993 mph`,
which no template reproduces, the maximum speed is the one that the children before the tag
leave, and -1 when no `maxspeed` tag is among them. -/
theorem C5_mph_times_factor (settings : Settings) (stats : Statistics) (n : Nat)
    (hn : n < 2 ^ 53) (sfx : List Char)
    (hs : sfx = [' ', 'm', 'p', 'h'] ∨ sfx = ['m', 'p', 'h'])
    (before after : List WayChild)
    (hafter : ∀ v : String, WayChild.tag "maxspeed" v ∉ after) :
    (readXMLWay settings stats
        (before ++ WayChild.tag "maxspeed" (String.mk (decimal n ++ sfx)) :: after)).1.maximumSpeed
        = Double.mul (Double.ofInt (n : Int)) kmPerMile
      ∧ ∀ value : String, value = "030 mph" ∨ value = "9007199254740993 mph" →
          (readXMLWay settings stats
              (before ++ WayChild.tag "maxspeed" value :: after)).1.maximumSpeed
            = (readXMLWay settings stats before).1.maximumSpeed
          ∧ ((∀ v : String, WayChild.tag "maxspeed" v ∉ before) →
            (readXMLWay settings stats
                (before ++ WayChild.tag "maxspeed" value :: after)).1.maximumSpeed
              = Double.ofInt (-1)) := by
  have hatof : atof (String.mk (decimal n ++ sfx)) = Double.round false n 1 := by
    rcases hs with rfl | rfl
    · exact atof_decimal n ' ' ['m', 'p', 'h'] (by decide)
    · exact atof_decimal n 'm' ['p', 'h'] (by decide)
  constructor
  · rw [readXMLWay_last_maxspeed settings stats before after _ hafter,
      maxspeedTag_mph _ _ (by rw [hatof]; exact mph_match n hn sfx hs), hatof, ofInt_natCast]
  · intro value hv
    have hkeep : (readXMLWay settings stats
          (before ++ WayChild.tag "maxspeed" value :: after)).1.maximumSpeed
        = (readXMLWay settings stats before).1.maximumSpeed := by
      rw [readXMLWay_last_maxspeed settings stats before after _ hafter]
      rcases hv with rfl | rfl
      · rw [maxspeedTag_ignored _ _ (by decide) (by decide)]
      · rw [maxspeedTag_ignored _ _ (by decide) (by decide)]
    refine ⟨hkeep, fun hbefore => ?_⟩
    rw [hkeep, readXMLWay_no_maxspeed settings stats before hbefore]

/-- C5 at a residential way over two nodes with the tag `maxspeed=30 mph` before its name: the
stored maximum speed is the double `48.28032`. -/
theorem C5_mph_witness :
    (30 : Nat) < 2 ^ 53
      ∧ (∀ v : String, WayChild.tag "maxspeed" v
          ∉ [WayChild.tag "name" "Mill Lane", WayChild.nd 2])
      ∧ (readXMLWay scenarioSettings Statistics.zero
          [.nd 1, .tag "highway" "residential", .tag "maxspeed" "30 mph",
            .tag "name" "Mill Lane", .nd 2]).1.maximumSpeed = atof "48.28032"
      ∧ (readXMLWay scenarioSettings Statistics.zero
          [.nd 1, .tag "highway" "residential", .tag "maxspeed" "030 mph",
            .tag "name" "Mill Lane", .nd 2]).1.maximumSpeed = Double.ofInt (-1) :=
  have hafter : ∀ v : String, WayChild.tag "maxspeed" v
      ∉ [WayChild.tag "name" "Mill Lane", WayChild.nd 2] := by
    intro v hv
    simp at hv
  have h := C5_mph_times_factor scenarioSettings Statistics.zero 30 (by decide)
    [' ', 'm', 'p', 'h'] (Or.inl rfl) [.nd 1, .tag "highway" "residential"]
    [.tag "name" "Mill Lane", .nd 2] hafter
  ⟨by decide, hafter, h.1.trans (by decide),
    (h.2 "030 mph" (Or.inl rfl)).2 (by intro v hv; simp at hv)⟩

/-- C5 as stated fails: the values `9007199254740993 mph` (an integer that is no binary64
number) and `030 mph` (a leading zero) are a decimal integer followed by ` mph`, but no
template reproduces them and the maximum speed stays `-1`. -/
theorem C5_counterexample :
    (readXMLWay scenarioSettings Statistics.zero
        [.tag "maxspeed" "9007199254740993 mph"]).1.maximumSpeed = Double.ofInt (-1)
      ∧ Double.ofInt (-1) ≠ Double.mul (Double.ofInt 9007199254740993) kmPerMile
      ∧ (readXMLWay scenarioSettings Statistics.zero
        [.tag "maxspeed" "030 mph"]).1.maximumSpeed = Double.ofInt (-1)
      ∧ Double.ofInt (-1) ≠ Double.mul (Double.ofInt 30) kmPerMile := by
  decide

/-- C6 (amended): the values `50` and `50 km/h` are recognized and set the maximum speed to 50;
the value `50.5 mph` is reproduced by no template (`%.lf` prints `50`, `%lf` prints
`50.500000`) and leaves the maximum speed at `-1`; the value `50.500000 mph` is recognized and
sets the double product of `50.5` and `1.609344`. -/
theorem C6_template_matching (settings : Settings) (stats : Statistics) :
    (readXMLWay settings stats [.tag "maxspeed" "50"]).1.maximumSpeed = Double.ofInt 50
      ∧ (readXMLWay settings stats [.tag "maxspeed" "50 km/h"]).1.maximumSpeed = Double.ofInt 50
      ∧ (readXMLWay settings stats [.tag "maxspeed" "50.5 mph"]).1.maximumSpeed
        = Double.ofInt (-1)
      ∧ (readXMLWay settings stats [.tag "maxspeed" "50.500000 mph"]).1.maximumSpeed
        = Double.mul (atof "50.5") kmPerMile := by
  have a1 : matchesTemplate mphStrings "50" (atof "50") = false := by decide
  have a2 : matchesTemplate kmhStrings "50" (atof "50") = true := by decide
  have b1 : matchesTemplate mphStrings "50 km/h" (atof "50 km/h") = false := by decide
  have b2 : matchesTemplate kmhStrings "50 km/h" (atof "50 km/h") = true := by decide
  have c1 : matchesTemplate mphStrings "50.5 mph" (atof "50.5 mph") = false := by decide
  have c2 : matchesTemplate kmhStrings "50.5 mph" (atof "50.5 mph") = false := by decide
  have d1 : matchesTemplate mphStrings "50.500000 mph" (atof "50.500000 mph") = true := by
    decide
  refine ⟨?_, ?_, ?_, ?_⟩
  · rw [readXMLWay_maxspeed, a1, a2]; decide
  · rw [readXMLWay_maxspeed, b1, b2]; decide
  · rw [readXMLWay_maxspeed, c1, c2]; decide
  · rw [readXMLWay_maxspeed, d1]; decide

/-- C6 as stated fails: for the value `50.5 mph` the maximum speed stays `-1`, which is not
the product of `50.5` and `1.609344`. -/
theorem C6_counterexample :
    (readXMLWay scenarioSettings Statistics.zero
        [.tag "maxspeed" "50.5 mph"]).1.maximumSpeed = Double.ofInt (-1)
      ∧ Double.ofInt (-1) ≠ Double.mul (atof "50.5") kmPerMile
      ∧ xmlStrPrintf 100 "%.lf mph" (atof "50.5 mph") = "50 mph"
      ∧ xmlStrPrintf 100 "%lf mph" (atof "50.5 mph") = "50.500000 mph" := by
  decide

/-! ## C9 and C10: the seconds of a segment -/

/-- The seconds value of a segment between the dense ids `a` and `b`: the distance of the two
coordinates times 36, divided by the speed of the segment, plus the penalties of the ids that
`std::lower_bound` finds in `m_signalNodes`. -/
theorem segmentSeconds_eq (ctx : EdgeContext) (stats stats1 : Statistics) (speed t : Double)
    (type : Int) (a b : NodeID) (ca cb : GPSCoordinate)
    (ha : ctx.nodeCoordinates[a]? = some ca) (hb : ctx.nodeCoordinates[b]? = some cb)
    (hs : segmentSpeed ctx stats speed type a b = some (t, stats1)) :
    segmentSeconds ctx stats speed type a b
      = some (addSignalPenalty ctx
          (Double.div (Double.mul (ctx.Distance ca cb) (Double.ofInt 36)) t) a b, stats1) := by
  simp only [segmentSeconds, ha, hb, hs]

/-- C10 fails on the code: in scenario S3 (node 2 with `highway=traffic_signals`, penalty 6)
`m_signalNodes` holds the raw id 2, but the penalty lines look up the dense ids 0 and 1 of the
segment, so for every distance function and every value `x` computed from it no penalty is
added; with the stand-in distance the record written is that of scenario S1, with the seconds
133.58399999999997 and not 3 more. -/
theorem C10_signal_penalty_not_added (Distance : GPSCoordinate → GPSCoordinate → Double)
    (nodeLocation : List NodeLocation) (x : Double) :
    readXML scenarioS3Settings ImporterState.initial scenarioS3 = some scenarioS3State
      ∧ (sortMembers scenarioS3State).usedNodes = [1, 2]
      ∧ (sortMembers scenarioS3State).signalNodes = [2]
      ∧ addSignalPenalty (edgeContext scenarioS3Settings scenarioS3State nodeLocation Distance)
          x 0 1 = x
      ∧ mappedEdges scenarioS3Settings scenarioDistance (noPlaces 2) scenarioS3
        = mappedEdges scenarioSettings scenarioDistance (noPlaces 2) scenarioS1
      ∧ mappedEdges scenarioS3Settings scenarioDistance (noPlaces 2) scenarioS3
        = some [⟨"", 1, [0, 1], [atof "133.58399999999997"]⟩]
      ∧ Double.add (atof "133.58399999999997") (Double.ofInt 3)
        ≠ atof "133.58399999999997" := by
  have h0 : isSignal (sortMembers scenarioS3State).signalNodes 0 = false := by decide
  have h1 : isSignal (sortMembers scenarioS3State).signalNodes 1 = false := by decide
  refine ⟨by decide, by decide, by decide, ?_, by decide, by decide, by decide⟩
  simp only [addSignalPenalty, edgeContext, h0, h1, Bool.false_eq_true, if_false]

/-- C9 fails on the code: with a traffic signal on node 1 and a way over the untagged nodes 5
and 7 (penalty 6), the dense id 1 of node 7 is found among the raw ids of `m_signalNodes`, so
for every distance function and every value `x` computed from it half the penalty is added to
the seconds of the segment; with the stand-in distance of 111.32 the value written is
111.32 * 36 / 30 plus 3. -/
theorem C9_penalty_on_plain_segment (Distance : GPSCoordinate → GPSCoordinate → Double)
    (nodeLocation : List NodeLocation) (x : Double) :
    readXML scenarioS3Settings ImporterState.initial scenarioSignalOffWay
        = some scenarioSignalOffWayState
      ∧ (sortMembers scenarioSignalOffWayState).usedNodes = [5, 7]
      ∧ (sortMembers scenarioSignalOffWayState).signalNodes = [1]
      ∧ addSignalPenalty
          (edgeContext scenarioS3Settings scenarioSignalOffWayState nodeLocation Distance) x 0 1
        = Double.add x (Double.div (Double.ofInt 6) (Double.ofInt 2))
      ∧ mappedEdges scenarioS3Settings scenarioDistance (noPlaces 2) scenarioSignalOffWay
        = some [⟨"", 1, [0, 1],
            [Double.add
              (Double.div (Double.mul (atof "111.32") (Double.ofInt 36)) (Double.ofInt 30))
              (Double.ofInt 3)]⟩]
      ∧ Double.div (Double.mul (atof "111.32") (Double.ofInt 36)) (Double.ofInt 30)
        = atof "133.58399999999997" := by
  have h0 : isSignal (sortMembers scenarioSignalOffWayState).signalNodes 0 = false := by decide
  have h1 : isSignal (sortMembers scenarioSignalOffWayState).signalNodes 1 = true := by decide
  refine ⟨by decide, by decide, by decide, ?_, by decide, by decide⟩
  simp only [addSignalPenalty, edgeContext, h0, h1, Bool.false_eq_true, if_false, if_true]
  rfl

/-! ## C11: the speed of a segment -/

/-- C11, amended: for a segment between the dense ids `a` and `b` of a way whose type `t` is
inside the speed profile, the seconds value is computed with the speed
`base * (averagePercentage[t] / 100)`, where `base` is the recorded maxspeed unless that is
`< 0` (so a NaN is used as recorded), otherwise `speedInCity[t]` if `defaultCitySpeed` is set
and one of the two nodes is in a place, otherwise `speed[t]`; `numberOfDefaultCitySpeed` grows
by one exactly when `speedInCity[t]` is used. -/
theorem C11_effective_speed (ctx : EdgeContext) (stats : Statistics) (speed : Double) (t : Nat)
    (a b : NodeID) (ca cb : GPSCoordinate) (la lb : NodeLocation) (v vc : Double) (pct : Int)
    (ht : t < ctx.settings.speedProfile.names.length)
    (hv : ctx.settings.speedProfile.speed[t]? = some v)
    (hvc : ctx.settings.speedProfile.speedInCity[t]? = some vc)
    (hp : ctx.settings.speedProfile.averagePercentage[t]? = some pct)
    (hca : ctx.nodeCoordinates[a]? = some ca) (hcb : ctx.nodeCoordinates[b]? = some cb)
    (hla : ctx.nodeLocation[a]? = some la) (hlb : ctx.nodeLocation[b]? = some lb) :
    ∃ stats1 : Statistics,
      segmentSeconds ctx stats speed (t : Int) a b
        = some (addSignalPenalty ctx
            (Double.div (Double.mul (ctx.Distance ca cb) (Double.ofInt 36))
              (Double.mul
                (if Double.lt speed (Double.ofInt 0) then
                  (if ctx.settings.defaultCitySpeed && (la.isInPlace || lb.isInPlace) then vc
                   else v)
                 else speed)
                (Double.div (Double.ofInt pct) (Double.ofInt 100)))) a b, stats1)
      ∧ stats1.numberOfDefaultCitySpeed
        = stats.numberOfDefaultCitySpeed
          + (if Double.lt speed (Double.ofInt 0) && ctx.settings.defaultCitySpeed
                && (la.isInPlace || lb.isInPlace) then 1 else 0) := by
  have hlt : ((t : Int) < (ctx.settings.speedProfile.names.length : Int)) := by exact_mod_cast ht
  have he : eitherInPlace ctx.nodeLocation a b = some (la.isInPlace || lb.isInPlace) := by
    simp only [eitherInPlace, hla, hlb]
    cases la.isInPlace <;> simp
  simp only [segmentSeconds, hca, hcb, segmentSpeed, segmentBaseSpeed, hlt, if_true, he,
    Int.toNat_ofNat, hv, hvc, hp, Option.map_some']
  cases hs : Double.lt speed (Double.ofInt 0) <;> cases hd : ctx.settings.defaultCitySpeed <;>
    cases hi : (la.isInPlace || lb.isInPlace) <;> simp

/-- C11 at scenario S4 (speed 50, speedInCity 30, percentage 100, way speed -1, both nodes in
a place): the segment is computed with the speed 30 and counted once. -/
theorem C11_effective_speed_witness :
    ∃ stats1 : Statistics,
      segmentSeconds scenarioS4Context Statistics.zero (Double.ofInt (-1)) 0 0 1
        = some (Double.div (Double.mul (atof "111.32") (Double.ofInt 36)) (Double.ofInt 30),
            stats1)
      ∧ stats1.numberOfDefaultCitySpeed = 1 := by
  obtain ⟨stats1, h1, h2⟩ := C11_effective_speed scenarioS4Context Statistics.zero
    (Double.ofInt (-1)) 0 0 1 ⟨atof "0.0", atof "0.0"⟩ ⟨atof "0.0", atof "0.001"⟩
    ⟨true, 0, Double.ofInt 0⟩ ⟨true, 0, Double.ofInt 0⟩ (Double.ofInt 50) (Double.ofInt 30) 100
    (by decide) (by decide) (by decide) (by decide) (by decide) (by decide) (by decide)
    (by decide)
  refine ⟨stats1, h1.trans ?_, h2.trans ?_⟩
  · exact congrArg (fun x => some (x, stats1)) (by decide)
  · decide

/-- C11 as stated fails on the code: a way tagged `maxspeed=nan` records a NaN, which is not
`>= 0`; the specification then takes the base speed from the profile (30 in scenario S4),
but the test `tempSpeed < 0` of the code is false as well, so the NaN is used. -/
theorem C11_counterexample :
    (readXMLWay scenarioS4Settings Statistics.zero
        [.nd 1, .nd 2, .tag "highway" "residential", .tag "maxspeed" "nan"]).1.maximumSpeed
        = Double.nan
      ∧ Double.le (Double.ofInt 0) Double.nan = false
      ∧ (segmentSpeed scenarioS4Context Statistics.zero Double.nan 0 0 1).map Prod.fst
        = some Double.nan
      ∧ Double.mul (Double.ofInt 30) (Double.div (Double.ofInt 100) (Double.ofInt 100))
        ≠ Double.nan := by
  decide


/-! ## Ways that are read and not written -/

/-- Once `valid` is false the loop over the node ids of a way only reads them. -/
theorem mapNodes_of_invalid (ctx : EdgeContext) (way : List NodeID) :
    ∀ ids : List NodeID, mapNodes ctx ids false way = some (false, way)
  | [] => rfl
  | _ :: rest => by
    simp only [mapNodes, Bool.not_false, if_true]
    exact mapNodes_of_invalid ctx way rest

/-! ## C17: the coordinates of the routing nodes -/

/-- A record of `_all_nodes` whose id is not in the sorted vector changes no slot. -/
theorem storeCoordinate_of_not_mem (ids : List NodeID) (coords : List GPSCoordinate)
    (node : NodeID) (gps : GPSCoordinate) (h : node ∉ ids) :
    storeCoordinate ids coords node gps = coords := by
  unfold storeCoordinate
  rw [if_neg]
  rintro ⟨hlt, heq⟩
  rw [List.getD_eq_getElem _ _ hlt] at heq
  exact h (heq ▸ List.getElem_mem hlt)

/-- A record of `_all_nodes` whose id is in the sorted vector is stored in the slot that the
bisection finds. -/
theorem storeCoordinate_of_mem (ids : List NodeID) (hs : ids.Pairwise (· < ·))
    (coords : List GPSCoordinate) (node : NodeID) (gps : GPSCoordinate) (h : node ∈ ids) :
    storeCoordinate ids coords node gps = coords.set (lower_bound ids node) gps := by
  obtain ⟨hlt, hget⟩ := lower_bound_of_mem ids hs node h
  unfold storeCoordinate
  rw [if_pos]
  refine ⟨hlt, ?_⟩
  rw [List.getD_eq_getElem?_getD, hget]
  rfl

/-- The coordinate filter after one more record of `_all_nodes`. -/
theorem filterCoordinates_append (ids : List NodeID) (allNodes : List NodeRecord)
    (x : NodeRecord) :
    filterCoordinates ids (allNodes ++ [x])
      = storeCoordinate ids (filterCoordinates ids allNodes) x.id ⟨x.latitude, x.longitude⟩ := by
  simp only [filterCoordinates, List.foldl_append, List.foldl_cons, List.foldl_nil]

/-- C17: for every vector `l` of routing node ids as pass 1 collects it and every content of
`_all_nodes`, after the first loop of `preprocessData` the slot of a routing node `r` (the
index that the bisection finds in the sorted vector) holds the coordinate of the last record
with the id `r`, or (-1, -1) if there is none; and a record whose id is no routing node changes
no slot. -/
theorem C17_last_write_wins (l : List NodeID) (allNodes : List NodeRecord) :
    (∀ r : NodeID, r ∈ l →
      (filterCoordinates (sortUnique l) allNodes)[lower_bound (sortUnique l) r]?
        = some (match allNodes.reverse.find? (fun x => x.id == r) with
            | some x => ⟨x.latitude, x.longitude⟩
            | none => missingCoordinate))
      ∧ (∀ (coords : List GPSCoordinate) (x : NodeRecord), x.id ∉ l →
          storeCoordinate (sortUnique l) coords x.id ⟨x.latitude, x.longitude⟩ = coords) := by
  have hs := pairwise_sortUnique l
  refine ⟨?_, ?_⟩
  · intro r hr
    have hr1 : r ∈ sortUnique l := (mem_sortUnique r l).mpr hr
    obtain ⟨hlt, hget⟩ := lower_bound_of_mem _ hs r hr1
    induction allNodes using List.reverseRecOn with
    | nil =>
      simp only [filterCoordinates, List.foldl_nil, List.reverse_nil, List.find?_nil]
      rw [List.getElem?_replicate, if_pos hlt]
    | append_singleton rs x ih =>
      rw [filterCoordinates_append, List.reverse_append, List.reverse_singleton,
        List.singleton_append, List.find?_cons]
      by_cases hx : x.id ∈ sortUnique l
      · rw [storeCoordinate_of_mem _ hs _ _ _ hx]
        by_cases hxr : x.id = r
        · have hb : (x.id == r) = true := by simp [hxr]
          rw [hb, hxr, List.getElem?_set_self]
          rw [length_filterCoordinates]; exact hlt
        · have hb : (x.id == r) = false := by simp [hxr]
          rw [hb]
          have hne : lower_bound (sortUnique l) x.id ≠ lower_bound (sortUnique l) r := by
            intro heq
            obtain ⟨_, hgx⟩ := lower_bound_of_mem _ hs x.id hx
            rw [heq, hget] at hgx
            exact hxr (Option.some.inj hgx).symm
          rw [List.getElem?_set_ne hne]
          exact ih
      · rw [storeCoordinate_of_not_mem _ _ _ _ hx]
        have hb : (x.id == r) = false := by
          have : x.id ≠ r := fun h => hx (h ▸ hr1)
          simp [this]
        rw [hb]
        exact ih
  · intro coords x hx
    exact storeCoordinate_of_not_mem _ _ _ _ (fun h => hx ((mem_sortUnique _ l).mp h))

/-- C17 at the routing nodes 7, 3, 7 with the records 3, 9, 3 in `_all_nodes`: the slot 0 of
node 3 holds the coordinate of the third record, the slot 1 of node 7 stays at (-1, -1), and
the record of node 9 changes nothing. -/
theorem C17_last_write_wins_witness :
    (filterCoordinates (sortUnique [7, 3, 7])
        [⟨3, atof "1.0", atof "2.0"⟩, ⟨9, atof "5.0", atof "6.0"⟩,
         ⟨3, atof "3.0", atof "4.0"⟩])[lower_bound (sortUnique [7, 3, 7]) 3]?
        = some ⟨atof "3.0", atof "4.0"⟩
      ∧ (filterCoordinates (sortUnique [7, 3, 7])
        [⟨3, atof "1.0", atof "2.0"⟩, ⟨9, atof "5.0", atof "6.0"⟩,
         ⟨3, atof "3.0", atof "4.0"⟩])[lower_bound (sortUnique [7, 3, 7]) 7]?
        = some missingCoordinate
      ∧ storeCoordinate (sortUnique [7, 3, 7]) [missingCoordinate, missingCoordinate] 9
          ⟨atof "5.0", atof "6.0"⟩ = [missingCoordinate, missingCoordinate] :=
  ⟨((C17_last_write_wins [7, 3, 7]
      [⟨3, atof "1.0", atof "2.0"⟩, ⟨9, atof "5.0", atof "6.0"⟩,
       ⟨3, atof "3.0", atof "4.0"⟩]).1 3 (by decide)).trans (by decide),
   ((C17_last_write_wins [7, 3, 7]
      [⟨3, atof "1.0", atof "2.0"⟩, ⟨9, atof "5.0", atof "6.0"⟩,
       ⟨3, atof "3.0", atof "4.0"⟩]).1 7 (by decide)).trans (by decide),
   (C17_last_write_wins [7, 3, 7] []).2 [missingCoordinate, missingCoordinate]
      ⟨9, atof "5.0", atof "6.0"⟩ (by decide)⟩


/-! ## The sign of the results of the binary64 operations -/

theorem ofInt_zero : Double.ofInt 0 = .fin false 0 0 := by decide

theorem signedScaled_zero (neg : Bool) (k : Nat) : signedScaled neg 0 k = 0 := by
  cases neg <;> simp [signedScaled]

theorem signedScaled_nonneg (m k : Nat) : 0 ≤ signedScaled false m k := by
  simp [signedScaled]

/-- The doubles `x` with `0 <= x`: the numbers without the sign bit, the zero with it, and
the positive infinity. -/
theorem le_zero_iff (x : Double) :
    Double.le (Double.ofInt 0) x = true
      ↔ (∃ m e, x = .fin false m e) ∨ (∃ e, x = .fin true 0 e) ∨ x = .inf false := by
  rw [ofInt_zero]
  cases x with
  | nan => simp [Double.le]
  | inf neg => cases neg <;> simp [Double.le]
  | fin neg m e =>
    cases neg
    · simp [Double.le, signedScaled]
    · simp only [Double.le, signedScaled_zero, decide_eq_true_eq, signedScaled, if_true]
      constructor
      · intro h
        have hm : m * 2 ^ (e - min 0 e).toNat = 0 := by omega
        rcases Nat.mul_eq_zero.mp hm with h0 | h0
        · subst h0; simp
        · exact absurd h0 (by positivity)
      · rintro (⟨_, _, h⟩ | ⟨_, h⟩ | h)
        · cases h
        · cases h; simp
        · cases h

/-- The doubles `x` with `0 < x` that are numbers. -/
theorem lt_zero_finite_iff (x : Double) :
    (Double.lt (Double.ofInt 0) x = true ∧ x.isFinite = true)
      ↔ ∃ m e, x = .fin false m e ∧ m ≠ 0 := by
  rw [ofInt_zero]
  cases x with
  | nan => simp [Double.lt, Double.isFinite]
  | inf neg => simp [Double.isFinite]
  | fin neg m e =>
    cases neg
    · simp only [Double.lt, signedScaled_zero, decide_eq_true_eq, signedScaled, Double.isFinite,
        and_true, Double.fin.injEq, true_and, Bool.false_eq_true, if_false]
      constructor
      · intro h
        refine ⟨m, e, ⟨rfl, rfl⟩, ?_⟩
        rintro rfl
        simp at h
      · rintro ⟨_, _, ⟨rfl, rfl⟩, hm⟩
        have : 0 < m * 2 ^ (e - min 0 e).toNat :=
          Nat.mul_pos (Nat.pos_of_ne_zero hm) (by positivity)
        simpa using this
    · simp only [Double.lt, signedScaled_zero, decide_eq_true_eq, signedScaled, if_true,
        Double.isFinite, and_true]
      constructor
      · intro h
        have : (0 : Int) ≤ ((m * 2 ^ (e - min 0 e).toNat : Nat) : Int) := Int.natCast_nonneg _
        omega
      · rintro ⟨_, _, h, _⟩
        cases h

/-- A rounded quotient has the sign it is given and is no NaN. -/
theorem round_sign (neg : Bool) (n d : Nat) :
    (∃ m e, Double.round neg n d = .fin neg m e) ∨ Double.round neg n d = .inf neg := by
  unfold Double.round
  simp only []
  split_ifs
  all_goals first | exact Or.inl ⟨_, _, rfl⟩ | exact Or.inr rfl

theorem round_zero_left (neg : Bool) (d : Nat) : Double.round neg 0 d = .fin neg 0 0 := by
  simp [Double.round]

theorem le_zero_round (n d : Nat) :
    Double.le (Double.ofInt 0) (Double.round false n d) = true := by
  rw [le_zero_iff]
  rcases round_sign false n d with ⟨m, e, h⟩ | h
  · exact Or.inl ⟨m, e, h⟩
  · exact Or.inr (Or.inr h)

theorem le_zero_fin_zero (neg : Bool) (e : Int) :
    Double.le (Double.ofInt 0) (.fin neg 0 e) = true := by
  rw [le_zero_iff]
  cases neg
  · exact Or.inl ⟨_, _, rfl⟩
  · exact Or.inr (Or.inl ⟨_, rfl⟩)

theorem le_zero_round_of (neg : Bool) (n d : Nat) (h : neg = false ∨ n = 0) :
    Double.le (Double.ofInt 0) (Double.round neg n d) = true := by
  rcases h with rfl | rfl
  · exact le_zero_round n d
  · rw [round_zero_left]; exact le_zero_fin_zero neg 0

/-- A product `x * y` with `0 <= x` and a number `0 < y` is `>= 0`. -/
theorem le_zero_mul (x y : Double) (hx : Double.le (Double.ofInt 0) x = true)
    (hy : Double.lt (Double.ofInt 0) y = true ∧ y.isFinite = true) :
    Double.le (Double.ofInt 0) (Double.mul x y) = true := by
  obtain ⟨k, f, rfl, hk⟩ := (lt_zero_finite_iff y).mp hy
  rcases (le_zero_iff x).mp hx with ⟨m, e, rfl⟩ | ⟨e, rfl⟩ | rfl
  · exact le_zero_round _ _
  · simp only [Double.mul]
    exact le_zero_round_of _ _ _ (Or.inr (by simp))
  · simp only [Double.mul, if_neg hk]
    rw [le_zero_iff]; exact Or.inr (Or.inr rfl)

/-- A quotient `x / y` with `0 <= x` and a number `0 < y` is `>= 0`. -/
theorem le_zero_div (x y : Double) (hx : Double.le (Double.ofInt 0) x = true)
    (hy : Double.lt (Double.ofInt 0) y = true ∧ y.isFinite = true) :
    Double.le (Double.ofInt 0) (Double.div x y) = true := by
  obtain ⟨k, f, rfl, hk⟩ := (lt_zero_finite_iff y).mp hy
  rcases (le_zero_iff x).mp hx with ⟨m, e, rfl⟩ | ⟨e, rfl⟩ | rfl
  · simp only [Double.div, if_neg hk]
    exact le_zero_round _ _
  · simp only [Double.div, if_neg hk]
    exact le_zero_round_of _ _ _ (Or.inr (by simp))
  · simp only [Double.div]
    rw [le_zero_iff]; exact Or.inr (Or.inr rfl)

theorem signedScaled_nonneg_of (neg : Bool) (m k : Nat) (h : neg = false ∨ m = 0) :
    0 ≤ signedScaled neg m k := by
  rcases h with rfl | rfl
  · exact signedScaled_nonneg m k
  · rw [signedScaled_zero]

theorem le_zero_fin_iff (neg : Bool) (m : Nat) (e : Int) :
    Double.le (Double.ofInt 0) (.fin neg m e) = true ↔ neg = false ∨ m = 0 := by
  rw [le_zero_iff]
  constructor
  · rintro (⟨_, _, h⟩ | ⟨_, h⟩ | h)
    · cases h; exact Or.inl rfl
    · cases h; exact Or.inr rfl
    · cases h
  · rintro (rfl | rfl)
    · exact Or.inl ⟨_, _, rfl⟩
    · exact (le_zero_iff _).mp (le_zero_fin_zero neg e)

/-- A sum of two doubles that are `>= 0` is `>= 0`. -/
theorem le_zero_add (x y : Double) (hx : Double.le (Double.ofInt 0) x = true)
    (hy : Double.le (Double.ofInt 0) y = true) :
    Double.le (Double.ofInt 0) (Double.add x y) = true := by
  cases x with
  | nan => exact absurd hx (by decide)
  | inf s =>
    cases y with
    | nan => exact absurd hy (by decide)
    | inf t =>
      rcases (le_zero_iff _).mp hx with ⟨_, _, h⟩ | ⟨_, h⟩ | h <;> cases h
      rcases (le_zero_iff _).mp hy with ⟨_, _, h⟩ | ⟨_, h⟩ | h <;> cases h
      simp only [Double.add, if_true]; exact hx
    | fin t k f => exact hx
  | fin s m e =>
    cases y with
    | nan => exact absurd hy (by decide)
    | inf t => exact hy
    | fin t k f =>
      have h1 := signedScaled_nonneg_of s m (e - min e f).toNat ((le_zero_fin_iff s m e).mp hx)
      have h2 := signedScaled_nonneg_of t k (f - min e f).toNat ((le_zero_fin_iff t k f).mp hy)
      simp only [Double.add]
      split_ifs with hc
      · exact le_zero_fin_zero _ _
      · refine le_zero_round_of _ _ _ (Or.inl ?_)
        simp only [decide_eq_false_iff_not, not_lt]
        exact Int.add_nonneg h1 h2

theorem ofInt_two_pos :
    Double.lt (Double.ofInt 0) (Double.ofInt 2) = true ∧ (Double.ofInt 2).isFinite = true := by
  decide

theorem ofInt_thirtySix_pos :
    Double.lt (Double.ofInt 0) (Double.ofInt 36) = true ∧ (Double.ofInt 36).isFinite = true := by
  decide

/-- With a penalty setting that is `>= 0`, the penalty lines keep a seconds value `>= 0`. -/
theorem le_zero_addSignalPenalty (ctx : EdgeContext) (seconds : Double) (a b : NodeID)
    (hp : Double.le (Double.ofInt 0) ctx.settings.trafficLightPenalty = true)
    (hs : Double.le (Double.ofInt 0) seconds = true) :
    Double.le (Double.ofInt 0) (addSignalPenalty ctx seconds a b) = true := by
  have hhalf := le_zero_div _ _ hp ofInt_two_pos
  simp only [addSignalPenalty]
  split_ifs
  · exact le_zero_add _ _ (le_zero_add _ _ hs hhalf) hhalf
  · exact le_zero_add _ _ hs hhalf
  · exact le_zero_add _ _ hs hhalf
  · exact hs

/-! ## C12: the sign of the seconds values -/

/-- The seconds value of one segment is `>= 0` when the distance is `>= 0`, the speed of the
segment is a number `> 0`, and the penalty setting is `>= 0`. -/
theorem le_zero_segmentSeconds (ctx : EdgeContext) (stats stats1 : Statistics)
    (speed : Double) (type : Int) (a b : NodeID) (s : Double)
    (hD : ∀ c1 c2 : GPSCoordinate, Double.le (Double.ofInt 0) (ctx.Distance c1 c2) = true)
    (hP : Double.le (Double.ofInt 0) ctx.settings.trafficLightPenalty = true)
    (hS : ∀ (st : Statistics) (t : Double) (st1 : Statistics),
      segmentSpeed ctx st speed type a b = some (t, st1) →
        Double.lt (Double.ofInt 0) t = true ∧ t.isFinite = true)
    (h : segmentSeconds ctx stats speed type a b = some (s, stats1)) :
    Double.le (Double.ofInt 0) s = true := by
  unfold segmentSeconds at h
  split at h
  · rename_i ca cb _ _
    split at h
    · cases h
    · rename_i t st1 hs
      simp only [Option.some.injEq, Prod.mk.injEq] at h
      rw [← h.1]
      exact le_zero_addSignalPenalty ctx _ a b hP
        (le_zero_div _ _ (le_zero_mul _ _ (hD ca cb) ofInt_thirtySix_pos) (hS stats t st1 hs))
  · cases h

theorem le_zero_segmentLoop (ctx : EdgeContext) (speed : Double) (type : Int)
    (hD : ∀ c1 c2 : GPSCoordinate, Double.le (Double.ofInt 0) (ctx.Distance c1 c2) = true)
    (hP : Double.le (Double.ofInt 0) ctx.settings.trafficLightPenalty = true)
    (hS : ∀ (st : Statistics) (a b : NodeID) (t : Double) (st1 : Statistics),
      segmentSpeed ctx st speed type a b = some (t, st1) →
        Double.lt (Double.ofInt 0) t = true ∧ t.isFinite = true) :
    ∀ (way : List NodeID) (stats : Statistics) (out res : List Double) (stats1 : Statistics),
      (∀ s ∈ out, Double.le (Double.ofInt 0) s = true) →
      segmentLoop ctx speed type way stats out = some (res, stats1) →
      ∀ s ∈ res, Double.le (Double.ofInt 0) s = true
  | [], stats, out, res, stats1, hout, h => by
    simp only [segmentLoop, Option.some.injEq, Prod.mk.injEq] at h
    rw [← h.1]; exact hout
  | [_], stats, out, res, stats1, hout, h => by
    simp only [segmentLoop, Option.some.injEq, Prod.mk.injEq] at h
    rw [← h.1]; exact hout
  | a :: b :: rest, stats, out, res, stats1, hout, h => by
    simp only [segmentLoop] at h
    split at h
    · cases h
    · rename_i sec st1 hsec
      refine le_zero_segmentLoop ctx speed type hD hP hS (b :: rest) st1 _ res stats1 ?_ h
      intro s hs
      rcases List.mem_append.mp hs with h1 | h1
      · exact hout s h1
      · rw [List.mem_singleton] at h1
        rw [h1]
        exact le_zero_segmentSeconds ctx stats st1 speed type a b sec hD hP
          (fun st t st2 => hS st a b t st2) hsec

/-- C12, amended: every seconds value that the edge loop writes for a record of `_edges` is
`>= 0` when the distance function returns values `>= 0`, the `trafficLightPenalty` setting is
`>= 0`, and the speed used for every segment of the way is a number `> 0`. -/
theorem C12_seconds_nonneg (ctx : EdgeContext) (stats stats1 : Statistics) (r : EdgeRecord)
    (m : MappedRecord)
    (hD : ∀ c1 c2 : GPSCoordinate, Double.le (Double.ofInt 0) (ctx.Distance c1 c2) = true)
    (hP : Double.le (Double.ofInt 0) ctx.settings.trafficLightPenalty = true)
    (hS : ∀ (st : Statistics) (a b : NodeID) (t : Double) (st1 : Statistics),
      segmentSpeed ctx st r.maxspeed
          (if r.type < 0 then (ctx.settings.speedProfile.names.length : Int) else r.type) a b
        = some (t, st1) →
        Double.lt (Double.ofInt 0) t = true ∧ t.isFinite = true)
    (hw : mapWay ctx stats r = some (some m, stats1)) :
    ∀ s ∈ m.seconds, Double.le (Double.ofInt 0) s = true := by
  unfold mapWay at hw
  split at hw
  · cases hw
  · rename_i valid way _
    by_cases hv : (!valid) = true
    · rw [if_pos hv] at hw; cases hw
    · rw [if_neg hv] at hw
      by_cases hz : (Double.eq r.maxspeed (Double.ofInt 0)
          || (Double.lt r.maxspeed (Double.ofInt 0) && decide (r.type < 0))) = true
      · rw [if_pos hz] at hw
        simp only [Option.some.injEq, Prod.mk.injEq] at hw
        rw [← hw.1]
        intro s hs
        cases hs
      · rw [if_neg hz] at hw
        simp only [] at hw
        split at hw
        · cases hw
        · rename_i seconds st1 hloop
          simp only [Option.some.injEq, Prod.mk.injEq] at hw
          rw [← hw.1]
          exact le_zero_segmentLoop ctx r.maxspeed _ hD hP hS way stats [] seconds st1
            (fun s hs => by cases hs) hloop

/-- C12 at scenario S4 with the way over the dense nodes 0 and 1 (speed -1, class 0): the
speed of the segment is 30 * (100 / 100) or 50 * (100 / 100) wherever its nodes are, and the
seconds value written is `>= 0`. -/
theorem C12_seconds_nonneg_witness :
    mapWay scenarioS4Context Statistics.zero ⟨"", 0, Double.ofInt (-1), 1, [1, 2]⟩
        = some (some ⟨"", 1, [0, 1], [atof "133.58399999999997"]⟩,
            { Statistics.zero with numberOfDefaultCitySpeed := 1, numberOfCityEdges := 1 })
      ∧ ∀ s ∈ [atof "133.58399999999997"], Double.le (Double.ofInt 0) s = true := by
  have hw : mapWay scenarioS4Context Statistics.zero ⟨"", 0, Double.ofInt (-1), 1, [1, 2]⟩
        = some (some ⟨"", 1, [0, 1], [atof "133.58399999999997"]⟩,
            { Statistics.zero with numberOfDefaultCitySpeed := 1, numberOfCityEdges := 1 }) := by
    decide
  refine ⟨hw, ?_⟩
  refine C12_seconds_nonneg scenarioS4Context Statistics.zero _
    ⟨"", 0, Double.ofInt (-1), 1, [1, 2]⟩ ⟨"", 1, [0, 1], [atof "133.58399999999997"]⟩
    (fun _ _ => (by decide : Double.le (Double.ofInt 0) (atof "111.32") = true)) (by decide)
    ?_ hw
  intro st a b t st1 h
  have e1 : Double.lt (Double.ofInt (-1)) (Double.ofInt 0) = true := by decide
  have e2 : scenarioS4Context.settings.speedProfile.names.length = 1 := by decide
  have e3 : scenarioS4Context.settings.speedProfile.speed[(0 : Nat)]? = some (Double.ofInt 50) := by
    decide
  have e4 : scenarioS4Context.settings.speedProfile.speedInCity[(0 : Nat)]?
      = some (Double.ofInt 30) := by decide
  have e5 : scenarioS4Context.settings.speedProfile.averagePercentage[(0 : Nat)]? = some 100 := by
    decide
  have e6 : scenarioS4Context.settings.defaultCitySpeed = true := by decide
  have p30 : Double.lt (Double.ofInt 0)
      (Double.mul (Double.ofInt 30) (Double.div (Double.ofInt 100) (Double.ofInt 100))) = true
      ∧ (Double.mul (Double.ofInt 30)
        (Double.div (Double.ofInt 100) (Double.ofInt 100))).isFinite = true := by decide
  have p50 : Double.lt (Double.ofInt 0)
      (Double.mul (Double.ofInt 50) (Double.div (Double.ofInt 100) (Double.ofInt 100))) = true
      ∧ (Double.mul (Double.ofInt 50)
        (Double.div (Double.ofInt 100) (Double.ofInt 100))).isFinite = true := by decide
  have ht : (if (0 : Int) < 0 then (scenarioS4Context.settings.speedProfile.names.length : Int)
      else 0) = 0 := by decide
  change segmentSpeed scenarioS4Context st (Double.ofInt (-1))
    (if (0 : Int) < 0 then (scenarioS4Context.settings.speedProfile.names.length : Int)
      else 0) a b = some (t, st1) at h
  rw [ht] at h
  simp only [segmentSpeed, segmentBaseSpeed, e1, e2, e3, e4, e5, e6, if_true, Int.toNat_zero,
    Nat.cast_one, zero_lt_one] at h
  cases hE : eitherInPlace scenarioS4Context.nodeLocation a b with
  | none => simp [hE] at h
  | some inPlace =>
    cases inPlace <;> simp [hE] at h <;> rw [← h.1]
    · exact p50
    · exact p30

/-- C12 as stated fails on the code: the way of scenario S1 tagged `maxspeed=nan` gets the
seconds value NaN, which is not `>= 0`; and with the penalty setting -600, a traffic signal on
node 1 and a residential way over the nodes 0 and 1 the seconds value written is negative. -/
theorem C12_counterexample :
    mappedEdges scenarioSettings scenarioDistance (noPlaces 2)
        [.node 1 (atof "0.0") (atof "0.0") [], .node 2 (atof "0.0") (atof "0.001") [],
         .way [.nd 1, .nd 2, .tag "highway" "residential", .tag "maxspeed" "nan"]]
        = some [⟨"", 1, [0, 1], [Double.nan]⟩]
      ∧ Double.le (Double.ofInt 0) Double.nan = false
      ∧ mappedEdges { scenarioSettings with trafficLightPenalty := Double.ofInt (-600) }
        scenarioDistance (noPlaces 2)
        [.node 0 (atof "0.0") (atof "0.0") [],
         .node 1 (atof "0.0") (atof "0.001") [.tag "highway" "traffic_signals"],
         .way [.nd 0, .nd 1, .tag "highway" "residential"]]
        = some [⟨"", 1, [0, 1], [atof "-166.41600000000003"]⟩]
      ∧ Double.le (Double.ofInt 0) (atof "-166.41600000000003") = false := by
  decide


/-! ## Reading back the file `_edges` -/

theorem toInt32_wordOfInt (i : Int) (h1 : -2 ^ 31 ≤ i) (h2 : i < 2 ^ 31) :
    toInt32 (i % 2 ^ 32).toNat = i := by
  have hpos : (0 : Int) ≤ i % 2 ^ 32 := Int.emod_nonneg _ (by norm_num)
  have hlt : i % 2 ^ 32 < 2 ^ 32 := Int.emod_lt_of_pos _ (by norm_num)
  have hmod : ((i % 2 ^ 32).toNat % 2 ^ 32 : Nat) = (i % 2 ^ 32).toNat := by
    apply Nat.mod_eq_of_lt
    have : ((i % 2 ^ 32).toNat : Int) < 2 ^ 32 := by rw [Int.toNat_of_nonneg hpos]; exact hlt
    exact_mod_cast this
  unfold toInt32
  rw [hmod]
  have hcast : (((i % 2 ^ 32).toNat : Nat) : Int) = i % 2 ^ 32 := Int.toNat_of_nonneg hpos
  by_cases hi : 0 ≤ i
  · have e : i % 2 ^ 32 = i := Int.emod_eq_of_lt hi (by omega)
    have hlt31 : (i % 2 ^ 32).toNat < 2 ^ 31 := by
      have : ((i % 2 ^ 32).toNat : Int) < 2 ^ 31 := by rw [hcast, e]; exact h2
      exact_mod_cast this
    rw [if_pos hlt31, hcast, e]
  · have e : i % 2 ^ 32 = i + 2 ^ 32 := by
      have h3 : (i + 2 ^ 32) % 2 ^ 32 = i + 2 ^ 32 := Int.emod_eq_of_lt (by omega) (by omega)
      rw [← h3, Int.add_emod_self]
    have hge31 : ¬ (i % 2 ^ 32).toNat < 2 ^ 31 := by
      intro hcon
      have : ((i % 2 ^ 32).toNat : Int) < 2 ^ 31 := by exact_mod_cast hcon
      rw [hcast, e] at this
      omega
    rw [if_neg hge31, hcast, e]
    omega

theorem wordOfNat_of_lt (v : Nat) (h : v < 2 ^ 32) : wordOfNat v = .word v := by
  unfold wordOfNat
  rw [Nat.mod_eq_of_lt h]

/-- The header read from the fields of a record of `_edges` is that record, and the stream
stands at its node ids. -/
theorem readEdgeHeader_encodeEdge (r : EdgeRecord) (rest : List Field)
    (hT : -2 ^ 31 ≤ r.type ∧ r.type < 2 ^ 31)
    (hB : -2 ^ 31 ≤ r.bidirectional ∧ r.bidirectional < 2 ^ 31)
    (hN : r.nodeIds.length < 2 ^ 31) :
    readEdgeHeader ⟨encodeEdge r ++ rest, false⟩
      = some (r.name, r.type, r.maxspeed, r.bidirectional, (r.nodeIds.length : Int),
          ⟨r.nodeIds.map wordOfNat ++ rest, false⟩) := by
  have hN1 : toInt32 ((r.nodeIds.length : Int) % 2 ^ 32).toNat = (r.nodeIds.length : Int) :=
    toInt32_wordOfInt _ (by omega) (by exact_mod_cast hN)
  simp only [readEdgeHeader, encodeEdge, readText, readInt, readWord, readReal, wordOfInt,
    List.cons_append, List.nil_append, Option.map_some', toInt32_wordOfInt _ hT.1 hT.2,
    toInt32_wordOfInt _ hB.1 hB.2, hN1]

/-- Reading the node ids of a way from the stream is the loop `mapNodes` on the ids, and the
stream then stands behind the last id, whether the way is valid or not. -/
theorem readWayNodes_encoded (ctx : EdgeContext) (rest : List Field) :
    ∀ (ids : List NodeID), (∀ id ∈ ids, id < 2 ^ 32) → ∀ (valid : Bool) (way : List NodeID),
      readWayNodes ctx ids.length ⟨ids.map wordOfNat ++ rest, false⟩ valid way
        = (mapNodes ctx ids valid way).map (fun p => (p.1, p.2, ⟨rest, false⟩))
  | [], _, valid, way => by simp [readWayNodes, mapNodes]
  | id :: ids, h, valid, way => by
    have hid : id < 2 ^ 32 := h id (List.mem_cons_self _ _)
    have hrest : ∀ x ∈ ids, x < 2 ^ 32 := fun x hx => h x (List.mem_cons_of_mem _ hx)
    simp only [List.length_cons, List.map_cons, List.cons_append, readWayNodes, readWord,
      wordOfNat_of_lt id hid, mapNodes]
    cases valid with
    | false =>
      simp only [Bool.not_false, if_true]
      exact readWayNodes_encoded ctx rest ids hrest false way
    | true =>
      simp only [Bool.not_true, Bool.false_eq_true, if_false]
      cases hc : ctx.nodeCoordinates[lower_bound ctx.usedNodes id]? with
      | none => simp
      | some c => exact readWayNodes_encoded ctx rest ids hrest _ _

/-- The loop over the node ids of a way ends with `valid` exactly when it started with it and
no id has the coordinate (-1, -1). -/
theorem mapNodes_flag (ctx : EdgeContext) :
    ∀ (nodes : List NodeID) (valid : Bool) (way : List NodeID),
      (∀ n ∈ nodes, lower_bound ctx.usedNodes n < ctx.nodeCoordinates.length) →
      ∃ v w, mapNodes ctx nodes valid way = some (v, w)
        ∧ (v = true ↔ valid = true ∧ ∀ n ∈ nodes, ∃ c,
            ctx.nodeCoordinates[lower_bound ctx.usedNodes n]? = some c ∧ c.isMissing = false)
  | [], valid, way, _ => ⟨valid, way, rfl, by simp⟩
  | node :: rest, valid, way, hr => by
    have hrest : ∀ n ∈ rest, lower_bound ctx.usedNodes n < ctx.nodeCoordinates.length :=
      fun n hn => hr n (List.mem_cons_of_mem _ hn)
    cases valid with
    | false =>
      obtain ⟨v, w, h1, h2⟩ := mapNodes_flag ctx rest false way hrest
      refine ⟨v, w, ?_, ?_⟩
      · simp only [mapNodes, Bool.not_false, if_true]; exact h1
      · simp only [Bool.false_eq_true, false_and, iff_false] at h2 ⊢
        exact h2
    | true =>
      have hlt := hr node (List.mem_cons_self _ _)
      obtain ⟨v, w, h1, h2⟩ := mapNodes_flag ctx rest
        (!(ctx.nodeCoordinates[lower_bound ctx.usedNodes node]).isMissing)
        (way ++ [lower_bound ctx.usedNodes node]) hrest
      refine ⟨v, w, ?_, ?_⟩
      · simp only [mapNodes, Bool.not_true, Bool.false_eq_true, if_false,
          List.getElem?_eq_getElem hlt]
        exact h1
      · rw [h2]
        simp only [List.mem_cons, forall_eq_or_imp, List.getElem?_eq_getElem hlt,
          Option.some.injEq, exists_eq_left', true_and, Bool.not_eq_true']

/-! ## The segment loop reads no entry out of range -/

theorem eitherInPlace_total (nodeLocation : List NodeLocation) (a b : NodeID)
    (ha : a < nodeLocation.length) (hb : b < nodeLocation.length) :
    ∃ v, eitherInPlace nodeLocation a b = some v := by
  simp only [eitherInPlace, List.getElem?_eq_getElem ha, List.getElem?_eq_getElem hb,
    Option.map_some']
  split_ifs
  · exact ⟨_, rfl⟩
  · exact ⟨_, rfl⟩

/-- The speed of a segment is defined when the type is not negative, is inside the profile if
the recorded speed is `< 0`, the three tables of the profile are as long as `names`, and the
two nodes have an entry in `nodeLocation`. -/
theorem segmentSpeed_total (ctx : EdgeContext) (stats : Statistics) (speed : Double)
    (type : Int) (a b : NodeID) (h0 : 0 ≤ type)
    (hin : Double.lt speed (Double.ofInt 0) = true →
      type < (ctx.settings.speedProfile.names.length : Int))
    (hP : ctx.settings.speedProfile.speed.length = ctx.settings.speedProfile.names.length
      ∧ ctx.settings.speedProfile.speedInCity.length = ctx.settings.speedProfile.names.length
      ∧ ctx.settings.speedProfile.averagePercentage.length
        = ctx.settings.speedProfile.names.length)
    (ha : a < ctx.nodeLocation.length) (hb : b < ctx.nodeLocation.length) :
    ∃ t stats1, segmentSpeed ctx stats speed type a b = some (t, stats1) := by
  obtain ⟨inPlace, hE⟩ := eitherInPlace_total ctx.nodeLocation a b ha hb
  have hidx : type < (ctx.settings.speedProfile.names.length : Int) →
      type.toNat < ctx.settings.speedProfile.names.length := by
    intro h; omega
  have hbase : ∃ t stats1, segmentBaseSpeed ctx stats speed type a b = some (t, stats1) := by
    unfold segmentBaseSpeed
    by_cases hs : Double.lt speed (Double.ofInt 0) = true
    · have ht := hin hs
      have h1 : type.toNat < ctx.settings.speedProfile.speed.length := by
        rw [hP.1]; exact hidx ht
      have h2 : type.toNat < ctx.settings.speedProfile.speedInCity.length := by
        rw [hP.2.1]; exact hidx ht
      rw [if_pos hs, if_pos ht, hE, List.getElem?_eq_getElem h1, List.getElem?_eq_getElem h2]
      cases ctx.settings.defaultCitySpeed <;> cases inPlace <;> exact ⟨_, _, rfl⟩
    · rw [if_neg hs]; exact ⟨_, _, rfl⟩
  obtain ⟨t, stats1, hb1⟩ := hbase
  unfold segmentSpeed
  rw [hb1]
  by_cases ht : type < (ctx.settings.speedProfile.names.length : Int)
  · have h3 : type.toNat < ctx.settings.speedProfile.averagePercentage.length := by
      rw [hP.2.2]; exact hidx ht
    simp only [if_pos ht, hE, List.getElem?_eq_getElem h3]
    exact ⟨_, _, rfl⟩
  · simp only [if_neg ht]
    exact ⟨_, _, rfl⟩

theorem segmentLoop_total (ctx : EdgeContext) (speed : Double) (type : Int) (h0 : 0 ≤ type)
    (hin : Double.lt speed (Double.ofInt 0) = true →
      type < (ctx.settings.speedProfile.names.length : Int))
    (hP : ctx.settings.speedProfile.speed.length = ctx.settings.speedProfile.names.length
      ∧ ctx.settings.speedProfile.speedInCity.length = ctx.settings.speedProfile.names.length
      ∧ ctx.settings.speedProfile.averagePercentage.length
        = ctx.settings.speedProfile.names.length)
    (hL : ctx.nodeLocation.length = ctx.nodeCoordinates.length) :
    ∀ (way : List NodeID) (stats : Statistics) (out : List Double),
      (∀ a ∈ way, a < ctx.nodeCoordinates.length) →
      ∃ seconds stats1, segmentLoop ctx speed type way stats out = some (seconds, stats1)
  | [], stats, out, _ => ⟨out, stats, rfl⟩
  | [_], stats, out, _ => ⟨out, stats, rfl⟩
  | a :: b :: rest, stats, out, hw => by
    have ha : a < ctx.nodeCoordinates.length := hw a (List.mem_cons_self _ _)
    have hb : b < ctx.nodeCoordinates.length :=
      hw b (List.mem_cons_of_mem _ (List.mem_cons_self _ _))
    obtain ⟨t, st1, hs⟩ := segmentSpeed_total ctx stats speed type a b h0 hin hP
      (hL ▸ ha) (hL ▸ hb)
    have hsec := segmentSeconds_eq ctx stats st1 speed t type a b _ _
      (List.getElem?_eq_getElem ha) (List.getElem?_eq_getElem hb) hs
    simp only [segmentLoop, hsec]
    exact segmentLoop_total ctx speed type h0 hin hP hL (b :: rest) st1 _
      (fun x hx => hw x (List.mem_cons_of_mem _ hx))

/-! ## C15: ways with a missing coordinate -/

/-- C15: for a record `r` of `_edges` with a recorded speed other than 0 (a record as pass 1
writes it: its fields fit their 32 bits, its type is below the size of the profile and its
nodes have a slot in `nodeCoordinates`; any fields `rest` follow it in the file), one round of
the edge loop reads the record with all its node ids and leaves the stream at `rest`; if no
node of the path has the coordinate (-1, -1) it writes the record (name, flag, count, the dense
ids, then seconds values) to `_mapped_edges`, and otherwise it writes nothing and changes no
counter. -/
theorem C15_way_written_iff_coordinates (ctx : EdgeContext) (stats : Statistics)
    (r : EdgeRecord) (rest : List Field) (hfit : r.fits)
    (hType : r.type < (ctx.settings.speedProfile.names.length : Int))
    (h0 : Double.eq r.maxspeed (Double.ofInt 0) = false)
    (hU : ∀ id ∈ r.nodeIds, lower_bound ctx.usedNodes id < ctx.nodeCoordinates.length)
    (hL : ctx.nodeLocation.length = ctx.nodeCoordinates.length)
    (hP : ctx.settings.speedProfile.speed.length = ctx.settings.speedProfile.names.length
      ∧ ctx.settings.speedProfile.speedInCity.length = ctx.settings.speedProfile.names.length
      ∧ ctx.settings.speedProfile.averagePercentage.length
        = ctx.settings.speedProfile.names.length) :
    ∃ (written : List Field) (stats1 : Statistics),
      edgeRound ctx ⟨encodeEdge r ++ rest, false⟩ stats
        = some (some (⟨rest, false⟩, written, stats1))
      ∧ ((∀ id ∈ r.nodeIds, ∃ c,
            ctx.nodeCoordinates[lower_bound ctx.usedNodes id]? = some c ∧ c.isMissing = false) →
          ∃ seconds : List Double,
            written = [.text r.name, wordOfInt r.bidirectional,
                wordOfInt (r.nodeIds.length : Int)]
              ++ (r.nodeIds.map (lower_bound ctx.usedNodes)).map wordOfNat
              ++ seconds.map .real)
      ∧ (¬ (∀ id ∈ r.nodeIds, ∃ c,
            ctx.nodeCoordinates[lower_bound ctx.usedNodes id]? = some c ∧ c.isMissing = false) →
          written = [] ∧ stats1 = stats) := by
  obtain ⟨hT0, hB, hN, hI⟩ := hfit
  have hT : -2 ^ 31 ≤ r.type ∧ r.type < 2 ^ 31
      ∧ r.type < (ctx.settings.speedProfile.names.length : Int) := ⟨hT0.1, hT0.2, hType⟩
  obtain ⟨v, w, hm, hv⟩ := mapNodes_flag ctx r.nodeIds true [] hU
  have hround : ∀ res, (match (some (v, w, (⟨rest, false⟩ : DataStream)) :
        Option (Bool × List NodeID × DataStream)) with
      | none => none
      | some (valid, way, s2) =>
        if !valid then some (some (s2, [], stats))
        else
          match writeWay ctx stats r.name r.type r.maxspeed r.bidirectional
            (r.nodeIds.length : Int) way with
          | none => none
          | some (written, stats1) => some (some (s2, written, stats1))) = res →
      edgeRound ctx ⟨encodeEdge r ++ rest, false⟩ stats = res := by
    intro res hres
    simp only [edgeRound, readEdgeHeader_encodeEdge r rest ⟨hT.1, hT.2.1⟩ hB hN,
      Bool.false_eq_true, if_false, Int.toNat_ofNat, h0, Bool.not_false,
      readWayNodes_encoded ctx rest r.nodeIds hI, hm, Option.map_some']
    exact hres
  cases v with
  | false =>
    have hno : ¬ (∀ id ∈ r.nodeIds, ∃ c,
        ctx.nodeCoordinates[lower_bound ctx.usedNodes id]? = some c ∧ c.isMissing = false) := by
      intro hall
      have := hv.mpr ⟨rfl, hall⟩
      cases this
    refine ⟨[], stats, hround _ rfl, fun hall => absurd hall hno, fun _ => ⟨rfl, rfl⟩⟩
  | true =>
    have hall := (hv.mp rfl).2
    have hw : w = r.nodeIds.map (lower_bound ctx.usedNodes) := by
      have := (mapNodes_valid ctx _ _ _ _ hm).2
      simpa using this
    have hwlt : ∀ a ∈ w, a < ctx.nodeCoordinates.length := by
      intro a ha
      rw [hw, List.mem_map] at ha
      obtain ⟨id, hid, rfl⟩ := ha
      exact hU id hid
    have hwrite : ∃ (seconds : List Double) (stats1 : Statistics),
        writeWay ctx stats r.name r.type r.maxspeed r.bidirectional (r.nodeIds.length : Int) w
          = some ([.text r.name, wordOfInt r.bidirectional, wordOfInt (r.nodeIds.length : Int)]
              ++ w.map wordOfNat ++ seconds.map .real, stats1) := by
      unfold writeWay
      by_cases hz : (Double.eq r.maxspeed (Double.ofInt 0)
          || (Double.lt r.maxspeed (Double.ofInt 0) && decide (r.type < 0))) = true
      · simp only [hz, if_true]
        exact ⟨[], { stats with numberOfZeroSpeed := stats.numberOfZeroSpeed + 1 }, by simp⟩
      · simp only [hz, Bool.false_eq_true, if_false]
        have hz1 : ¬ (Double.lt r.maxspeed (Double.ofInt 0) = true ∧ r.type < 0) := by
          intro hcon
          apply hz
          simp [hcon.1, hcon.2]
        obtain ⟨seconds, st1, hloop⟩ := segmentLoop_total ctx r.maxspeed
          (if r.type < 0 then (ctx.settings.speedProfile.names.length : Int) else r.type)
          (by split_ifs <;> omega)
          (by
            intro hs
            have hge : ¬ r.type < 0 := fun h => hz1 ⟨hs, h⟩
            rw [if_neg hge]
            exact hT.2.2)
          hP hL w stats [] hwlt
        rw [hloop]
        exact ⟨seconds, st1, rfl⟩
    obtain ⟨seconds, stats1, hwr⟩ := hwrite
    refine ⟨[.text r.name, wordOfInt r.bidirectional, wordOfInt (r.nodeIds.length : Int)]
        ++ w.map wordOfNat ++ seconds.map .real, stats1, hround _ ?_,
      fun _ => ⟨seconds, by rw [hw]⟩, fun hno => absurd hall hno⟩
    simp only [Bool.not_true, Bool.false_eq_true, if_false, hwr]

/-- C15 at a file `_edges` with the way "a" over the nodes 1, 5, 2 and then the way "b" over
1, 2, where node 5 has no coordinate: the round for "a" writes nothing and leaves the stream
at the record of "b", and the file `_mapped_edges` holds the record of "b" alone. -/
theorem C15_way_written_witness :
    (∃ (written : List Field) (stats1 : Statistics),
      edgeRound scenarioMissingContext
          ⟨encodeEdge ⟨"a", 0, Double.ofInt (-1), 1, [1, 5, 2]⟩
            ++ encodeEdge ⟨"b", 0, Double.ofInt (-1), 1, [1, 2]⟩, false⟩ Statistics.zero
        = some (some (⟨encodeEdge ⟨"b", 0, Double.ofInt (-1), 1, [1, 2]⟩, false⟩, written,
            stats1))
      ∧ written = [] ∧ stats1 = Statistics.zero)
      ∧ (mappedEdgesFile scenarioMissingContext
          (encodeEdge ⟨"a", 0, Double.ofInt (-1), 1, [1, 5, 2]⟩
            ++ encodeEdge ⟨"b", 0, Double.ofInt (-1), 1, [1, 2]⟩) Statistics.zero).map Prod.fst
        = some [.text "b", .word 1, .word 2, .word 0, .word 1,
            .real (Double.div (Double.mul (atof "111.32") (Double.ofInt 36))
              (Double.ofInt 50))] := by
  refine ⟨?_, by decide⟩
  obtain ⟨written, stats1, h1, _, h3⟩ := C15_way_written_iff_coordinates scenarioMissingContext
    Statistics.zero ⟨"a", 0, Double.ofInt (-1), 1, [1, 5, 2]⟩
    (encodeEdge ⟨"b", 0, Double.ofInt (-1), 1, [1, 2]⟩)
    (by decide) (by decide) (by decide) (by decide) (by decide) (by decide)
  exact ⟨written, stats1, h1, h3 (by decide)⟩


/-! ## C18 and C19: `_id_map` and the getters -/

/-- The id loop on a stream that starts with the words `ws` reads them all. -/
theorem readWords_words (rest : List Field) (pastEnd : Bool) :
    ∀ (ws : List Nat) (ids : List NodeID),
      readWords ws.length ⟨ws.map .word ++ rest, pastEnd⟩ ids = some (ids ++ ws, ⟨rest, pastEnd⟩)
  | [], ids => by simp [readWords]
  | w :: ws, ids => by
    simp only [List.length_cons, List.map_cons, List.cons_append, readWords, readWord]
    rw [readWords_words rest pastEnd ws (ids ++ [w])]
    simp

/-- The id loop on a stream that holds only words, fewer than it reads, ends past the end of
the data. -/
theorem readWords_short :
    ∀ (n : Nat) (ws : List Nat) (pastEnd : Bool) (ids : List NodeID), ws.length < n →
      ∃ idMap, readWords n ⟨ws.map .word, pastEnd⟩ ids = some (idMap, ⟨[], true⟩)
  | 0, _, _, _, h => absurd h (Nat.not_lt_zero _)
  | n + 1, [], pastEnd, ids, _ => by
    simp only [List.map_nil, readWords, readWord]
    cases n with
    | zero => exact ⟨_, rfl⟩
    | succ k =>
      have := readWords_short (k + 1) [] true (ids ++ [0]) (Nat.succ_pos k)
      simpa using this
  | n + 1, w :: ws, pastEnd, ids, h => by
    simp only [List.map_cons, readWords, readWord]
    exact readWords_short n ws pastEnd (ids ++ [w]) (by simpa using h)

/-- `GetIDMap` returns false when the file holds fewer ids than its count says. -/
theorem GetIDMap_short (count : Nat) (ids : List Nat) (h : ids.length < count) :
    ∃ idMap, GetIDMap (.word count :: ids.map .word) = some (false, idMap) := by
  obtain ⟨idMap, hr⟩ := readWords_short count ids false [] h
  exact ⟨idMap, by simp [GetIDMap, readWord, hr]⟩

/-- C18: for every vector `m` of fewer than `2^32` node ids of 32 bits, `SetIDMap` returns
true and writes the count followed by the elements, and `GetIDMap` on that file returns true
and the vector `m`. -/
theorem C18_id_map_round_trip (m : List NodeID) (hlen : m.length < 2 ^ 32)
    (hm : ∀ v ∈ m, v < 2 ^ 32) :
    SetIDMap m = (true, .word m.length :: m.map .word)
      ∧ GetIDMap (SetIDMap m).2 = some (true, m) := by
  have hmap : m.map wordOfNat = m.map .word :=
    List.map_congr_left (fun v hv => wordOfNat_of_lt v (hm v hv))
  have hset : SetIDMap m = (true, .word m.length :: m.map .word) := by
    simp only [SetIDMap, Nat.mod_eq_of_lt hlen, List.take_length, hmap,
      wordOfNat_of_lt _ hlen]
  refine ⟨hset, ?_⟩
  have hread := readWords_words [] false m []
  simp only [List.append_nil, List.nil_append] at hread
  simp [hset, GetIDMap, readWord, hread]

/-- C18 at the vector 5, 7, 9 of the specification's round trip. -/
theorem C18_id_map_witness :
    SetIDMap [5, 7, 9] = (true, [.word 3, .word 5, .word 7, .word 9])
      ∧ GetIDMap (SetIDMap [5, 7, 9]).2 = some (true, [5, 7, 9]) :=
  C18_id_map_round_trip [5, 7, 9] (by decide) (by decide)

/-- C19 fails on the code: `GetRoutingEdges` returns true whenever it returns, since the end
of the data only ends its loop; for the file that holds the header ("", 1, 2) and one node id
of two it returns true with an edge from 7 to 0 of 0 seconds, while `GetIDMap` returns false
for a file with the count 3 and two ids. -/
theorem C19_truncated_edges_returns_true (file : List Field) :
    (GetRoutingEdges file).map Prod.fst = (GetRoutingEdges file).map (fun _ => true)
      ∧ GetRoutingEdges [.text "", .word 1, .word 2, .word 7]
        = some (true, [⟨7, 0, true, Double.ofInt 0⟩])
      ∧ GetIDMap [.word 3, .word 5, .word 7] = some (false, [5, 7, 0]) := by
  refine ⟨?_, by decide, by decide⟩
  unfold GetRoutingEdges
  cases routingEdgesLoop (file.length + 1) ⟨file, false⟩ [] <;> rfl


/-! ## C20: the GPS link -/

theorem clearRoute_linked (st : RoutingLogic) : (clearRoute st).linked = st.linked := rfl

theorem routeLoop_linked (getRoute : Nat → Nat → Option (Double × List Nat × List Nat)) :
    ∀ (gps : List Nat) (first : Bool) (st : RoutingLogic),
      (routeLoop getRoute gps first st).linked = st.linked
  | [], _, _ => rfl
  | [_], _, _ => rfl
  | a :: b :: rest, first, st => by
    simp only [routeLoop]
    cases getRoute a b with
    | none => rfl
    | some p =>
      obtain ⟨travelTime, nodes, edges⟩ := p
      simp only []
      rw [routeLoop_linked getRoute (b :: rest) false]

/-- The function `computeRoute` does not write the member `linked`. -/
theorem computeRoute_linked (env : Collaborators) (st : RoutingLogic) :
    (computeRoute env st).linked = st.linked := by
  unfold computeRoute
  cases env.gpsLookup with
  | none => rfl
  | some lookup =>
    cases env.router with
    | none => rfl
    | some getRoute =>
      simp only []
      split_ifs
      · rfl
      · rfl
      · cases lookupWaypoints lookup (st.source :: st.waypoints.filter env.IsValid) with
        | none => rfl
        | some gps =>
          simp only []
          rw [routeLoop_linked]

/-- No step changes `linked` from true to false. -/
theorem step_linked (env : Collaborators) (st : RoutingLogic) (k : List Frame)
    (h : st.linked = true) : (step env (st, k)).1.linked = true := by
  cases k with
  | nil => exact h
  | cons f k =>
    cases f with
    | positionUpdated position heading =>
      simp only [step, h, if_true]
    | positionUpdatedRest => exact h
    | setSource coordinate => exact h
    | setSourceRest coordinate =>
      simp only [step]
      rw [computeRoute_linked]
      exact h
    | setGPSLink linked =>
      simp only [step]
      split_ifs
      · exact h
      · rfl
      · rfl
    | setGPSLinkRest => exact h

/-- C20: a call of `setGPSLink` that gets past the early return sets `linked` to true, whatever
its argument, so `setGPSLink( false )` in a state with `linked` true leaves it true; and from
a state with `linked` true, no number of steps of any sequence of calls of `positionUpdated`,
`setSource` and `setGPSLink` (or of the lines left of such calls) makes `linked` false. -/
theorem C20_setGPSLink_never_unlinks (env : Collaborators) :
    (∀ (st : RoutingLogic) (linked : Bool) (k : List Frame), linked ≠ st.linked →
        (step env (st, .setGPSLink linked :: k)).1.linked = true)
      ∧ (∀ (st : RoutingLogic) (k : List Frame), st.linked = true →
        (step env (st, .setGPSLink false :: k)).1.linked = true
          ∧ (step env (st, .setGPSLink false :: k)).2 ≠ k)
      ∧ (∀ (n : Nat) (st : RoutingLogic) (calls : List Frame), st.linked = true →
        (run env n (st, calls)).1.linked = true) := by
  refine ⟨?_, ?_, ?_⟩
  · intro st linked k hne
    simp only [step, if_neg hne]
    split_ifs <;> rfl
  · intro st k h
    refine ⟨step_linked env st _ h, ?_⟩
    simp only [step, h, Bool.false_eq_true, if_false]
    split_ifs
    · intro hcon
      have := congrArg List.length hcon
      simp only [List.length_cons] at this
      omega
    · intro hcon
      have := congrArg List.length hcon
      simp only [List.length_cons] at this
      omega
  · intro n
    induction n with
    | zero => intro st calls h; exact h
    | succ n ih =>
      intro st calls h
      simp only [run]
      have hs := step_linked env st calls h
      exact ih (step env (st, calls)).1 (step env (st, calls)).2 hs

/-- C20 on a run: from the state of the constructor with an invalid GPS position, the calls
`setGPSLink( true )`, `setGPSLink( false )`, `setSource( (3, 4) )` and a position update
return after 14 steps with `linked` true, and `linked` is true after every number of steps
of `setGPSLink( false )` from a linked state. -/
theorem C20_setGPSLink_witness :
    (step scenarioCollaborators
        (RoutingLogic.initial ⟨0, 0⟩, [.setGPSLink true])).1.linked = true
      ∧ (run scenarioCollaborators 14 (RoutingLogic.initial ⟨0, 0⟩,
          [.setGPSLink true, .setGPSLink false, .setSource ⟨3, 4⟩,
            .positionUpdated ⟨0, 0⟩ none])).2 = []
      ∧ (run scenarioCollaborators 14 (RoutingLogic.initial ⟨0, 0⟩,
          [.setGPSLink true, .setGPSLink false, .setSource ⟨3, 4⟩,
            .positionUpdated ⟨0, 0⟩ none])).1.linked = true
      ∧ (run scenarioCollaborators 7
          ({ RoutingLogic.initial ⟨5, 5⟩ with linked := true }, [.setGPSLink false])).1.linked
        = true :=
  ⟨(C20_setGPSLink_never_unlinks scenarioCollaborators).1 (RoutingLogic.initial ⟨0, 0⟩) true []
      (by decide),
    by decide, by decide,
    (C20_setGPSLink_never_unlinks scenarioCollaborators).2.2 7
      { RoutingLogic.initial ⟨5, 5⟩ with linked := true } [.setGPSLink false] rfl⟩


/-! ## The order of the finite doubles -/

/-- The aligned integer of a number, scaled back, is its value. -/
theorem signedScaled_toRat (neg : Bool) (m : Nat) (e g : Int) (h : g ≤ e) :
    ((signedScaled neg m (e - g).toNat : Int) : ℚ) * (2 : ℚ) ^ g = (Double.fin neg m e).toRat := by
  have hk : (((e - g).toNat : Nat) : Int) = e - g := Int.toNat_of_nonneg (by omega)
  have hpow : ((2 : ℚ) ^ (e - g).toNat) * (2 : ℚ) ^ g = (2 : ℚ) ^ e := by
    rw [← zpow_natCast, hk, ← zpow_add₀ (by norm_num : (2 : ℚ) ≠ 0)]
    congr 1
    omega
  cases neg
  · simp only [signedScaled, Double.toRat, Bool.false_eq_true, if_false, one_mul]
    push_cast
    rw [mul_assoc, hpow]
  · simp only [signedScaled, Double.toRat, if_true]
    push_cast
    rw [neg_mul, mul_assoc, hpow]
    ring

theorem lt_iff_toRat (s : Bool) (m : Nat) (e : Int) (t : Bool) (k : Nat) (f : Int) :
    Double.lt (.fin s m e) (.fin t k f) = true
      ↔ (Double.fin s m e).toRat < (Double.fin t k f).toRat := by
  rw [← signedScaled_toRat s m e (min e f) (min_le_left e f),
    ← signedScaled_toRat t k f (min e f) (min_le_right e f)]
  have hpos : (0 : ℚ) < (2 : ℚ) ^ (min e f) := by positivity
  simp only [Double.lt, decide_eq_true_eq]
  rw [mul_lt_mul_right hpos]
  exact Int.cast_lt.symm

theorem le_iff_toRat (s : Bool) (m : Nat) (e : Int) (t : Bool) (k : Nat) (f : Int) :
    Double.le (.fin s m e) (.fin t k f) = true
      ↔ (Double.fin s m e).toRat ≤ (Double.fin t k f).toRat := by
  rw [← signedScaled_toRat s m e (min e f) (min_le_left e f),
    ← signedScaled_toRat t k f (min e f) (min_le_right e f)]
  have hpos : (0 : ℚ) < (2 : ℚ) ^ (min e f) := by positivity
  simp only [Double.le, decide_eq_true_eq]
  rw [mul_le_mul_right hpos]
  exact Int.cast_le.symm

/-- On numbers, `x < y` of the doubles is `<` of their values. -/
theorem lt_iff_of_finite (x y : Double) (hx : x.isFinite = true) (hy : y.isFinite = true) :
    Double.lt x y = true ↔ x.toRat < y.toRat := by
  cases x <;> cases y <;> simp [Double.isFinite] at hx hy
  exact lt_iff_toRat _ _ _ _ _ _

/-- On numbers, `x <= y` of the doubles is `≤` of their values. -/
theorem le_iff_of_finite (x y : Double) (hx : x.isFinite = true) (hy : y.isFinite = true) :
    Double.le x y = true ↔ x.toRat ≤ y.toRat := by
  cases x <;> cases y <;> simp [Double.isFinite] at hx hy
  exact le_iff_toRat _ _ _ _ _ _

theorem maxDouble_finite : maxDouble.isFinite = true := rfl

theorem noPlaces_eq (n : Nat) : noPlaces n = List.replicate n ⟨false, 0, maxDouble⟩ := rfl

/-! ## The place loop, node by node -/

/-- A loop over the points found whose body sets the entry of the point to `v i` when the
test `c` holds for the entry: afterwards the entry of a node is `v n` if the node was found
and the test held for its entry, and is unchanged otherwise. -/
theorem foldHits_pointwise (N : Nat)
    (body : List NodeLocation → Nat → Option (List NodeLocation))
    (c : Nat → NodeLocation → Bool) (v : Nat → NodeLocation)
    (hbody : ∀ (nl : List NodeLocation) (i : Nat) (loc : NodeLocation), nl.length = N →
      nl[i]? = some loc → body nl i = some (if c i loc = true then nl.set i (v i) else nl)) :
    ∀ (hits : List Nat) (nl : List NodeLocation), nl.length = N → (∀ i ∈ hits, i < N) →
      ∃ nl1, foldHits body hits nl = some nl1 ∧ nl1.length = N
        ∧ ∀ (n : Nat) (loc : NodeLocation), nl[n]? = some loc →
            nl1[n]? = some (if n ∈ hits ∧ c n loc = true then v n else loc)
  | [], nl, hlen, _ => ⟨nl, rfl, hlen, fun n loc h => by simp [h]⟩
  | i :: rest, nl, hlen, hin => by
    have hi : i < nl.length := hlen ▸ hin i (List.mem_cons_self _ _)
    have hrest : ∀ x ∈ rest, x < N := fun x hx => hin x (List.mem_cons_of_mem _ hx)
    have hb := hbody nl i nl[i] hlen (List.getElem?_eq_getElem hi)
    by_cases hc : c i nl[i] = true
    · rw [if_pos hc] at hb
      obtain ⟨nl1, h1, h2, h3⟩ := foldHits_pointwise N body c v hbody rest (nl.set i (v i))
        (by rw [List.length_set]; exact hlen) hrest
      refine ⟨nl1, by simp only [foldHits, hb]; exact h1, h2, ?_⟩
      intro n loc hn
      by_cases hni : n = i
      · subst hni
        have hloc : loc = nl[n] := by
          rw [List.getElem?_eq_getElem hi] at hn
          exact (Option.some.inj hn).symm
        rw [h3 n (v n) (by rw [List.getElem?_set_self hi])]
        subst hloc
        simp [hc]
      · rw [h3 n loc (by rw [List.getElem?_set_ne (Ne.symm hni)]; exact hn)]
        simp [hni]
    · rw [if_neg hc] at hb
      obtain ⟨nl1, h1, h2, h3⟩ := foldHits_pointwise N body c v hbody rest nl hlen hrest
      refine ⟨nl1, by simp only [foldHits, hb]; exact h1, h2, ?_⟩
      intro n loc hn
      rw [h3 n loc hn]
      by_cases hni : n = i
      · subst hni
        have hloc : loc = nl[n] := by
          rw [List.getElem?_eq_getElem hi] at hn
          exact (Option.some.inj hn).symm
        subst hloc
        simp [hc]
      · simp [hni]

theorem getD_of_getElem? (coords : List GPSCoordinate) (i : Nat) (gps : GPSCoordinate)
    (h : coords[i]? = some gps) : coords.getD i missingCoordinate = gps := by
  rw [List.getD_eq_getElem?_getD, h]
  rfl

/-- One round of the place loop for a place without an outline: the entry of a node becomes
(true, index, distance) if the place claims the node and the distance is not `>=` the
distance of the entry, and is unchanged otherwise. -/
theorem assignPlace_radius (geo : Geometry) (coords : List GPSCoordinate)
    (outlines : List Outline) (nl : List NodeLocation) (index : Nat) (place : Location)
    (hlen : nl.length = coords.length)
    (hIn : ∀ (c : GPSCoordinate) (r : Double), ∀ i ∈ geo.NearNeighbors coords c r,
      i < coords.length)
    (hNo : findOutline geo outlines place = none) :
    ∃ nl1, assignPlace geo coords outlines nl index place = some nl1
      ∧ nl1.length = coords.length
      ∧ ∀ (n : Nat) (loc : NodeLocation), nl[n]? = some loc →
          nl1[n]? = some (if claimsNode geo coords place n = true
              ∧ Double.le loc.distance (nodeDistance geo coords place n) = false then
            ⟨true, index, nodeDistance geo coords place n⟩ else loc) := by
  unfold assignPlace
  rw [hNo]
  cases hr : placeRadius place.type with
  | none =>
    refine ⟨nl, rfl, hlen, ?_⟩
    intro n loc hn
    simp [claimsNode, hr, hn]
  | some radius =>
    have hbody : ∀ (l : List NodeLocation) (i : Nat) (loc : NodeLocation),
        l.length = coords.length → l[i]? = some loc →
        radiusStep geo coords place index l i
          = some (if (!Double.le loc.distance (nodeDistance geo coords place i)) = true then
              l.set i ⟨true, index, nodeDistance geo coords place i⟩ else l) := by
      intro l i loc hl hloc
      have hi : i < coords.length := by
        rw [← hl]
        by_contra hcon
        rw [List.getElem?_eq_none (not_lt.mp hcon)] at hloc
        cases hloc
      simp only [radiusStep, List.getElem?_eq_getElem hi, hloc, nodeDistance,
        List.getD_eq_getElem _ _ hi]
      cases Double.le loc.distance (geo.ApproximateDistance coords[i] place.coordinate) <;> simp
    obtain ⟨nl1, h1, h2, h3⟩ := foldHits_pointwise coords.length _
      (fun i loc => !Double.le loc.distance (nodeDistance geo coords place i))
      (fun i => ⟨true, index, nodeDistance geo coords place i⟩) hbody
      (geo.NearNeighbors coords place.coordinate radius) nl hlen (hIn _ _)
    refine ⟨nl1, h1, h2, ?_⟩
    intro n loc hn
    rw [h3 n loc hn]
    simp [claimsNode, hr]

/-- The place loop after one more place. -/
theorem assignPlaces_append (geo : Geometry) (coords : List GPSCoordinate)
    (outlines : List Outline) (p : Location) :
    ∀ (ps : List Location) (index : Nat) (nl : List NodeLocation),
      assignPlaces geo coords outlines (ps ++ [p]) index nl
        = (assignPlaces geo coords outlines ps index nl).bind
            (fun nl1 => assignPlace geo coords outlines nl1 (index + ps.length) p)
  | [], index, nl => by
    simp only [List.nil_append, assignPlaces, List.length_nil, Nat.add_zero, Option.some_bind]
    cases assignPlace geo coords outlines nl index p <;> rfl
  | q :: ps, index, nl => by
    simp only [List.cons_append, assignPlaces, List.length_cons]
    cases assignPlace geo coords outlines nl index q with
    | none => rfl
    | some nl1 =>
      show assignPlaces geo coords outlines (ps ++ [p]) (index + 1) nl1 = _
      rw [assignPlaces_append geo coords outlines p ps (index + 1) nl1]
      congr 1
      funext nl2
      congr 1
      omega

theorem getElem?_append_singleton (ps : List Location) (p q : Location) (j : Nat) :
    (ps ++ [p])[j]? = some q ↔ ps[j]? = some q ∨ (j = ps.length ∧ q = p) := by
  by_cases hj : j < ps.length
  · rw [List.getElem?_append_left hj]
    constructor
    · exact Or.inl
    · rintro (h | ⟨h, _⟩)
      · exact h
      · omega
  · have hge : ps.length ≤ j := not_lt.mp hj
    rw [List.getElem?_append_right hge, List.getElem?_eq_none hge]
    by_cases hz : j - ps.length = 0
    · rw [hz]
      simp only [List.getElem?_cons_zero, Option.some.injEq, false_or, reduceCtorEq]
      constructor
      · intro h; exact ⟨by omega, h.symm⟩
      · rintro ⟨_, h⟩; exact h.symm
    · obtain ⟨k, hk⟩ := Nat.exists_eq_succ_of_ne_zero hz
      rw [hk]
      simp only [List.getElem?_cons_succ, List.getElem?_nil, false_or, reduceCtorEq, false_iff,
        not_and]
      intro h; omega

/-- The state of the place loop after the places `ps`, none of which has an outline that
contains it: the entry of a node that no place claims is the initial one, and the entry of a
node that some place claims names the first of the claiming places at the least distance. -/
theorem assignPlaces_nearest (geo : Geometry) (coords : List GPSCoordinate)
    (outlines : List Outline)
    (hIn : ∀ (c : GPSCoordinate) (r : Double), ∀ i ∈ geo.NearNeighbors coords c r,
      i < coords.length)
    (hD : ∀ c1 c2 : GPSCoordinate, (geo.ApproximateDistance c1 c2).isFinite = true
      ∧ Double.lt (geo.ApproximateDistance c1 c2) maxDouble = true) :
    ∀ ps : List Location, (∀ p ∈ ps, findOutline geo outlines p = none) →
      ∃ nl, assignPlaces geo coords outlines ps 0 (noPlaces coords.length) = some nl
        ∧ nl.length = coords.length
        ∧ ∀ n : Nat, n < coords.length →
            ((∀ (j : Nat) (p : Location), ps[j]? = some p → claimsNode geo coords p n = false)
                ∧ nl[n]? = some ⟨false, 0, maxDouble⟩)
            ∨ (∃ (j : Nat) (p : Location), ps[j]? = some p ∧ claimsNode geo coords p n = true
                ∧ nl[n]? = some ⟨true, j, nodeDistance geo coords p n⟩
                ∧ ∀ (j1 : Nat) (p1 : Location), ps[j1]? = some p1 →
                    claimsNode geo coords p1 n = true →
                    Double.le (nodeDistance geo coords p n) (nodeDistance geo coords p1 n) = true
                    ∧ (j1 < j →
                      Double.lt (nodeDistance geo coords p n) (nodeDistance geo coords p1 n)
                        = true)) := by
  intro ps
  induction ps using List.reverseRecOn with
  | nil =>
    intro _
    refine ⟨noPlaces coords.length, rfl, by simp [noPlaces], ?_⟩
    intro n hn
    refine Or.inl ⟨?_, ?_⟩
    · intro j p h
      simp at h
    · rw [noPlaces_eq, List.getElem?_replicate, if_pos hn]
  | append_singleton ps p ih =>
    intro hNo
    obtain ⟨nl, hrun, hlen, hinv⟩ := ih (fun q hq => hNo q (List.mem_append_left _ hq))
    obtain ⟨nl1, hstep, hlen1, hnode⟩ := assignPlace_radius geo coords outlines nl ps.length p
      hlen hIn (hNo p (List.mem_append_right _ (List.mem_singleton_self p)))
    refine ⟨nl1, ?_, hlen1, ?_⟩
    · rw [assignPlaces_append, hrun, Option.some_bind, Nat.zero_add]
      exact hstep
    intro n hn
    have hfin : ∀ q : Location, (nodeDistance geo coords q n).isFinite = true :=
      fun q => (hD _ _).1
    have hrefl : ∀ q : Location,
        Double.le (nodeDistance geo coords q n) (nodeDistance geo coords q n) = true :=
      fun q => (le_iff_of_finite _ _ (hfin q) (hfin q)).mpr (le_refl _)
    have hloc : nl[n]? = some nl[n] := List.getElem?_eq_getElem (hlen ▸ hn)
    have hnew := hnode n nl[n] hloc
    by_cases hcl : claimsNode geo coords p n = true
    · -- the new place claims the node
      rcases hinv n hn with ⟨hnone, hinit⟩ | ⟨j, q, hq, hqc, hent, hmin⟩
      · -- first claim
        have hval : nl[n] = ⟨false, 0, maxDouble⟩ := by
          rw [hloc] at hinit; exact Option.some.inj hinit
        have hle : Double.le maxDouble (nodeDistance geo coords p n) = false := by
          have h1 := (lt_iff_of_finite _ _ (hfin p) maxDouble_finite).mp (hD _ _).2
          cases hc : Double.le maxDouble (nodeDistance geo coords p n) with
          | false => rfl
          | true =>
            have h2 := (le_iff_of_finite _ _ maxDouble_finite (hfin p)).mp hc
            exact absurd h1 (not_lt.mpr h2)
        rw [hval] at hnew
        simp only [hcl, hle, and_self, if_true] at hnew
        refine Or.inr ⟨ps.length, p, ?_, hcl, hnew, ?_⟩
        · rw [getElem?_append_singleton]; exact Or.inr ⟨rfl, rfl⟩
        · intro j1 p1 hp1 hc1
          rcases (getElem?_append_singleton ps p p1 j1).mp hp1 with h | ⟨_, rfl⟩
          · rw [hnone j1 p1 h] at hc1; cases hc1
          · exact ⟨hrefl _, fun h => absurd h (by omega)⟩
      · -- a place before claims the node
        have hjlt : j < ps.length := by
          by_contra hcon
          rw [List.getElem?_eq_none (not_lt.mp hcon)] at hq
          cases hq
        have hval : nl[n] = ⟨true, j, nodeDistance geo coords q n⟩ := by
          rw [hloc] at hent; exact Option.some.inj hent
        rw [hval] at hnew
        cases hc : Double.le (nodeDistance geo coords q n) (nodeDistance geo coords p n) with
        | true =>
          simp only [hcl, hc, Bool.true_eq_false, and_false, if_false] at hnew
          refine Or.inr ⟨j, q, ?_, hqc, hnew, ?_⟩
          · rw [getElem?_append_singleton]; exact Or.inl hq
          · intro j1 p1 hp1 hc1
            rcases (getElem?_append_singleton ps p p1 j1).mp hp1 with h | ⟨h, rfl⟩
            · exact hmin j1 p1 h hc1
            · exact ⟨hc, fun h2 => absurd h2 (by omega)⟩
        | false =>
          simp only [hcl, hc, and_self, if_true] at hnew
          have hlt : (nodeDistance geo coords p n).toRat < (nodeDistance geo coords q n).toRat := by
            by_contra hcon
            have := (le_iff_of_finite _ _ (hfin q) (hfin p)).mpr (not_lt.mp hcon)
            rw [hc] at this; cases this
          refine Or.inr ⟨ps.length, p, ?_, hcl, hnew, ?_⟩
          · rw [getElem?_append_singleton]; exact Or.inr ⟨rfl, rfl⟩
          · intro j1 p1 hp1 hc1
            rcases (getElem?_append_singleton ps p p1 j1).mp hp1 with h | ⟨h, rfl⟩
            · have h3 := (le_iff_of_finite _ _ (hfin q) (hfin p1)).mp (hmin j1 p1 h hc1).1
              have h4 : (nodeDistance geo coords p n).toRat
                  < (nodeDistance geo coords p1 n).toRat := lt_of_lt_of_le hlt h3
              exact ⟨(le_iff_of_finite _ _ (hfin p) (hfin p1)).mpr (le_of_lt h4),
                fun _ => (lt_iff_of_finite _ _ (hfin p) (hfin p1)).mpr h4⟩
            · exact ⟨hrefl _, fun h2 => absurd h2 (by omega)⟩
    · -- the new place does not claim the node
      have hcf : claimsNode geo coords p n = false := by
        cases h : claimsNode geo coords p n
        · rfl
        · exact absurd h hcl
      simp only [hcf, Bool.false_eq_true, false_and, if_false] at hnew
      rw [hnew, ← hloc]
      rcases hinv n hn with ⟨hnone, hinit⟩ | ⟨j, q, hq, hqc, hent, hmin⟩
      · refine Or.inl ⟨?_, hinit⟩
        intro j1 p1 hp1
        rcases (getElem?_append_singleton ps p p1 j1).mp hp1 with h | ⟨_, rfl⟩
        · exact hnone j1 p1 h
        · exact hcf
      · refine Or.inr ⟨j, q, ?_, hqc, hent, ?_⟩
        · rw [getElem?_append_singleton]; exact Or.inl hq
        · intro j1 p1 hp1 hc1
          rcases (getElem?_append_singleton ps p p1 j1).mp hp1 with h | ⟨_, rfl⟩
          · exact hmin j1 p1 h hc1
          · rw [hcf] at hc1; cases hc1

/-! ## C13: the nearest place wins -/

/-- The guard of the place loop and the radius query of the specification agree: the `switch`
over the type of the place gives the radius 300, 1000, 5000 or 10000 for a Hamlet, Village,
Town or City and leaves the round for the types None and Suburb. -/
theorem claimsNode_iff_specClaims (geo : Geometry) (coords : List GPSCoordinate)
    (place : Location) (n : Nat) :
    claimsNode geo coords place n = true ↔ specClaims geo coords place n := by
  obtain ⟨name, coordinate, type⟩ := place
  cases type <;> simp [claimsNode, placeRadius, specClaims]

/-- C13: when no place has an outline that contains it, the query of the k-d tree returns
data of its points and the approximate distances are numbers below the largest double, the
place loop ends with a vector in which a routing node `n` is in a place exactly when some
place of type Hamlet, Village, Town or City returns `n` from the query with the radius 300,
1000, 5000 or 10000 (a place of type None or Suburb gets no node); then the entry names such
a place at the least distance, the first of them in the order of the places, with that
distance. -/
theorem C13_nearest_place_wins (geo : Geometry) (coords : List GPSCoordinate)
    (outlines : List Outline) (places : List Location)
    (hNo : ∀ p ∈ places, findOutline geo outlines p = none)
    (hIn : ∀ (c : GPSCoordinate) (r : Double), ∀ i ∈ geo.NearNeighbors coords c r,
      i < coords.length)
    (hD : ∀ c1 c2 : GPSCoordinate, (geo.ApproximateDistance c1 c2).isFinite = true
      ∧ Double.lt (geo.ApproximateDistance c1 c2) maxDouble = true) :
    ∃ nl, placeAssignment geo coords outlines places = some nl
      ∧ nl.length = coords.length
      ∧ ∀ n : Nat, n < coords.length →
          ((nl[n]?.map (fun location => location.isInPlace) = some true
              ↔ ∃ (j : Nat) (p : Location), places[j]? = some p
                  ∧ specClaims geo coords p n)
            ∧ ((∀ (j : Nat) (p : Location), places[j]? = some p →
                  p.type = Place.None ∨ p.type = Place.Suburb) →
                nl[n]? = some ⟨false, 0, maxDouble⟩)
            ∧ ((∃ (j : Nat) (p : Location), places[j]? = some p
                  ∧ specClaims geo coords p n) →
                ∃ (j : Nat) (p : Location), places[j]? = some p
                  ∧ specClaims geo coords p n
                  ∧ nl[n]? = some ⟨true, j, nodeDistance geo coords p n⟩
                  ∧ ∀ (j1 : Nat) (p1 : Location), places[j1]? = some p1 →
                      specClaims geo coords p1 n →
                      Double.le (nodeDistance geo coords p n) (nodeDistance geo coords p1 n)
                          = true
                        ∧ (j1 < j →
                          Double.lt (nodeDistance geo coords p n)
                            (nodeDistance geo coords p1 n) = true))) := by
  obtain ⟨nl, hrun, hlen, hinv⟩ := assignPlaces_nearest geo coords outlines hIn hD places hNo
  refine ⟨nl, hrun, hlen, ?_⟩
  intro n hn
  have hsub : (∀ (j : Nat) (p : Location), places[j]? = some p →
      p.type = Place.None ∨ p.type = Place.Suburb) →
      ∀ (j : Nat) (p : Location), places[j]? = some p → ¬ specClaims geo coords p n := by
    intro hall j p hp hc
    rcases hall j p hp with ht | ht <;>
      rcases hc with ⟨h, _⟩ | ⟨h, _⟩ | ⟨h, _⟩ | ⟨h, _⟩ <;>
        · rw [ht] at h
          cases h
  rcases hinv n hn with ⟨hnone, hinit⟩ | ⟨j, p, hp, hc, hent, hmin⟩
  · have hno : ¬ ∃ (j : Nat) (p : Location), places[j]? = some p
        ∧ specClaims geo coords p n := by
      rintro ⟨j, p, hp, hc⟩
      have := (claimsNode_iff_specClaims geo coords p n).mpr hc
      rw [hnone j p hp] at this
      cases this
    refine ⟨?_, fun _ => hinit, fun h => absurd h hno⟩
    rw [hinit]
    simp only [Option.map_some', Option.some.injEq, Bool.false_eq_true, false_iff]
    exact hno
  · have hc1 := (claimsNode_iff_specClaims geo coords p n).mp hc
    refine ⟨?_, fun hall => absurd hc1 (hsub hall j p hp), fun _ =>
      ⟨j, p, hp, hc1, hent, fun j1 p1 hp1 hc2 =>
        hmin j1 p1 hp1 ((claimsNode_iff_specClaims geo coords p1 n).mpr hc2)⟩⟩
    rw [hent]
    simp only [Option.map_some', true_iff]
    exact ⟨j, p, hp, hc1⟩

/-- C13 at five routing nodes at the distances 200, 700, 3000, 7000 and 20000 from a suburb, a
hamlet, a village, a town, a city and a place without type, in this order: the nodes get the
hamlet, the village, the town and the city as the first place whose radius reaches them, and
the last node is in no place. At scenario S4 with the places "X" (a city), "S" (a suburb) and
"Y" (a city) both routing nodes are 55 from every place and both entries name place 0. -/
theorem C13_nearest_place_witness :
    (∃ nl, placeAssignment scenarioRadiusGeometry scenarioRadiusCoordinates []
          scenarioRadiusPlaces = some nl
        ∧ nl.length = 5
        ∧ (nl[3]?.map (fun location => location.isInPlace) = some true
          ↔ ∃ (j : Nat) (p : Location), scenarioRadiusPlaces[j]? = some p
              ∧ specClaims scenarioRadiusGeometry scenarioRadiusCoordinates p 3))
      ∧ placeAssignment scenarioRadiusGeometry scenarioRadiusCoordinates []
          scenarioRadiusPlaces
        = some [⟨true, 1, Double.ofInt 200⟩, ⟨true, 2, Double.ofInt 700⟩,
            ⟨true, 3, Double.ofInt 3000⟩, ⟨true, 4, Double.ofInt 7000⟩, ⟨false, 0, maxDouble⟩]
      ∧ placeAssignment scenarioGeometry scenarioS4Context.nodeCoordinates [] scenarioS4Places
        = some [⟨true, 0, Double.ofInt 55⟩, ⟨true, 0, Double.ofInt 55⟩] := by
  refine ⟨?_, by decide, by decide⟩
  obtain ⟨nl, h1, h2, h3⟩ := C13_nearest_place_wins scenarioRadiusGeometry
    scenarioRadiusCoordinates [] scenarioRadiusPlaces
    (by intro p _; rfl)
    (by
      intro c r i hi
      simp only [scenarioRadiusGeometry, List.mem_filter, List.mem_range] at hi
      exact hi.1)
    (by
      intro c1 c2
      simp only [scenarioRadiusGeometry, scenarioRadiusDistance]
      split_ifs with hm
      · simp only [List.mem_cons, List.mem_singleton, List.not_mem_nil, or_false] at hm
        rcases hm with h | h | h | h <;> rw [h] <;> decide
      · decide)
  exact ⟨nl, h1, h2, (h3 3 (by decide)).1⟩

/-! ## C14: containment and radius -/

/-- One round of the place loop for a place with an outline that contains it: the entry of a
node becomes (true, index, 0) if the query finds the node and the outline contains it, and is
unchanged otherwise. -/
theorem assignPlace_contained (geo : Geometry) (coords : List GPSCoordinate)
    (outlines : List Outline) (nl : List NodeLocation) (index : Nat) (place : Location)
    (outline : Outline) (hlen : nl.length = coords.length)
    (hIn : ∀ (c : GPSCoordinate) (r : Double), ∀ i ∈ geo.NearNeighbors coords c r,
      i < coords.length)
    (hO : findOutline geo outlines place = some outline) :
    ∃ nl1, assignPlace geo coords outlines nl index place = some nl1
      ∧ nl1.length = coords.length
      ∧ ∀ (n : Nat) (loc : NodeLocation), nl[n]? = some loc →
          nl1[n]? = some (if
              n ∈ geo.NearNeighbors coords place.coordinate (outlineRadius geo outline place)
              ∧ geo.pointInPolygon outline.way
                  (geo.toPoint (coords.getD n missingCoordinate)) = true then
            ⟨true, index, Double.ofInt 0⟩ else loc) := by
  unfold assignPlace
  rw [hO]
  have hbody : ∀ (l : List NodeLocation) (i : Nat) (loc : NodeLocation),
      l.length = coords.length → l[i]? = some loc →
      containStep geo coords outline index l i
        = some (if geo.pointInPolygon outline.way
              (geo.toPoint (coords.getD i missingCoordinate)) = true then
            l.set i ⟨true, index, Double.ofInt 0⟩ else l) := by
    intro l i loc hl hloc
    have hi : i < coords.length := by
      rw [← hl]
      by_contra hcon
      rw [List.getElem?_eq_none (not_lt.mp hcon)] at hloc
      cases hloc
    have hil : i < l.length := hl ▸ hi
    simp only [containStep, List.getElem?_eq_getElem hi, List.getD_eq_getElem _ _ hi, hil,
      if_true]
    cases geo.pointInPolygon outline.way (geo.toPoint coords[i]) <;> simp
  exact foldHits_pointwise coords.length _
    (fun i _ => geo.pointInPolygon outline.way (geo.toPoint (coords.getD i missingCoordinate)))
    (fun _ => ⟨true, index, Double.ofInt 0⟩) hbody
    (geo.NearNeighbors coords place.coordinate (outlineRadius geo outline place)) nl hlen
    (hIn _ _)

/-- The rounds of places without an outline keep an entry with the distance 0 when the
approximate distances are `>= 0`. -/
theorem assignPlaces_keep_zero (geo : Geometry) (coords : List GPSCoordinate)
    (outlines : List Outline)
    (hIn : ∀ (c : GPSCoordinate) (r : Double), ∀ i ∈ geo.NearNeighbors coords c r,
      i < coords.length)
    (hD : ∀ c1 c2 : GPSCoordinate,
      Double.le (Double.ofInt 0) (geo.ApproximateDistance c1 c2) = true)
    (n : Nat) (loc : NodeLocation) (hz : loc.distance = Double.ofInt 0) :
    ∀ (ps : List Location) (index : Nat) (nl : List NodeLocation),
      nl.length = coords.length → (∀ p ∈ ps, findOutline geo outlines p = none) →
      nl[n]? = some loc →
      ∃ nl1, assignPlaces geo coords outlines ps index nl = some nl1
        ∧ nl1.length = coords.length ∧ nl1[n]? = some loc
  | [], _, nl, hlen, _, hn => ⟨nl, rfl, hlen, hn⟩
  | p :: ps, index, nl, hlen, hNo, hn => by
    obtain ⟨nl1, h1, h2, h3⟩ := assignPlace_radius geo coords outlines nl index p hlen hIn
      (hNo p (List.mem_cons_self _ _))
    have hkeep : nl1[n]? = some loc := by
      rw [h3 n loc hn, hz]
      have : Double.le (Double.ofInt 0) (nodeDistance geo coords p n) = true := hD _ _
      simp [this]
    obtain ⟨nl2, h4, h5, h6⟩ := assignPlaces_keep_zero geo coords outlines hIn hD n loc hz ps
      (index + 1) nl1 h2 (fun q hq => hNo q (List.mem_cons_of_mem _ hq)) hkeep
    exact ⟨nl2, by simp only [assignPlaces, h1]; exact h4, h5, h6⟩

/-- C14: in the round of a place with an outline that contains it, every node that the query
finds inside the outline gets (true, index, 0) whatever its entry was, and the entry of a node
outside the outline is not changed by that round, whatever the radius of the type of the place
would find; the rounds of later places without an outline leave an entry with the distance 0
unchanged when the approximate distances are `>= 0`. -/
theorem C14_containment_beats_radius (geo : Geometry) (coords : List GPSCoordinate)
    (outlines : List Outline)
    (hIn : ∀ (c : GPSCoordinate) (r : Double), ∀ i ∈ geo.NearNeighbors coords c r,
      i < coords.length) :
    (∀ (nl : List NodeLocation) (index : Nat) (place : Location) (outline : Outline),
        nl.length = coords.length → findOutline geo outlines place = some outline →
        ∃ nl1, assignPlace geo coords outlines nl index place = some nl1
          ∧ nl1.length = coords.length
          ∧ ∀ n : Nat, n < coords.length →
              (n ∈ geo.NearNeighbors coords place.coordinate (outlineRadius geo outline place) →
                geo.pointInPolygon outline.way
                  (geo.toPoint (coords.getD n missingCoordinate)) = true →
                nl1[n]? = some ⟨true, index, Double.ofInt 0⟩)
              ∧ (geo.pointInPolygon outline.way
                  (geo.toPoint (coords.getD n missingCoordinate)) = false →
                nl1[n]? = nl[n]?))
      ∧ (∀ (later : List Location) (index : Nat) (nl : List NodeLocation) (n : Nat)
          (loc : NodeLocation),
        nl.length = coords.length → (∀ p ∈ later, findOutline geo outlines p = none) →
        (∀ c1 c2 : GPSCoordinate,
          Double.le (Double.ofInt 0) (geo.ApproximateDistance c1 c2) = true) →
        nl[n]? = some loc → loc.distance = Double.ofInt 0 →
        ∃ nl1, assignPlaces geo coords outlines later index nl = some nl1
          ∧ nl1[n]? = some loc) := by
  refine ⟨?_, ?_⟩
  · intro nl index place outline hlen hO
    obtain ⟨nl1, h1, h2, h3⟩ := assignPlace_contained geo coords outlines nl index place outline
      hlen hIn hO
    refine ⟨nl1, h1, h2, ?_⟩
    intro n hn
    have hloc : nl[n]? = some nl[n] := List.getElem?_eq_getElem (hlen ▸ hn)
    constructor
    · intro hhit hins
      rw [h3 n nl[n] hloc, if_pos ⟨hhit, hins⟩]
    · intro hout
      rw [h3 n nl[n] hloc, hloc, if_neg]
      rintro ⟨_, hins⟩
      rw [hout] at hins
      cases hins
  · intro later index nl n loc hlen hNo hD hn hz
    obtain ⟨nl1, h1, _, h3⟩ := assignPlaces_keep_zero geo coords outlines hIn hD n loc hz later
      index nl hlen hNo hn
    exact ⟨nl1, h1, h3⟩

/-- C14 at scenario S5 with a city "C" behind the town "T": node 0, inside the outline, gets
(true, 0, 0) from the entry (true, 7, 3) as well, node 1, outside, keeps its entry, and the
round of the city leaves the entry of node 0 as it is and takes node 1 at the distance 55. -/
theorem C14_containment_witness :
    (∃ nl1, assignPlace scenarioGeometry scenarioS5Coordinates [scenarioS5Outline]
          [⟨true, 7, Double.ofInt 3⟩, ⟨true, 7, Double.ofInt 3⟩] 0
          ⟨"T", ⟨atof "0.0", atof "0.0"⟩, .Town⟩ = some nl1
        ∧ nl1[0]? = some ⟨true, 0, Double.ofInt 0⟩
        ∧ nl1[1]? = some ⟨true, 7, Double.ofInt 3⟩)
      ∧ placeAssignment scenarioGeometry scenarioS5Coordinates [scenarioS5Outline]
          scenarioS5Places
        = some [⟨true, 0, Double.ofInt 0⟩, ⟨true, 1, Double.ofInt 55⟩] := by
  refine ⟨?_, by decide⟩
  have hIn : ∀ (c : GPSCoordinate) (r : Double),
      ∀ i ∈ scenarioGeometry.NearNeighbors scenarioS5Coordinates c r,
        i < scenarioS5Coordinates.length := by
    intro c r i hi
    simp only [scenarioGeometry] at hi
    split_ifs at hi
    · exact List.mem_range.mp hi
    · cases hi
  obtain ⟨nl1, h1, _, h3⟩ := (C14_containment_beats_radius scenarioGeometry
    scenarioS5Coordinates [scenarioS5Outline] hIn).1
    [⟨true, 7, Double.ofInt 3⟩, ⟨true, 7, Double.ofInt 3⟩] 0
    ⟨"T", ⟨atof "0.0", atof "0.0"⟩, .Town⟩ scenarioS5Outline rfl (by decide)
  exact ⟨nl1, h1, (h3 0 (by decide)).1 (by decide) (by decide),
    (h3 1 (by decide)).2 (by decide)⟩


/-! ## The edge loop on the stream and on the records -/

/-- One round of the edge loop on the fields of a record of `_edges` is the round `mapWay` on
the record: the stream is left behind the record, and what is written are the fields of the
record of `_mapped_edges`, if there is one. -/
theorem edgeRound_encodeEdge (ctx : EdgeContext) (stats : Statistics) (r : EdgeRecord)
    (rest : List Field) (hfit : r.fits) :
    edgeRound ctx ⟨encodeEdge r ++ rest, false⟩ stats
      = (mapWay ctx stats r).map
          (fun p => some (⟨rest, false⟩, (p.1.map encodeMapped).getD [], p.2)) := by
  obtain ⟨hT, hB, hN, hI⟩ := hfit
  simp only [edgeRound, readEdgeHeader_encodeEdge r rest hT hB hN, Bool.false_eq_true, if_false,
    Int.toNat_ofNat, readWayNodes_encoded ctx rest r.nodeIds hI, mapWay]
  cases hm : mapNodes ctx r.nodeIds (!Double.eq r.maxspeed (Double.ofInt 0)) [] with
  | none => rfl
  | some p =>
    obtain ⟨valid, way⟩ := p
    cases valid with
    | false => rfl
    | true =>
      have hv := mapNodes_valid ctx _ _ _ _ hm
      have hlen : way.length = r.nodeIds.length := by
        rw [hv.2]; simp
      simp only [Option.map_some', Bool.not_true, Bool.false_eq_true, if_false, writeWay]
      by_cases hz : (Double.eq r.maxspeed (Double.ofInt 0)
          || (Double.lt r.maxspeed (Double.ofInt 0) && decide (r.type < 0))) = true
      · simp only [hz, if_true, Option.map_some', Option.getD_some, encodeMapped, hlen,
          List.map_nil, List.append_nil]
      · simp only [hz, Bool.false_eq_true, if_false]
        cases segmentLoop ctx r.maxspeed
            (if r.type < 0 then (ctx.settings.speedProfile.names.length : Int) else r.type)
            way stats [] with
        | none => rfl
        | some q =>
          simp only [Option.map_some', Option.getD_some, encodeMapped, hlen]

/-- At the end of the data a round ends the loop. -/
theorem edgeRound_nil (ctx : EdgeContext) (stats : Statistics) :
    edgeRound ctx ⟨[], false⟩ stats = some none := rfl

/-- The edge loop on the file `_edges` that holds the records `rs` writes the fields of the
records of `_mapped_edges` that the rounds `mapWay` give, whatever ways are dropped. -/
theorem edgeLoop_encode (ctx : EdgeContext) :
    ∀ (rs : List EdgeRecord) (fuel : Nat) (stats : Statistics) (ms : List MappedRecord),
      (∀ r ∈ rs, r.fits) → rs.length < fuel →
      edgeLoop ctx fuel ⟨rs.flatMap encodeEdge, false⟩ stats (ms.flatMap encodeMapped)
        = (mapWays ctx rs stats ms).map (fun p => (p.1.flatMap encodeMapped, p.2))
  | [], fuel, stats, ms, _, hf => by
    obtain ⟨k, rfl⟩ := Nat.exists_eq_succ_of_ne_zero (Nat.pos_iff_ne_zero.mp hf)
    simp only [List.flatMap_nil, edgeLoop, edgeRound_nil, mapWays, Option.map_some']
  | r :: rs, fuel, stats, ms, hfit, hf => by
    obtain ⟨k, rfl⟩ := Nat.exists_eq_succ_of_ne_zero
      (Nat.pos_iff_ne_zero.mp (Nat.lt_of_le_of_lt (Nat.zero_le _) hf))
    have hr := hfit r (List.mem_cons_self _ _)
    have hrs : ∀ x ∈ rs, x.fits := fun x hx => hfit x (List.mem_cons_of_mem _ hx)
    have hk : rs.length < k := by simpa using hf
    simp only [List.flatMap_cons, edgeLoop, edgeRound_encodeEdge ctx stats r _ hr, mapWays]
    cases hm : mapWay ctx stats r with
    | none => rfl
    | some p =>
      obtain ⟨om, stats1⟩ := p
      cases om with
      | none =>
        simp only [Option.map_some', Option.map_none', Option.getD_none, List.append_nil]
        exact edgeLoop_encode ctx rs k stats1 ms hrs hk
      | some m =>
        simp only [Option.map_some', Option.getD_some]
        have := edgeLoop_encode ctx rs k stats1 (ms ++ [m]) hrs hk
        simpa using this

/-- The file `_mapped_edges` written from the file `_edges` with the records `rs`. -/
theorem mappedEdgesFile_encode (ctx : EdgeContext) (rs : List EdgeRecord) (stats : Statistics)
    (hfit : ∀ r ∈ rs, r.fits) :
    mappedEdgesFile ctx (rs.flatMap encodeEdge) stats
      = (mapWays ctx rs stats []).map (fun p => (p.1.flatMap encodeMapped, p.2)) := by
  have hlen : ∀ l : List EdgeRecord, l.length ≤ (l.flatMap encodeEdge).length := by
    intro l
    induction l with
    | nil => simp
    | cons r l ih =>
      simp only [List.flatMap_cons, List.length_append, List.length_cons, encodeEdge,
        List.length_map]
      omega
  have := edgeLoop_encode ctx rs ((rs.flatMap encodeEdge).length + 1) stats [] hfit
    (Nat.lt_succ_of_le (hlen rs))
  simpa [mappedEdgesFile] using this


/-! ## C16: ways with the recorded speed 0 -/

/-- C16, amended: for every record of `_edges` whose recorded speed is 0, whatever coordinates
its nodes have, one round of the edge loop reads the record with all its node ids, leaving the
stream at the fields `rest` behind it, and continues with the next round before anything is
written: no name, no flag, no count, no node id and no seconds value. -/
theorem C16_zero_speed_way_dropped (ctx : EdgeContext) (stats : Statistics) (r : EdgeRecord)
    (rest : List Field) (hfit : r.fits)
    (h0 : Double.eq r.maxspeed (Double.ofInt 0) = true) :
    ∃ stats1 : Statistics,
      edgeRound ctx ⟨encodeEdge r ++ rest, false⟩ stats
          = some (some (⟨rest, false⟩, [], stats1))
        ∧ mapWay ctx stats r = some (none, stats1) := by
  have hm : mapWay ctx stats r = some (none, stats) := by
    simp only [mapWay, h0, Bool.not_true, mapNodes_of_invalid, Bool.not_false, if_true]
  refine ⟨stats, ?_, hm⟩
  rw [edgeRound_encodeEdge ctx stats r rest hfit, hm]
  rfl

/-- C16 at a file `_edges` with the record "a" of speed 0 over the nodes 1 and 2, which both
have a coordinate, followed by the record "b": the round for "a" writes nothing and leaves the
stream at the record "b". -/
theorem C16_zero_speed_witness :
    ∃ stats1 : Statistics,
      edgeRound scenarioS4Context
          ⟨encodeEdge ⟨"a", 0, Double.ofInt 0, 1, [1, 2]⟩
            ++ encodeEdge ⟨"b", 0, Double.ofInt (-1), 1, [1, 2]⟩, false⟩ Statistics.zero
          = some (some (⟨encodeEdge ⟨"b", 0, Double.ofInt (-1), 1, [1, 2]⟩, false⟩, [], stats1))
        ∧ mapWay scenarioS4Context Statistics.zero ⟨"a", 0, Double.ofInt 0, 1, [1, 2]⟩
          = some (none, stats1) :=
  C16_zero_speed_way_dropped scenarioS4Context Statistics.zero
    ⟨"a", 0, Double.ofInt 0, 1, [1, 2]⟩ (encodeEdge ⟨"b", 0, Double.ofInt (-1), 1, [1, 2]⟩)
    (by decide) (by decide)

/-- C16 as stated fails on the code: the way of scenario S1 tagged `maxspeed=0` is written to
`_edges` with the speed 0 and both its nodes have coordinates, but the edge loop sets `valid`
to false for it and continues before the header is written, so the file `_mapped_edges` stays
empty; the specification has the header `("", 1, 2, [0, 1])` in it and `numberOfZeroSpeed`
at 1. -/
theorem C16_counterexample :
    (readXML scenarioSettings ImporterState.initial
        [.node 1 (atof "0.0") (atof "0.0") [], .node 2 (atof "0.0") (atof "0.001") [],
         .way [.nd 1, .nd 2, .tag "highway" "residential", .tag "maxspeed" "0"]]).map
        (fun st => st.edgesData) = some [⟨"", 0, Double.ofInt 0, 1, [1, 2]⟩]
      ∧ mappedEdges scenarioSettings scenarioDistance (noPlaces 2)
        [.node 1 (atof "0.0") (atof "0.0") [], .node 2 (atof "0.0") (atof "0.001") [],
         .way [.nd 1, .nd 2, .tag "highway" "residential", .tag "maxspeed" "0"]] = some []
      ∧ mappedEdgesFile scenarioS4Context (encodeEdge ⟨"", 0, Double.ofInt 0, 1, [1, 2]⟩)
          Statistics.zero = some ([], Statistics.zero)
      ∧ mappedEdgesFile scenarioS4Context (encodeEdge ⟨"", 0, Double.ofInt 0, 1, [1, 2]⟩)
          Statistics.zero
        ≠ some ([.text "", .word 1, .word 2, .word 0, .word 1],
            { Statistics.zero with numberOfZeroSpeed := 1 }) := by
  decide


/-! ## `GetRoutingEdges` on a file that ends inside a record -/

theorem toInt32_of_lt (n : Nat) (h : n < 2 ^ 31) : (toInt32 n).toNat = n := by
  have h32 : n % 2 ^ 32 = n := Nat.mod_eq_of_lt (by omega)
  simp only [toInt32, h32, if_pos h, Int.toNat_ofNat]

/-- At the end of the data the loop over the segments reads zeros. -/
theorem readSegments_at_end (b : Nat) :
    ∀ (way : List NodeID) (data : List RoutingEdge),
      ∃ data1, readSegments b way ⟨[], true⟩ data = some (data1, ⟨[], true⟩)
  | [], data => ⟨data, rfl⟩
  | [_], data => ⟨data, rfl⟩
  | x :: y :: rest, data => by
    simp only [readSegments, readReal]
    exact readSegments_at_end b (y :: rest) _

/-- On a stream that holds fewer seconds values than the way has segments, and nothing else,
the loop over the segments reads them and then zeros. -/
theorem readSegments_short (b : Nat) :
    ∀ (way : List NodeID) (secs : List Double) (pastEnd : Bool) (data : List RoutingEdge),
      secs.length + 1 < way.length →
      ∃ data1, readSegments b way ⟨secs.map Field.real, pastEnd⟩ data = some (data1, ⟨[], true⟩)
  | [], _, _, _, h => absurd h (by simp)
  | [_], _, _, _, h => absurd h (by simp)
  | x :: y :: rest, [], pastEnd, data, _ => by
    simp only [List.map_nil, readSegments, readReal]
    exact readSegments_at_end b (y :: rest) _
  | x :: y :: rest, s :: secs, pastEnd, data, h => by
    simp only [List.map_cons, readSegments, readReal]
    exact readSegments_short b (y :: rest) secs pastEnd _ (by simpa using h)

/-- `GetRoutingEdges` returns true for every file that holds the header of one way and then
ends inside the record: among its node ids, or among its seconds values. -/
theorem GetRoutingEdges_truncated (name : String) (b n : Nat) (ids : List Nat)
    (secs : List Double) (hn : n < 2 ^ 31)
    (h : (ids.length < n ∧ secs = []) ∨ (ids.length = n ∧ secs.length + 1 < n)) :
    ∃ data, GetRoutingEdges ([Field.text name, Field.word b, Field.word n]
        ++ ids.map Field.word ++ secs.map Field.real) = some (true, data) := by
  have hloop : ∀ k : Nat, ∃ data, routingEdgesLoop (k + 1 + 1)
      ⟨[Field.text name, Field.word b, Field.word n] ++ ids.map Field.word
        ++ secs.map Field.real, false⟩ [] = some data := by
    intro k
    have hinner : ∃ data1,
        (match readWords n ⟨ids.map Field.word ++ secs.map Field.real, false⟩ [] with
        | none => none
        | some (way, s4) =>
          match readSegments b way s4 [] with
          | none => none
          | some (data1, s5) => some (data1, s5)) = some (data1, ⟨[], true⟩) := by
      rcases h with ⟨hlt, rfl⟩ | ⟨heq, hs⟩
      · obtain ⟨way, hw⟩ := readWords_short n ids false [] hlt
        simp only [List.map_nil, List.append_nil, hw]
        obtain ⟨data1, hd⟩ := readSegments_at_end b way []
        exact ⟨data1, by rw [hd]⟩
      · have hw := readWords_words (secs.map Field.real) false ids []
        rw [heq, List.nil_append] at hw
        simp only [hw]
        obtain ⟨data1, hd⟩ := readSegments_short b ids secs false [] (by omega)
        exact ⟨data1, by rw [hd]⟩
    obtain ⟨data1, hd⟩ := hinner
    refine ⟨data1, ?_⟩
    simp only [routingEdgesLoop, List.cons_append, List.nil_append, readText, readWord,
      Bool.false_eq_true, if_false, toInt32_of_lt n hn]
    cases hr : readWords n ⟨ids.map Field.word ++ secs.map Field.real, false⟩ [] with
    | none => rw [hr] at hd; cases hd
    | some p =>
      obtain ⟨way, s4⟩ := p
      rw [hr] at hd
      simp only [] at hd ⊢
      cases hq : readSegments b way s4 [] with
      | none => rw [hq] at hd; cases hd
      | some q =>
        obtain ⟨d2, s5⟩ := q
        rw [hq] at hd
        simp only [Option.some.injEq, Prod.mk.injEq] at hd
        simp only [hd.1, hd.2, if_true]
  have hfuel : ([Field.text name, Field.word b, Field.word n] ++ ids.map Field.word
      ++ secs.map Field.real).length + 1 = (ids.length + secs.length + 2) + 1 + 1 := by
    simp only [List.length_append, List.length_cons, List.length_nil, List.length_map]
    omega
  obtain ⟨data, hd⟩ := hloop (ids.length + secs.length + 2)
  refine ⟨data, ?_⟩
  unfold GetRoutingEdges
  rw [hfuel, hd]
  rfl


/-! ## The type of a way -/

theorem maxspeedTag_type (acc : Way × Statistics) (value : String) :
    (maxspeedTag acc value).1.type = acc.1.type
      ∧ (maxspeedTag acc value).1.usefull = acc.1.usefull := by
  simp only [maxspeedTag]
  split_ifs <;> exact ⟨rfl, rfl⟩

/-- Only the key `highway` changes the type of a way and its flag `usefull`: the two are -1
and false, or an index of the speed profile and true. -/
theorem readXMLWayChild_type (settings : Settings) (acc : Way × Statistics) (c : WayChild)
    (h : (acc.1.type = -1 ∧ acc.1.usefull = false)
      ∨ (0 ≤ acc.1.type ∧ acc.1.type < (settings.speedProfile.names.length : Int)
          ∧ acc.1.usefull = true)) :
    ((readXMLWayChild settings acc c).1.type = -1
        ∧ (readXMLWayChild settings acc c).1.usefull = false)
      ∨ (0 ≤ (readXMLWayChild settings acc c).1.type
          ∧ (readXMLWayChild settings acc c).1.type < (settings.speedProfile.names.length : Int)
          ∧ (readXMLWayChild settings acc c).1.usefull = true) := by
  cases c with
  | nd ref => exact h
  | other => exact h
  | tag k v =>
    simp only [readXMLWayChild, readXMLWayTag]
    by_cases h1 : k = "oneway"
    · rw [if_pos h1]
      simp only [onewayTag]
      split_ifs <;> exact h
    · rw [if_neg h1]
      by_cases h2 : k = "junction"
      · rw [if_pos h2]
        simp only [junctionTag]
        split_ifs <;> exact h
      · rw [if_neg h2]
        by_cases h3 : k = "highway"
        · rw [if_pos h3]
          simp only [highwayTag]
          by_cases hi : settings.speedProfile.names.indexOf v
              < settings.speedProfile.names.length
          · rw [if_pos hi]
            have hlt : ((settings.speedProfile.names.indexOf v : Nat) : Int)
                < (settings.speedProfile.names.length : Int) := by exact_mod_cast hi
            exact Or.inr ⟨Int.natCast_nonneg _, hlt, rfl⟩
          · rw [if_neg hi]
            split_ifs <;> exact h
        · rw [if_neg h3]
          split_ifs
          · exact h
          · exact h
          · simp only [placeTag]; cases placeOfValue v <;> exact h
          · rw [(maxspeedTag_type acc v).1, (maxspeedTag_type acc v).2]; exact h
          · simp only [accessTag]; split_ifs <;> exact h

/-- The way that `readXMLWay` returns has the type -1 and is not `usefull`, or has an index of
the speed profile as type and is `usefull`. -/
theorem readXMLWay_type (settings : Settings) (stats : Statistics) (children : List WayChild) :
    ((readXMLWay settings stats children).1.type = -1
        ∧ (readXMLWay settings stats children).1.usefull = false)
      ∨ (0 ≤ (readXMLWay settings stats children).1.type
          ∧ (readXMLWay settings stats children).1.type
            < (settings.speedProfile.names.length : Int)
          ∧ (readXMLWay settings stats children).1.usefull = true) := by
  unfold readXMLWay
  have key : ∀ (cs : List WayChild) (acc : Way × Statistics),
      ((acc.1.type = -1 ∧ acc.1.usefull = false)
        ∨ (0 ≤ acc.1.type ∧ acc.1.type < (settings.speedProfile.names.length : Int)
            ∧ acc.1.usefull = true)) →
      (((cs.foldl (readXMLWayChild settings) acc).1.type = -1
          ∧ (cs.foldl (readXMLWayChild settings) acc).1.usefull = false)
        ∨ (0 ≤ (cs.foldl (readXMLWayChild settings) acc).1.type
            ∧ (cs.foldl (readXMLWayChild settings) acc).1.type
              < (settings.speedProfile.names.length : Int)
            ∧ (cs.foldl (readXMLWayChild settings) acc).1.usefull = true)) := by
    intro cs
    induction cs with
    | nil => intro acc h; exact h
    | cons c cs ih =>
      intro acc h
      simp only [List.foldl_cons]
      exact ih _ (readXMLWayChild_type settings acc c h)
  exact key children _ (Or.inl ⟨rfl, rfl⟩)

/-- Every record that pass 1 writes to `_edges` has an index of the speed profile as type, and
the flag 0 or 1. -/
theorem edges_type (settings : Settings) (elements : List Element) (st : ImporterState)
    (h : readXML settings ImporterState.initial elements = some st) (r : EdgeRecord)
    (hr : r ∈ st.edgesData) :
    0 ≤ r.type ∧ r.type < (settings.speedProfile.names.length : Int)
      ∧ (r.bidirectional = 0 ∨ r.bidirectional = 1) ∧ 0 < r.nodeIds.length := by
  obtain ⟨-, h2, -, -⟩ := readXML_fields settings elements _ st h
  rw [h2] at hr
  simp only [ImporterState.initial, List.nil_append, List.mem_flatMap] at hr
  obtain ⟨el, -, hrel⟩ := hr
  cases el with
  | way children =>
    simp only [elementEdges] at hrel
    split_ifs at hrel with hu
    · simp only [List.mem_singleton] at hrel
      subst hrel
      have htype : (wayForEdges settings (parsedWay settings children)).type
          = (parsedWay settings children).type := by
        simp only [wayForEdges]
        split_ifs <;> rfl
      have hpath := (wayForEdges_fields settings (parsedWay settings children)).1
      have hinv := readXMLWay_type settings Statistics.zero children
      simp only [Way.usable, Bool.and_eq_true, decide_eq_true_eq] at hu
      have hty : 0 ≤ (parsedWay settings children).type
          ∧ (parsedWay settings children).type < (settings.speedProfile.names.length : Int) := by
        rcases hinv with ⟨_, hf⟩ | ⟨h0, h1, _⟩
        · have : (parsedWay settings children).usefull = false := hf
          rw [hu.1.1] at this
          cases this
        · exact ⟨h0, h1⟩
      refine ⟨?_, ?_, ?_, ?_⟩
      · simp only [edgeRecord, htype]; exact hty.1
      · simp only [edgeRecord, htype]; exact hty.2
      · simp only [edgeRecord]
        split_ifs
        · exact Or.inl rfl
        · exact Or.inr rfl
      · simp only [edgeRecord, hpath]
        split_ifs
        · rw [List.length_reverse]; exact hu.2
        · exact hu.2
    · simp at hrel
  | node id lat lon children => simp [elementEdges] at hrel
  | bound box => simp [elementEdges] at hrel
  | other => simp [elementEdges] at hrel

/-! ## The edge loop reads no entry out of range -/

/-- One round of the edge loop is defined for a record whose node ids have a slot in
`nodeCoordinates` and whose type is below the size of the speed profile, when the tables of
the profile are as long as `names` and `nodeLocation` is as long as `nodeCoordinates`. -/
theorem mapWay_total (ctx : EdgeContext) (stats : Statistics) (r : EdgeRecord)
    (hType : r.type < (ctx.settings.speedProfile.names.length : Int))
    (hU : ∀ id ∈ r.nodeIds, lower_bound ctx.usedNodes id < ctx.nodeCoordinates.length)
    (hL : ctx.nodeLocation.length = ctx.nodeCoordinates.length)
    (hP : ctx.settings.speedProfile.speed.length = ctx.settings.speedProfile.names.length
      ∧ ctx.settings.speedProfile.speedInCity.length = ctx.settings.speedProfile.names.length
      ∧ ctx.settings.speedProfile.averagePercentage.length
        = ctx.settings.speedProfile.names.length) :
    ∃ (written : Option MappedRecord) (stats1 : Statistics),
      mapWay ctx stats r = some (written, stats1) := by
  obtain ⟨v, w, hm⟩ := mapNodes_total ctx r.nodeIds (!Double.eq r.maxspeed (Double.ofInt 0)) []
    hU
  unfold mapWay
  rw [hm]
  cases v with
  | false => exact ⟨none, stats, rfl⟩
  | true =>
    have hw : w = r.nodeIds.map (lower_bound ctx.usedNodes) := by
      have := (mapNodes_valid ctx _ _ _ _ hm).2
      simpa using this
    have hwlt : ∀ a ∈ w, a < ctx.nodeCoordinates.length := by
      intro a ha
      rw [hw, List.mem_map] at ha
      obtain ⟨id, hid, rfl⟩ := ha
      exact hU id hid
    simp only [Bool.not_true, Bool.false_eq_true, if_false]
    by_cases hz : (Double.eq r.maxspeed (Double.ofInt 0)
        || (Double.lt r.maxspeed (Double.ofInt 0) && decide (r.type < 0))) = true
    · rw [if_pos hz]
      exact ⟨_, _, rfl⟩
    · rw [if_neg hz]
      have hz1 : ¬ (Double.lt r.maxspeed (Double.ofInt 0) = true ∧ r.type < 0) := by
        intro hcon
        apply hz
        simp [hcon.1, hcon.2]
      obtain ⟨seconds, st1, hloop⟩ := segmentLoop_total ctx r.maxspeed
        (if r.type < 0 then (ctx.settings.speedProfile.names.length : Int) else r.type)
        (by split_ifs <;> omega)
        (by
          intro hs
          have hge : ¬ r.type < 0 := fun h => hz1 ⟨hs, h⟩
          rw [if_neg hge]
          exact hType)
        hP hL w stats [] hwlt
      simp only [hloop]
      exact ⟨_, _, rfl⟩

/-- The edge loop is defined on records as in `mapWay_total`. -/
theorem mapWays_total (ctx : EdgeContext)
    (hL : ctx.nodeLocation.length = ctx.nodeCoordinates.length)
    (hP : ctx.settings.speedProfile.speed.length = ctx.settings.speedProfile.names.length
      ∧ ctx.settings.speedProfile.speedInCity.length = ctx.settings.speedProfile.names.length
      ∧ ctx.settings.speedProfile.averagePercentage.length
        = ctx.settings.speedProfile.names.length) :
    ∀ (rs : List EdgeRecord) (stats : Statistics) (out : List MappedRecord),
      (∀ r ∈ rs, r.type < (ctx.settings.speedProfile.names.length : Int)
        ∧ ∀ id ∈ r.nodeIds, lower_bound ctx.usedNodes id < ctx.nodeCoordinates.length) →
      ∃ (ms : List MappedRecord) (stats1 : Statistics),
        mapWays ctx rs stats out = some (ms, stats1)
  | [], stats, out, _ => ⟨out, stats, rfl⟩
  | r :: rs, stats, out, h => by
    have hr := h r (List.mem_cons_self _ _)
    have hrs : ∀ x ∈ rs, x.type < (ctx.settings.speedProfile.names.length : Int)
        ∧ ∀ id ∈ x.nodeIds, lower_bound ctx.usedNodes id < ctx.nodeCoordinates.length :=
      fun x hx => h x (List.mem_cons_of_mem _ hx)
    obtain ⟨written, stats1, hm⟩ := mapWay_total ctx stats r hr.1 hr.2 hL hP
    simp only [mapWays, hm]
    cases written with
    | none => exact mapWays_total ctx hL hP rs stats1 out hrs
    | some m => exact mapWays_total ctx hL hP rs stats1 (out ++ [m]) hrs

/-- The context of the edge loop after pass 1: every node id of a record of `_edges` has a slot
in `nodeCoordinates`. -/
theorem edges_slots (settings : Settings) (elements : List Element) (st : ImporterState)
    (h : readXML settings ImporterState.initial elements = some st)
    (nodeLocation : List NodeLocation) (Distance : GPSCoordinate → GPSCoordinate → Double)
    (r : EdgeRecord) (hr : r ∈ st.edgesData) :
    ∀ id ∈ r.nodeIds,
      lower_bound (edgeContext settings st nodeLocation Distance).usedNodes id
        < (edgeContext settings st nodeLocation Distance).nodeCoordinates.length := by
  intro id hid
  have hs : (sortMembers st).usedNodes.Pairwise (· < ·) := pairwise_sortUnique _
  have hmem : id ∈ (sortMembers st).usedNodes := by
    show id ∈ sortUnique st.usedNodes
    rw [mem_sortUnique]
    exact edges_nodeIds_used settings elements st h r hr id hid
  have hlen : (edgeContext settings st nodeLocation Distance).nodeCoordinates.length
      = (sortMembers st).usedNodes.length := by
    simp only [edgeContext]
    exact length_filterCoordinates _ _
  rw [hlen]
  exact (lower_bound_of_mem _ hs id hmem).1

/-- C22: `readXMLWay` leaves the type -1 with `usefull` false, or an index of
`speedProfile.names` with `usefull` true. So for the file `_edges` that pass 1 produces with the
same settings, when the tables `speed`, `speedInCity` and `averagePercentage` are as long as
`names`: every record has a type `0 ≤ type < |names|`, the type that the segment loop uses is
that of the record and satisfies the assertion, the entries `speed[type]`, `speedInCity[type]`
and `averagePercentage[type]` exist, and the edge loop of `preprocessData` is defined on the
file (no failed assertion and no index out of range) once `nodeLocation` has one entry per
routing node. -/
theorem C22_profile_index_safe (settings : Settings) (elements : List Element)
    (st : ImporterState)
    (hread : readXML settings ImporterState.initial elements = some st)
    (hP : settings.speedProfile.speed.length = settings.speedProfile.names.length
      ∧ settings.speedProfile.speedInCity.length = settings.speedProfile.names.length
      ∧ settings.speedProfile.averagePercentage.length = settings.speedProfile.names.length) :
    (∀ (stats : Statistics) (children : List WayChild),
        (((readXMLWay settings stats children).1.type = -1
            ∨ (0 ≤ (readXMLWay settings stats children).1.type
              ∧ (readXMLWay settings stats children).1.type
                < (settings.speedProfile.names.length : Int)))
          ∧ ((readXMLWay settings stats children).1.usefull = true
            ↔ 0 ≤ (readXMLWay settings stats children).1.type)))
      ∧ (∀ r ∈ st.edgesData,
          0 ≤ r.type ∧ r.type < (settings.speedProfile.names.length : Int)
            ∧ (if r.type < 0 then (settings.speedProfile.names.length : Int) else r.type)
              = r.type
            ∧ (∃ v : Double, settings.speedProfile.speed[r.type.toNat]? = some v)
            ∧ (∃ v : Double, settings.speedProfile.speedInCity[r.type.toNat]? = some v)
            ∧ (∃ p : Int, settings.speedProfile.averagePercentage[r.type.toNat]? = some p))
      ∧ (∀ (nodeLocation : List NodeLocation)
          (Distance : GPSCoordinate → GPSCoordinate → Double) (stats : Statistics),
          nodeLocation.length = (sortMembers st).usedNodes.length →
          ∃ (ms : List MappedRecord) (stats1 : Statistics),
            mapWays (edgeContext settings st nodeLocation Distance) st.edgesData stats []
              = some (ms, stats1)) := by
  refine ⟨?_, ?_, ?_⟩
  · intro stats children
    rcases readXMLWay_type settings stats children with ⟨ht, hu⟩ | ⟨h0, hlt, hu⟩
    · refine ⟨Or.inl ht, ?_⟩
      rw [hu, ht]
      constructor
      · intro h
        exact absurd h (by decide)
      · intro h
        exact absurd h (by decide)
    · exact ⟨Or.inr ⟨h0, hlt⟩, fun _ => h0, fun _ => hu⟩
  · intro r hr
    obtain ⟨h0, hlt, _, _⟩ := edges_type settings elements st hread r hr
    have hn : r.type.toNat < settings.speedProfile.names.length := by omega
    refine ⟨h0, hlt, if_neg (by omega), ?_, ?_, ?_⟩
    · exact ⟨_, List.getElem?_eq_getElem (by rw [hP.1]; exact hn)⟩
    · exact ⟨_, List.getElem?_eq_getElem (by rw [hP.2.1]; exact hn)⟩
    · exact ⟨_, List.getElem?_eq_getElem (by rw [hP.2.2]; exact hn)⟩
  · intro nodeLocation Distance stats hL
    have hlen : (edgeContext settings st nodeLocation Distance).nodeCoordinates.length
        = (sortMembers st).usedNodes.length := by
      simp only [edgeContext]
      exact length_filterCoordinates _ _
    apply mapWays_total (edgeContext settings st nodeLocation Distance)
      (by rw [hlen]; exact hL) hP
    intro r hr
    exact ⟨(edges_type settings elements st hread r hr).2.1,
      edges_slots settings elements st hread nodeLocation Distance r hr⟩

/-- C22 applies to scenario S3: pass 1 succeeds and the tables of the profile have one entry. -/
theorem C22_profile_index_witness :
    readXML scenarioS3Settings ImporterState.initial scenarioS3 = some scenarioS3State
      ∧ (∀ r ∈ scenarioS3State.edgesData,
          0 ≤ r.type ∧ r.type < (scenarioS3Settings.speedProfile.names.length : Int))
      ∧ ∃ (ms : List MappedRecord) (stats1 : Statistics),
          mapWays (edgeContext scenarioS3Settings scenarioS3State (noPlaces 2) scenarioDistance)
            scenarioS3State.edgesData Statistics.zero [] = some (ms, stats1) :=
  have h := C22_profile_index_safe scenarioS3Settings scenarioS3 scenarioS3State (by decide)
    (by decide)
  ⟨by decide, fun r hr => ⟨(h.2.1 r hr).1, (h.2.1 r hr).2.1⟩,
    h.2.2 (noPlaces 2) scenarioDistance Statistics.zero (by decide)⟩

/-! ## The seconds values of a record of `_mapped_edges` -/

/-- The segment loop appends one seconds value for every pair of neighbours of `way`. -/
theorem segmentLoop_length (ctx : EdgeContext) (speed : Double) (type : Int) :
    ∀ (way : List NodeID) (stats : Statistics) (out : List Double) (seconds : List Double)
      (stats1 : Statistics),
      segmentLoop ctx speed type way stats out = some (seconds, stats1) →
      seconds.length = out.length + (way.length - 1)
  | [], stats, out, seconds, stats1, h => by
    simp only [segmentLoop, Option.some.injEq, Prod.mk.injEq] at h
    simp [← h.1]
  | [_], stats, out, seconds, stats1, h => by
    simp only [segmentLoop, Option.some.injEq, Prod.mk.injEq] at h
    simp [← h.1]
  | a :: b :: rest, stats, out, seconds, stats1, h => by
    simp only [segmentLoop] at h
    cases hs : segmentSeconds ctx stats speed type a b with
    | none => rw [hs] at h; exact absurd h (by simp)
    | some p =>
      obtain ⟨s, st2⟩ := p
      rw [hs] at h
      have := segmentLoop_length ctx speed type (b :: rest) st2 (out ++ [s]) seconds stats1 h
      simp only [List.length_append, List.length_cons, List.length_nil] at this ⊢
      omega

/-- A record that the edge loop writes for a way with a type that is not negative holds one
seconds value for every pair of neighbours of the path: the `continue` behind the header is
not taken. -/
theorem mapWay_seconds (ctx : EdgeContext) (stats stats1 : Statistics) (r : EdgeRecord)
    (m : MappedRecord) (h : mapWay ctx stats r = some (some m, stats1)) (hType : 0 ≤ r.type) :
    m.seconds.length = m.nodeIds.length - 1 := by
  unfold mapWay at h
  cases hm : mapNodes ctx r.nodeIds (!Double.eq r.maxspeed (Double.ofInt 0)) [] with
  | none => rw [hm] at h; exact absurd h (by simp)
  | some p =>
    obtain ⟨valid, way⟩ := p
    rw [hm] at h
    cases valid with
    | false => simp at h
    | true =>
      have hv := (mapNodes_valid ctx _ _ _ _ hm).1
      have hne : Double.eq r.maxspeed (Double.ofInt 0) = false := by
        cases he : Double.eq r.maxspeed (Double.ofInt 0) with
        | false => rfl
        | true => rw [he] at hv; exact absurd hv (by decide)
      have hge : decide (r.type < 0) = false := by
        rw [decide_eq_false_iff_not]
        omega
      simp only [Bool.not_true, Bool.false_eq_true, if_false, hne, hge, Bool.and_false,
        Bool.or_false] at h
      cases hl : segmentLoop ctx r.maxspeed
          (if r.type < 0 then (ctx.settings.speedProfile.names.length : Int) else r.type)
          way stats [] with
      | none => rw [hl] at h; exact absurd h (by simp)
      | some q =>
        obtain ⟨seconds, st2⟩ := q
        rw [hl] at h
        simp only [Option.some.injEq, Prod.mk.injEq] at h
        have hlen := segmentLoop_length ctx _ _ _ _ _ _ _ hl
        rw [← h.1]
        simpa using hlen

/-- A round of the edge loop writes a record exactly when the node loop keeps the way. -/
theorem mapWay_keeps (ctx : EdgeContext) (stats stats1 : Statistics) (r : EdgeRecord)
    (written : Option MappedRecord) (h : mapWay ctx stats r = some (written, stats1)) :
    keepsWay ctx r = written.isSome := by
  unfold mapWay at h
  unfold keepsWay
  cases hm : mapNodes ctx r.nodeIds (!Double.eq r.maxspeed (Double.ofInt 0)) [] with
  | none => rw [hm] at h; exact absurd h (by simp)
  | some p =>
    obtain ⟨valid, way⟩ := p
    rw [hm] at h
    cases valid with
    | false =>
      simp only [Bool.not_false, if_true, Option.some.injEq, Prod.mk.injEq] at h
      rw [← h.1]
      rfl
    | true =>
      simp only [Bool.not_true, Bool.false_eq_true, if_false] at h
      split at h
      · simp only [Option.some.injEq, Prod.mk.injEq] at h
        rw [← h.1]
        rfl
      · split at h
        · exact absurd h (by simp)
        · simp only [Option.some.injEq, Prod.mk.injEq] at h
          rw [← h.1]
          rfl

/-- The records that the edge loop appends are those of the ways that the node loop keeps, in
the order of `_edges`. -/
theorem mapWays_kept (ctx : EdgeContext) :
    ∀ (rs : List EdgeRecord) (stats : Statistics) (out ms : List MappedRecord)
      (stats1 : Statistics), mapWays ctx rs stats out = some (ms, stats1) →
      ∃ new : List MappedRecord, ms = out ++ new
        ∧ List.Forall₂
          (fun (m : MappedRecord) (r : EdgeRecord) =>
            ∃ (s s1 : Statistics), mapWay ctx s r = some (some m, s1))
          new (rs.filter (keepsWay ctx))
  | [], stats, out, ms, stats1, h => by
    simp only [mapWays, Option.some.injEq, Prod.mk.injEq] at h
    exact ⟨[], by simp [h.1], by simp⟩
  | r :: rs, stats, out, ms, stats1, h => by
    simp only [mapWays] at h
    cases hm : mapWay ctx stats r with
    | none => rw [hm] at h; exact absurd h (by simp)
    | some p =>
      obtain ⟨written, st2⟩ := p
      rw [hm] at h
      have hk := mapWay_keeps ctx stats st2 r written hm
      cases written with
      | none =>
        simp only [] at h
        obtain ⟨new, hnew, hall⟩ := mapWays_kept ctx rs st2 out ms stats1 h
        refine ⟨new, hnew, ?_⟩
        rw [List.filter_cons_of_neg (by simp [hk])]
        exact hall
      | some m =>
        simp only [] at h
        obtain ⟨new, hnew, hall⟩ := mapWays_kept ctx rs st2 (out ++ [m]) ms stats1 h
        refine ⟨m :: new, by simp [hnew], ?_⟩
        rw [List.filter_cons_of_pos (by simp [hk])]
        exact List.Forall₂.cons ⟨stats, st2, hm⟩ hall

/-- In a strictly increasing vector of ids an index is at most the id it holds. -/
theorem index_le_of_pairwise (xs : List NodeID) (hs : xs.Pairwise (· < ·)) :
    ∀ (i : Nat) (v : NodeID), xs[i]? = some v → i ≤ v
  | 0, v, _ => Nat.zero_le v
  | i + 1, v, h => by
    have hi : i + 1 < xs.length := by
      rcases Nat.lt_or_ge (i + 1) xs.length with hlt | hge
      · exact hlt
      · rw [List.getElem?_eq_none hge] at h
        exact absurd h (by simp)
    have hi0 : i < xs.length := Nat.lt_of_succ_lt hi
    have hprev := index_le_of_pairwise xs hs i xs[i] (List.getElem?_eq_getElem hi0)
    have hlt : xs[i] < xs[i + 1] :=
      List.pairwise_iff_getElem.mp hs i (i + 1) hi0 hi (Nat.lt_succ_self i)
    rw [List.getElem?_eq_getElem hi] at h
    have hv : xs[i + 1] = v := Option.some.inj h
    have h1 : i < xs[i + 1] := Nat.lt_of_le_of_lt hprev hlt
    rw [hv] at h1
    exact h1
/-! ## `GetRoutingEdges` on the records of `_mapped_edges` -/

/-- On a stream that starts with one seconds value for every pair of neighbours of `way`, the
loop over the segments appends the edge of every pair with its seconds value, and leaves the
rest of the stream. -/
theorem readSegments_exact (b : Nat) (rest : List Field) (pastEnd : Bool) :
    ∀ (secs : List Double) (way : List NodeID) (data : List RoutingEdge),
      way.length = secs.length + 1 →
      readSegments b way ⟨secs.map Field.real ++ rest, pastEnd⟩ data
        = some (data ++ (List.range secs.length).map (fun j =>
            (⟨way.getD j 0, way.getD (j + 1) 0, b == 1, secs.getD j (Double.ofInt 0)⟩ :
              RoutingEdge)), ⟨rest, pastEnd⟩)
  | [], [], _, h => absurd h (by simp)
  | [], [_], data, _ => by simp [readSegments]
  | [], _ :: _ :: _, _, h => absurd h (by simp)
  | s :: secs, [], _, h => absurd h (by simp)
  | s :: secs, [_], _, h => absurd h (by simp)
  | s :: secs, x :: y :: way, data, h => by
    have hlen : (y :: way).length = secs.length + 1 := by simpa using h
    simp only [List.map_cons, List.cons_append, readSegments, readReal]
    rw [readSegments_exact b rest pastEnd secs (y :: way) _ hlen]
    simp only [List.length_cons, List.range_succ_eq_map, List.map_cons, List.map_map,
      List.append_assoc, List.singleton_append]
    rfl

/-- The word written for a flag 0 or 1 compares with 1 as the flag does. -/
theorem flag_word (i : Int) (h : i = 0 ∨ i = 1) :
    wordOfInt i = Field.word i.toNat ∧ (i.toNat == 1) = decide (i = 1) := by
  rcases h with rfl | rfl
  · exact ⟨by decide, by decide⟩
  · exact ⟨by decide, by decide⟩

/-- One round of the loop of `GetRoutingEdges` on a stream that starts with the fields of a
record whose flag is 0 or 1, whose ids fit 32 bits, and which holds one seconds value for every
pair of neighbours: the edges of the record are appended and the loop goes on behind it. -/
theorem routingEdgesLoop_record (m : MappedRecord) (rest : List Field) (fuel : Nat)
    (data : List RoutingEdge)
    (hb : m.bidirectional = 0 ∨ m.bidirectional = 1)
    (hn : m.nodeIds.length < 2 ^ 31) (hid : ∀ id ∈ m.nodeIds, id < 2 ^ 32)
    (hs : m.seconds.length + 1 = m.nodeIds.length) :
    routingEdgesLoop (fuel + 1) ⟨encodeMapped m ++ rest, false⟩ data
      = routingEdgesLoop fuel ⟨rest, false⟩ (data ++ expectedEdges m) := by
  have hcount : wordOfInt (m.nodeIds.length : Int) = Field.word m.nodeIds.length := by
    have h32 : ((m.nodeIds.length : Int) % 2 ^ 32) = (m.nodeIds.length : Int) :=
      Int.emod_eq_of_lt (Int.natCast_nonneg _) (by omega)
    simp only [wordOfInt, h32, Int.toNat_ofNat]
  have hids : m.nodeIds.map wordOfNat = m.nodeIds.map Field.word :=
    List.map_congr_left (fun id h => wordOfNat_of_lt id (hid id h))
  have hw := readWords_words (m.seconds.map Field.real ++ rest) false m.nodeIds []
  have hseg := readSegments_exact m.bidirectional.toNat rest false m.seconds m.nodeIds data
    hs.symm
  have hlen : m.nodeIds.length - 1 = m.seconds.length := by omega
  simp only [encodeMapped, (flag_word _ hb).1, hcount, hids, List.cons_append, List.nil_append,
    List.append_assoc, routingEdgesLoop, readText, readWord, Bool.false_eq_true, if_false,
    toInt32_of_lt _ hn, hw, hseg, (flag_word _ hb).2, expectedEdges, hlen]

/-- The loop of `GetRoutingEdges` on the fields of the records `ms`, each as in
`routingEdgesLoop_record`: the edges of all records, in order. -/
theorem routingEdgesLoop_encode :
    ∀ (ms : List MappedRecord) (fuel : Nat) (data : List RoutingEdge), ms.length < fuel →
      (∀ m ∈ ms, (m.bidirectional = 0 ∨ m.bidirectional = 1) ∧ m.nodeIds.length < 2 ^ 31
        ∧ (∀ id ∈ m.nodeIds, id < 2 ^ 32) ∧ m.seconds.length + 1 = m.nodeIds.length) →
      routingEdgesLoop fuel ⟨ms.flatMap encodeMapped, false⟩ data
        = some (data ++ ms.flatMap expectedEdges)
  | _, 0, _, h, _ => absurd h (Nat.not_lt_zero _)
  | [], fuel + 1, data, _, _ => by
    simp [routingEdgesLoop, readText, readWord]
  | m :: ms, fuel + 1, data, h, hall => by
    obtain ⟨hb, hn, hid, hs⟩ := hall m (List.mem_cons_self _ _)
    rw [List.flatMap_cons, routingEdgesLoop_record m _ fuel data hb hn hid hs,
      routingEdgesLoop_encode ms fuel _ (by simpa using h)
        (fun x hx => hall x (List.mem_cons_of_mem _ hx))]
    simp

/-- `GetRoutingEdges` on a file `_mapped_edges` that holds the records `ms`, each as in
`routingEdgesLoop_record`, returns true with the edges of all records, in order. -/
theorem GetRoutingEdges_encode (ms : List MappedRecord)
    (hall : ∀ m ∈ ms, (m.bidirectional = 0 ∨ m.bidirectional = 1) ∧ m.nodeIds.length < 2 ^ 31
      ∧ (∀ id ∈ m.nodeIds, id < 2 ^ 32) ∧ m.seconds.length + 1 = m.nodeIds.length) :
    GetRoutingEdges (ms.flatMap encodeMapped) = some (true, ms.flatMap expectedEdges) := by
  have hlen : ∀ l : List MappedRecord, l.length ≤ (l.flatMap encodeMapped).length := by
    intro l
    induction l with
    | nil => simp
    | cons m l ih =>
      simp only [List.flatMap_cons, List.length_append, List.length_cons, encodeMapped,
        List.length_map]
      omega
  unfold GetRoutingEdges
  rw [routingEdgesLoop_encode ms _ [] (Nat.lt_succ_of_le (hlen ms)) hall]
  simp

/-- The number of edges of the records `ms`. -/
theorem length_expectedEdges (ms : List MappedRecord) :
    (ms.flatMap expectedEdges).length = (ms.map (fun m => m.nodeIds.length - 1)).sum := by
  induction ms with
  | nil => rfl
  | cons m ms ih =>
    simp only [List.flatMap_cons, List.length_append, List.map_cons, List.sum_cons, ih,
      expectedEdges, List.length_map, List.length_range]
/-- A relation that holds along two lists can be replaced by one that follows from it for the
members of the second list. -/
theorem forall2_of_mem {α β : Type} (R S : α → β → Prop) :
    ∀ (l1 : List α) (l2 : List β), List.Forall₂ R l1 l2 →
      (∀ a b, b ∈ l2 → R a b → S a b) → List.Forall₂ S l1 l2 := by
  intro l1 l2 h
  induction h with
  | nil => intro _; exact List.Forall₂.nil
  | cons hab _ ih =>
    intro himp
    exact List.Forall₂.cons (himp _ _ (List.mem_cons_self _ _) hab)
      (ih (fun a b hb => himp a b (List.mem_cons_of_mem _ hb)))

/-- A property of the first component that holds along two lists holds for every member of the
first list. -/
theorem forall2_left {α β : Type} (P : α → Prop) (S : α → β → Prop) :
    ∀ (l1 : List α) (l2 : List β), List.Forall₂ (fun a b => P a ∧ S a b) l1 l2 →
      ∀ a ∈ l1, P a := by
  intro l1 l2 h
  induction h with
  | nil => intro a ha; exact absurd ha (List.not_mem_nil a)
  | cons hab _ ih =>
    intro a ha
    rcases List.mem_cons.mp ha with rfl | hmem
    · exact hab.1
    · exact ih a hmem

/-- C21: for the file `_edges` that pass 1 produces (tables of the profile as long as `names`,
fields that fit their 32 bits, one `nodeLocation` entry per routing node) the edge loop of
`preprocessData` writes a file `_mapped_edges` with one record for every way that the node loop
keeps, in order, with the name, the flag and the mapped path of the way; every record written
carries exactly `nPath - 1` seconds values; and `GetRoutingEdges` returns true with exactly the
edges that the specification gives for these records, in order, the sum of `nPath - 1` many
in total. -/
theorem C21_mapped_edges_decode (settings : Settings) (elements : List Element)
    (st : ImporterState)
    (hread : readXML settings ImporterState.initial elements = some st)
    (hP : settings.speedProfile.speed.length = settings.speedProfile.names.length
      ∧ settings.speedProfile.speedInCity.length = settings.speedProfile.names.length
      ∧ settings.speedProfile.averagePercentage.length = settings.speedProfile.names.length)
    (hfit : ∀ r ∈ st.edgesData, r.fits)
    (nodeLocation : List NodeLocation) (Distance : GPSCoordinate → GPSCoordinate → Double)
    (hL : nodeLocation.length = (sortMembers st).usedNodes.length) (stats : Statistics) :
    ∃ (ms : List MappedRecord) (stats1 : Statistics),
      mappedEdgesFile (edgeContext settings st nodeLocation Distance)
          (st.edgesData.flatMap encodeEdge) stats
        = some (ms.flatMap encodeMapped, stats1)
      ∧ List.Forall₂
          (fun (m : MappedRecord) (r : EdgeRecord) =>
            m.name = r.name ∧ m.bidirectional = r.bidirectional
              ∧ m.nodeIds = r.nodeIds.map (lower_bound (sortMembers st).usedNodes))
          ms (st.edgesData.filter (keepsWay (edgeContext settings st nodeLocation Distance)))
      ∧ (∀ m ∈ ms, 0 < m.nodeIds.length ∧ m.seconds.length = m.nodeIds.length - 1)
      ∧ GetRoutingEdges (ms.flatMap encodeMapped) = some (true, ms.flatMap expectedEdges)
      ∧ (ms.flatMap expectedEdges).length
        = (ms.map (fun m => m.nodeIds.length - 1)).sum := by
  have hlen : (edgeContext settings st nodeLocation Distance).nodeCoordinates.length
      = (sortMembers st).usedNodes.length := by
    simp only [edgeContext]
    exact length_filterCoordinates _ _
  obtain ⟨ms, stats1, hways⟩ := mapWays_total (edgeContext settings st nodeLocation Distance)
    (by rw [hlen]; exact hL) hP st.edgesData stats []
    (fun r hr => ⟨(edges_type settings elements st hread r hr).2.1,
      edges_slots settings elements st hread nodeLocation Distance r hr⟩)
  obtain ⟨new, hnew, hkept⟩ := mapWays_kept _ _ _ _ _ _ hways
  rw [List.nil_append] at hnew
  subst hnew
  have hs : (sortMembers st).usedNodes.Pairwise (· < ·) := pairwise_sortUnique _
  have hfull : List.Forall₂
      (fun (m : MappedRecord) (r : EdgeRecord) =>
        ((m.bidirectional = 0 ∨ m.bidirectional = 1) ∧ m.nodeIds.length < 2 ^ 31
          ∧ (∀ id ∈ m.nodeIds, id < 2 ^ 32) ∧ m.seconds.length + 1 = m.nodeIds.length)
        ∧ (m.name = r.name ∧ m.bidirectional = r.bidirectional
          ∧ m.nodeIds = r.nodeIds.map (lower_bound (sortMembers st).usedNodes)))
      ms (st.edgesData.filter (keepsWay (edgeContext settings st nodeLocation Distance))) := by
    refine forall2_of_mem _ _ _ _ hkept ?_
    rintro m r hr ⟨s, s1, hm⟩
    have hr1 : r ∈ st.edgesData := (List.mem_filter.mp hr).1
    obtain ⟨h0, _, hflag, hpos⟩ := edges_type settings elements st hread r hr1
    obtain ⟨hname, hbi, hids⟩ := mapWay_written _ _ _ _ _ hm
    have hsec := mapWay_seconds _ _ _ _ _ hm h0
    have hids1 : m.nodeIds = r.nodeIds.map (lower_bound (sortMembers st).usedNodes) := hids
    have hml : m.nodeIds.length = r.nodeIds.length := by rw [hids1, List.length_map]
    obtain ⟨_, _, hrn, hrid⟩ := hfit r hr1
    refine ⟨⟨by rw [hbi]; exact hflag, by rw [hml]; exact hrn, ?_, by omega⟩,
      hname, hbi, hids1⟩
    intro id hid
    rw [hids1, List.mem_map] at hid
    obtain ⟨raw, hraw, rfl⟩ := hid
    have hmem : raw ∈ (sortMembers st).usedNodes := by
      show raw ∈ sortUnique st.usedNodes
      rw [mem_sortUnique]
      exact edges_nodeIds_used settings elements st hread r hr1 raw hraw
    have hle := index_le_of_pairwise _ hs _ _ (lower_bound_of_mem _ hs raw hmem).2
    exact Nat.lt_of_le_of_lt hle (hrid raw hraw)
  have hdec := forall2_left _ _ _ _ hfull
  refine ⟨ms, stats1, ?_, ?_, ?_, GetRoutingEdges_encode ms hdec, length_expectedEdges ms⟩
  · rw [mappedEdgesFile_encode _ _ _ hfit, hways]
    rfl
  · exact forall2_of_mem _ _ _ _ hfull (fun _ _ _ h => h.2)
  · intro m hm
    have := hdec m hm
    omega
/-- C21 applies to scenario S3: the file `_mapped_edges` holds the record of the way over the
dense ids 0 and 1 with one seconds value, and `GetRoutingEdges` returns the edge from 0 to 1,
bidirectional, with these seconds. -/
theorem C21_mapped_edges_witness :
    readXML scenarioS3Settings ImporterState.initial scenarioS3 = some scenarioS3State
      ∧ (∀ r ∈ scenarioS3State.edgesData, r.fits)
      ∧ (noPlaces 2).length = (sortMembers scenarioS3State).usedNodes.length
      ∧ (∃ (ms : List MappedRecord) (stats1 : Statistics),
          mappedEdgesFile
              (edgeContext scenarioS3Settings scenarioS3State (noPlaces 2) scenarioDistance)
              (scenarioS3State.edgesData.flatMap encodeEdge) Statistics.zero
            = some (ms.flatMap encodeMapped, stats1)
          ∧ GetRoutingEdges (ms.flatMap encodeMapped) = some (true, ms.flatMap expectedEdges))
      ∧ (mappedEdgesFile
            (edgeContext scenarioS3Settings scenarioS3State (noPlaces 2) scenarioDistance)
            (scenarioS3State.edgesData.flatMap encodeEdge) Statistics.zero).map Prod.fst
          = some [Field.text "", Field.word 1, Field.word 2, Field.word 0, Field.word 1,
              Field.real (atof "133.58399999999997")]
      ∧ GetRoutingEdges [Field.text "", Field.word 1, Field.word 2, Field.word 0, Field.word 1,
            Field.real (atof "133.58399999999997")]
          = some (true, [⟨0, 1, true, atof "133.58399999999997"⟩]) :=
  have h := C21_mapped_edges_decode scenarioS3Settings scenarioS3 scenarioS3State (by decide)
    (by decide) (by decide) (noPlaces 2) scenarioDistance (by decide) Statistics.zero
  ⟨by decide, by decide, by decide,
    h.elim (fun ms h1 => h1.elim (fun stats1 h2 => ⟨ms, stats1, h2.1, h2.2.2.2.1⟩)),
    by decide, by decide⟩

/-! ## Calls of `setSource` and `setGPSLink` that return, and calls that do not -/

/-- With the link not set, `setSource` returns after three steps: `setGPSLink( false )` leaves
at its first line. -/
theorem setSource_returns (env : Collaborators) (st : RoutingLogic) (c : UnsignedCoordinate)
    (k : List Frame) (hl : st.linked = false) :
    run env 3 (st, .setSource c :: k)
      = ({ computeRoute env { st with source := c } with
            emitted := (computeRoute env { st with source := c }).emitted
              ++ [.sourceChanged] }, k) := by
  simp only [run, step, hl, if_true]

/-- A call of `setGPSLink` with the value that `linked` has returns after one step, and a call
with another value returns after two steps when the GPS position is not valid. -/
theorem setGPSLink_returns (env : Collaborators) (st : RoutingLogic) (linked : Bool)
    (k : List Frame) :
    (linked = st.linked → run env 1 (st, .setGPSLink linked :: k) = (st, k))
      ∧ (linked ≠ st.linked → env.IsValid st.position = false →
          run env 2 (st, .setGPSLink linked :: k)
            = ({ st with linked := true, emitted := st.emitted ++ [.gpsLinkChanged true] },
                k)) := by
  constructor
  · intro h
    simp only [run, step, h, if_true]
  · intro h hv
    simp only [run, step, if_neg h, hv, Bool.false_eq_true, if_false]

/-- With the link set and a valid GPS position every step of a call of `setSource` or of
`setGPSLink( false )` makes a call: the stack of frames grows by one with every step. -/
theorem run_grows (env : Collaborators) :
    ∀ (n : Nat) (st : RoutingLogic) (top : Frame) (rest : List Frame),
      st.linked = true → env.IsValid st.position = true →
      ((∃ c, top = .setSource c) ∨ top = .setGPSLink false) →
      (run env n (st, top :: rest)).2.length = rest.length + 1 + n
  | 0, _, _, _, _, _, _ => rfl
  | n + 1, st, top, rest, hl, hv, htop => by
    rcases htop with ⟨c, rfl⟩ | rfl
    · have hstep : step env (st, .setSource c :: rest)
          = (st, .setGPSLink false :: .setSourceRest c :: rest) := rfl
      rw [run, hstep, run_grows env n st _ _ hl hv (Or.inr rfl)]
      simp only [List.length_cons]
      omega
    · have hstep : step env (st, .setGPSLink false :: rest)
          = ({ st with linked := true }, .setSource st.position :: .setGPSLinkRest :: rest) := by
        simp only [step, hl, hv, if_true]
        rfl
      rw [run, hstep, run_grows env n { st with linked := true } _ _ rfl hv (Or.inl ⟨_, rfl⟩)]
      simp only [List.length_cons]
      omega

/-- C23 fails on the code: with a valid GPS position a call of `setSource` in a state with the
link set, and a call of `setGPSLink` with the value that `linked` does not have, never return.
`setGPSLink` stores `true` whatever its argument is, so the call `setGPSLink( false )` of
`setSource` finds `linked` set again and calls `setSource( d->gpsInfo.position )`: after `n`
steps the stack holds `n` more frames than at the call, for every `n`. -/
theorem C23_calls_never_return (env : Collaborators) (st : RoutingLogic) (k : List Frame)
    (hv : env.IsValid st.position = true) :
    (st.linked = true → ∀ (c : UnsignedCoordinate) (n : Nat),
        (run env n (st, .setSource c :: k)).2.length = k.length + 1 + n)
      ∧ (∀ n : Nat,
        (run env n (st, .setGPSLink (!st.linked) :: k)).2.length = k.length + 1 + n) := by
  constructor
  · intro hl c n
    exact run_grows env n st _ k hl hv (Or.inl ⟨c, rfl⟩)
  · intro n
    cases hl : st.linked with
    | true => exact run_grows env n st _ k hl hv (Or.inr rfl)
    | false =>
      cases n with
      | zero => rfl
      | succ n =>
        have hstep : step env (st, .setGPSLink (!false) :: k)
            = ({ st with linked := true }, .setSource st.position :: .setGPSLinkRest :: k) := by
          simp only [step, hl, hv, Bool.not_false, if_true]
          rfl
        rw [run, hstep, run_grows env n { st with linked := true } _ _ rfl hv (Or.inl ⟨_, rfl⟩)]
        simp only [List.length_cons]
        omega

/-- C23 fails after the constructor and one GPS update with a valid position: the call
`setGPSLink( true )` never returns, and after six steps three calls of `setSource` and three
calls of `setGPSLink` wait on the stack. -/
theorem C23_calls_never_return_witness :
    scenarioCollaborators.IsValid scenarioFixState.position = true
      ∧ scenarioFixState.linked = false
      ∧ (∀ n : Nat,
          (run scenarioCollaborators n (scenarioFixState, [.setGPSLink true])).2.length = 1 + n)
      ∧ (run scenarioCollaborators 6 (scenarioFixState, [.setGPSLink true])).2
          = [.setGPSLink false, .setSourceRest ⟨5, 5⟩, .setGPSLinkRest, .setSourceRest ⟨5, 5⟩,
              .setGPSLinkRest, .setSourceRest ⟨5, 5⟩, .setGPSLinkRest] :=
  ⟨by decide, by decide,
    fun n =>
      ((C23_calls_never_return scenarioCollaborators scenarioFixState [] (by decide)).2 n).trans
        (by simp only [List.length_nil, Nat.zero_add]),
    by decide⟩

end MoNav
